import Mathlib

/-!
# gomacro: identifier resolution, for-loop control flow, and method tables

A shallow embedding of three source files of the interpreter:

* `identifier.go`      : `evalIdentifier`
* `interpreter/controlflow.go` : `evalBranch`, `evalReturn`, `evalIf`, `evalFor`,
  `evalForBodyOnce`
* `xreflect/method.go` : `NumMethod`, `NumExplicitMethod`, `NumAllMethod`, `Method`, `method`,
  `checkMethod`, `gmethod`, `makemethod`, `addReceiver`, `removeReceiver`, `resizemethodvalues`

A Go call that can panic returns its outcome as a value: `Res` in the evaluator, where the panic
values are the control-flow signals, and `Except Failure` in package xreflect. What a call
mutates (the environment, the type descriptor) is passed in and handed back. Functions of the
interpreter that these files call but do not declare are parameters (`Interp`, `Host`, `Errorf`),
and so is the table `unicode.IsUpper` of the standard library. The method set of a go/types
interface holds a method once, by its `Id()`, and is ordered by `Id()`. The loop of `evalFor`
takes a bound on its iterations.
-/

set_option autoImplicit false

namespace Gomacro

/-! ## Values and results shared by the evaluator -/

/-- The `reflect.Kind` values the sources compare against, plus the other kinds a type may have. -/
inductive Kind where
  | Invalid | Bool | Int | String | Func | Interface | Map | Ptr | Slice | Struct | Array | Chan
  deriving DecidableEq, Repr

/-- A `reflect.Value` as the evaluator sees it. `Nil` is the zero `reflect.Value` and `None` the
interpreter's "no value" marker; both are package-level variables of the interpreter. -/
inductive Value where
  | Nil
  | None
  | ofBool (b : Bool)
  | ofInt (n : Int)
  | ofString (s : String)
  deriving DecidableEq, Repr

/-- The kind reported by `reflect.Value.Kind()`: the zero value is `Invalid`, `None` wraps an
empty struct. -/
def Value.Kind : Value → Kind
  | .Nil => .Invalid
  | .None => .Struct
  | .ofBool _ => .Bool
  | .ofInt _ => .Int
  | .ofString _ => .String

/-- The method `reflect.Value.Bool()`, called by the sources only on a value of kind `Bool`. -/
def Value.Bool : Value → Bool
  | .ofBool b => b
  | _ => false

/-- What `recover()` can hand back: the four signal types declared in `controlflow.go`
(`Break`, `Continue`, `Panic`, `Return`) and, as `Other`, any other non-nil panic value
(a runtime error, a `reflect.ValueError`, ...). `panic(nil)` is not represented. -/
inductive Recovered where
  | Break (Label : String)
  | Continue (Label : String)
  | Panic (Arg : Value)
  | Return (Results : List Value)
  | Other (err : String)
  deriving DecidableEq, Repr

/-- The outcome of a Go call: a normal return, or a panic unwinding with a value. -/
inductive Res (α : Type) where
  | ret (a : α)
  | panic (rec : Recovered)
  deriving DecidableEq, Repr

/-- The pair `(r.Value, []r.Value)` every statement and expression evaluator returns. -/
abbrev Values := Value × List Value

/-- An argument of a formatting call: a Go string, the content of a `reflect.Value`, or the
printed form of a syntax node or of its type. -/
inductive Arg where
  | str (s : String)
  | val (v : Value)
  | node (printed : String)
  deriving DecidableEq, Repr

/-- The method `reflect.Value.Interface()`: it panics on the zero `reflect.Value`. -/
def Value.Interface : Value → Res Arg
  | .Nil => .panic (.Other "reflect: call of reflect.Value.Interface on zero Value")
  | v => .ret (.val v)

/-! ## identifier.go -/

/-- A `token.Position`. -/
structure Position where
  Filename : String
  Offset : Int
  Line : Int
  Column : Int
  deriving DecidableEq, Repr

/-- A `token.FileSet`, by the one method used: `Position(p)`. -/
structure FileSet where
  Position : Nat → Position

/-- The field `Parser` of an `Env`, by the one field used: `Fileset`. -/
structure Parser where
  Fileset : FileSet

/-- An `ast.Ident`. -/
structure Ident where
  NamePos : Nat
  Name : String
  deriving DecidableEq, Repr

/-- A pointer `*Env`: `nil`, or a frame with the fields the sources read, the map `Binds`, the
link `Outer`, `Parser` and `iotaOffset`. -/
inductive Env where
  | nil
  | frame (Binds : String → Option Value) (Outer : Env) (Parser : Parser) (iotaOffset : Int)

/-- Field `Binds` of a frame; `e.Binds name` is the pair `bind, exists := e.Binds[name]`. -/
def Env.Binds : Env → String → Option Value
  | .nil => fun _ => none
  | .frame b _ _ _ => b

/-- Field `Outer` of a frame. -/
def Env.Outer : Env → Env
  | .nil => .nil
  | .frame _ o _ _ => o

/-- The loop `for e := env; e != nil; e = e.Outer` of `evalIdentifier`, started at `e`: the first
binding found, or `none` when the loop falls through. -/
def evalIdentifierLoop (name : String) : Env → Option Value
  | .nil => none
  | .frame binds outer _ _ =>
    match binds name with
    | some bind => some bind
    | none => evalIdentifierLoop name outer

/-- The method `(env *Env) evalIdentifier(expr *ast.Ident)`. The package function `Errorf`, which
is declared elsewhere, is the parameter `Errorf` (format string and arguments). Reading
`env.Parser` through a nil receiver is a run-time panic. -/
def evalIdentifier (Errorf : String → List Arg → Res Values) (env : Env) (expr : Ident) :
    Res Values :=
  let name := expr.Name
  if name = "false" then .ret (.ofBool false, [])
  else if name = "true" then .ret (.ofBool true, [])
  else if name = "iota" then
    match env with
    | .nil => .panic (.Other "runtime error: invalid memory address or nil pointer dereference")
    | .frame _ _ parser iotaOffset =>
      let pos := parser.Fileset.Position expr.NamePos
      .ret (.ofInt (pos.Line - iotaOffset), [])
  else
    match evalIdentifierLoop name env with
    | some bind => .ret (bind, [])
    | none => Errorf "undefined identifier: %s" [.str name]

/-- The frames visited by the lookup loop started at `e`, innermost first. -/
def Env.chain : Env → List Env
  | .nil => []
  | .frame b o p k => .frame b o p k :: Env.chain o

/-! ## interpreter/controlflow.go -/

/-- The `token.Token` of a branch statement; `OTHER` stands for every remaining token. -/
inductive Token where
  | BREAK | CONTINUE | GOTO | FALLTHROUGH | OTHER (code : Nat)
  deriving DecidableEq, Repr

/-- An `ast.BranchStmt`. -/
structure BranchStmt where
  Tok : Token
  Label : Option Ident
  deriving DecidableEq, Repr

/-- An `ast.ReturnStmt` over expressions of type `Expr`. -/
structure ReturnStmt (Expr : Type) where
  Results : List Expr

/-- An `ast.IfStmt`; `none` is a nil `Init` or `Else`. -/
structure IfStmt (Stmt Expr Block : Type) where
  Init : Option Stmt
  Cond : Expr
  Body : Block
  Else : Option Stmt

/-- An `ast.ForStmt`; `none` is a nil `Init`, `Cond` or `Post`. -/
structure ForStmt (Stmt Expr Block : Type) where
  Init : Option Stmt
  Cond : Option Expr
  Post : Option Stmt
  Body : Block

/-- The methods of `*Env` that `controlflow.go` calls and that are declared in other files of the
interpreter, as parameters. `E` is the type of environments (the `Env` of `identifier.go` is one
instance), handed back by every call because statements mutate it; `Stmt`, `Expr` and `Block` are
the syntax nodes `ast.Stmt`, `ast.Expr` and `*ast.BlockStmt`. -/
structure Interp (E Stmt Expr Block : Type) where
  NewEnv : E → String → E
  evalStatement : E → Stmt → E × Res Values
  evalBlock : E → Block → E × Res Values
  evalExpr1 : E → Expr → E × Res Value
  evalExprs : E → List Expr → E × Res (List Value)
  Errorf : E → String → List Arg → Res Values
  Eval : E → Expr → E × Res Values

/-- One call made by `evalFor`, in the order the calls happen: `init`, `cond` and `post` are the
evaluations of `node.Init`, `node.Cond` and `node.Post`; `body raised` is one call of
`evalForBodyOnce`, with the value the block panicked with (`none` when it completed normally). -/
inductive Event where
  | init
  | cond
  | body (raised : Option Recovered)
  | post
  deriving DecidableEq, Repr

/-- Whether the event is an evaluation of the loop body. -/
def Event.isBody : Event → Bool
  | .body _ => true
  | _ => false

/-- The value a call panicked with, if it did. -/
def Res.raised {α : Type} : Res α → Option Recovered
  | .ret _ => none
  | .panic rec => some rec

/-- A finished call of `evalFor`: the environment at exit, the calls made, and the outcome. -/
structure Run (E : Type) where
  env : E
  log : List Event
  res : Res Values

/-- One call made by `evalIf`: the evaluation of `node.Init`, of `node.Cond`, of `node.Body` or
of `node.Else`. -/
inductive IfEvent where
  | init
  | cond
  | body
  | orelse
  deriving DecidableEq, Repr

/-- A finished call of `evalIf`: the environment at exit, the calls made, and the outcome. -/
structure IfRun (E : Type) where
  env : E
  log : List IfEvent
  res : Res Values

section ControlFlow

variable {E Stmt Expr Block : Type}

/-- The method `evalBranch`. -/
def evalBranch (I : Interp E Stmt Expr Block) (env : E) (node : BranchStmt) : Res Values :=
  let label := match node.Label with
    | some l => l.Name
    | none => ""
  match node.Tok with
  | .BREAK => .panic (.Break label)
  | .CONTINUE => .panic (.Continue label)
  | .GOTO => I.Errorf env "unimplemented: goto" []
  | .FALLTHROUGH => I.Errorf env "unimplemented: fallthrough" []
  | .OTHER _ =>
    I.Errorf env "unimplemented branch: %v <%v>" [.node "BranchStmt", .node "*ast.BranchStmt"]

/-- The method `evalReturn`. -/
def evalReturn (I : Interp E Stmt Expr Block) (env : E) (node : ReturnStmt Expr) :
    E × Res Values :=
  match I.evalExprs env node.Results with
  | (env, .panic rec) => (env, .panic rec)
  | (env, .ret rets) => (env, .panic (.Return rets))

/-- The method `evalIf`, with the calls it made. -/
def evalIf (I : Interp E Stmt Expr Block) (env : E) (node : IfStmt Stmt Expr Block) : IfRun E :=
  -- if node.Init != nil { env = NewEnv(env, "if {}"); _, _ = env.evalStatement(node.Init) }
  let afterInit : IfRun E ⊕ (E × List IfEvent) :=
    match node.Init with
    | none => .inr (env, [])
    | some s =>
      match I.evalStatement (I.NewEnv env "if \x7b\x7d") s with
      | (env, .panic rec) => .inl ⟨env, [.init], .panic rec⟩
      | (env, .ret _) => .inr (env, [.init])
  match afterInit with
  | .inl run => run
  | .inr (env, log) =>
    -- cond, _ := env.Eval(node.Cond)
    match I.Eval env node.Cond with
    | (env, .panic rec) => ⟨env, log ++ [.cond], .panic rec⟩
    | (env, .ret (cond, _)) =>
      if cond.Kind ≠ Kind.Bool then
        match cond.Interface with
        | .panic rec => ⟨env, log ++ [.cond], .panic rec⟩
        | .ret cf =>
          ⟨env, log ++ [.cond],
            I.Errorf env "if: invalid condition type <%T> %#v, expecting <bool>" [cf, cf]⟩
      else if cond.Bool then
        match I.evalBlock env node.Body with
        | (env, res) => ⟨env, log ++ [.cond, .body], res⟩
      else
        match node.Else with
        | some s =>
          match I.evalStatement env s with
          | (env, res) => ⟨env, log ++ [.cond, .orelse], res⟩
        | none => ⟨env, log ++ [.cond], .ret (.Nil, [])⟩

/-- The method `evalForBodyOnce`: the block is evaluated, and the deferred function turns a
recovered `Break` into `cont = false`, a recovered `Continue` into `cont = true`, and for any
other recovered value panics again with it. -/
def evalForBodyOnce (I : Interp E Stmt Expr Block) (env : E) (node : Block) : E × Res Bool :=
  match I.evalBlock env node with
  | (env, .ret _) => (env, .ret true)
  | (env, .panic (.Break _)) => (env, .ret false)
  | (env, .panic (.Continue _)) => (env, .ret true)
  | (env, .panic rec) => (env, .panic rec)

/-- The loop `for { ... }` of `evalFor` followed by `return None, nil`, entered with environment
`env` after the calls `log`. `fuel` bounds the number of iterations; `none` means the bound was
reached. -/
def evalForLoop (I : Interp E Stmt Expr Block) (node : ForStmt Stmt Expr Block) :
    Nat → E → List Event → Option (Run E)
  | 0, _, _ => none
  | fuel + 1, env, log =>
    -- if node.Cond != nil { ... }
    let afterCond : Run E ⊕ (E × List Event) :=
      match node.Cond with
      | none => .inr (env, log)
      | some c =>
        match I.evalExpr1 env c with
        | (env, .panic rec) => .inl ⟨env, log ++ [.cond], .panic rec⟩
        | (env, .ret cond) =>
          if cond.Kind ≠ Kind.Bool then
            match cond.Interface with
            | .panic rec => .inl ⟨env, log ++ [.cond], .panic rec⟩
            | .ret cf =>
              .inl ⟨env, log ++ [.cond],
                I.Errorf env "for: invalid condition type <%T> %#v, expecting <bool>" [cf, cf]⟩
          else if !cond.Bool then
            .inl ⟨env, log ++ [.cond], .ret (.None, [])⟩
          else .inr (env, log ++ [.cond])
    match afterCond with
    | .inl run => some run
    | .inr (env, log) =>
      -- if !env.evalForBodyOnce(node.Body) { break }
      let log := log ++ [.body (I.evalBlock env node.Body).2.raised]
      match evalForBodyOnce I env node.Body with
      | (env, .panic rec) => some ⟨env, log, .panic rec⟩
      | (env, .ret false) => some ⟨env, log, .ret (.None, [])⟩
      | (env, .ret true) =>
        -- if node.Post != nil { env.evalStatement(node.Post) }
        match node.Post with
        | none => evalForLoop I node fuel env log
        | some p =>
          match I.evalStatement env p with
          | (env, .panic rec) => some ⟨env, log ++ [.post], .panic rec⟩
          | (env, .ret _) => evalForLoop I node fuel env (log ++ [.post])

/-- The method `evalFor`, with at most `fuel` iterations of its loop. -/
def evalFor (I : Interp E Stmt Expr Block) (fuel : Nat) (env : E)
    (node : ForStmt Stmt Expr Block) : Option (Run E) :=
  match node.Init with
  | none => evalForLoop I node fuel env []
  | some s =>
    let env := I.NewEnv env "for \x7b\x7d"
    match I.evalStatement env s with
    | (env, .panic rec) => some ⟨env, [.init], .panic rec⟩
    | (env, .ret _) => evalForLoop I node fuel env [.init]

/-- The events of the condition check of one iteration: one `cond` when the loop has a
condition, none otherwise. -/
def condLog (node : ForStmt Stmt Expr Block) : List Event :=
  match node.Cond with
  | none => []
  | some _ => [.cond]

/-- The condition check of an iteration started in `env` lets the body run, in `env1`: the loop
has no condition, or the condition evaluates to the boolean `true`. -/
def CondPasses (I : Interp E Stmt Expr Block) (node : ForStmt Stmt Expr Block) (env env1 : E) :
    Prop :=
  match node.Cond with
  | none => env1 = env
  | some c => I.evalExpr1 env c = (env1, .ret (.ofBool true))

/-- A body evaluation after which the loop cannot go on: the block panicked with something other
than a `Continue`. -/
def Event.stops : Event → Bool
  | .body (some (.Continue _)) => false
  | .body (some _) => true
  | _ => false

/-- How a run of the loop may end: `last` is the final call made and `res` the outcome. -/
def EndsRun (last : Event) (res : Res Values) : Prop :=
  match last with
  | .init => False
  | .cond => True
  | .post => ∃ rec, res = .panic rec
  | .body none => False
  | .body (some (.Continue _)) => False
  | .body (some (.Break _)) => res = .ret (.None, [])
  | .body (some rec) => res = .panic rec

/-- The event without what the body raised. -/
def Event.erase : Event → Event
  | .body _ => .body none
  | ev => ev

/-- The run without what the body raised at each of its calls. -/
def Run.erase {E : Type} (run : Run E) : Run E :=
  ⟨run.env, run.log.map Event.erase, run.res⟩

/-- The calls of `k` complete iterations of a loop with a condition and a post-statement whose
body completes normally each time. -/
def iterLog : Nat → List Event
  | 0 => []
  | k + 1 => [.cond, .body none, .post] ++ iterLog k

end ControlFlow

/-! ## xreflect/method.go -/

/-! ### go/types, as far as `method.go` reads it -/

/-- A `*types.Var`: a name and the printed form of its type. -/
structure Var where
  name : String
  typ : String
  deriving DecidableEq, Repr

/-- A `*types.Signature`: `Recv()` and `Params()` may be nil. -/
structure Signature where
  recv : Option Var
  params : Option (List Var)
  results : Option (List Var)
  variadic : Bool
  deriving DecidableEq, Repr

/-- A `*types.Func`: `Name()`, the path of `Pkg()` (nil for universe objects) and its signature
`Type()`. -/
structure Func where
  name : String
  pkg : Option String
  sig : Signature
  deriving DecidableEq, Repr

mutual
/-- A `types.Type`. A named type carries its declared methods and its underlying type; an
interface its explicitly declared methods and its embedded types; a struct its fields. -/
inductive GoType where
  | Basic (name : String)
  | Named (obj : String) (methods : List Func) (underlying : GoUnderlying)
  | Interface (methods : List Func) (embeddeds : GoTypes)
  | Struct (fields : GoFields)
  | Pointer (elem : GoType)
  | Signature (sig : Gomacro.Signature)
  | Other (kind : Kind) (printed : String)
/-- What `Underlying()` of a named type returns: the named type itself (`self`), or a type. -/
inductive GoUnderlying where
  | self
  | other (t : GoType)
/-- The fields of a struct: name, `Anonymous()`, `Type()`. -/
inductive GoFields where
  | nil
  | cons (name : String) (anonymous : Bool) (typ : GoType) (rest : GoFields)
/-- A list of types. -/
inductive GoTypes where
  | nil
  | cons (t : GoType) (rest : GoTypes)
end

/-- The method `Underlying()` of a `types.Type`. -/
def GoType.Underlying : GoType → GoType
  | .Named _ _ (.other u) => u
  | t => t

/-- The function `ast.IsExported`, which is also `isExported` of go/types: `unicode.IsUpper` of
the first rune of the name, and false for the empty name. The table `unicode.IsUpper` of the
standard library is the parameter `isUpper`. -/
def IsExported (isUpper : Char → Bool) (name : String) : Bool :=
  match name.data with
  | [] => false
  | ch :: _ => isUpper ch

/-- The method `Id()` of a `*types.Func`: the name when it is exported, otherwise the name
qualified by the path of the package, `_` standing for a nil package or an empty path. -/
def Func.Id (isUpper : Char → Bool) (f : Func) : String :=
  if IsExported isUpper f.name then f.name
  else
    (match f.pkg with
      | some path => if path = "" then "_" else path
      | none => "_") ++ "." ++ f.name

/-- The comparison `a < b` of two Go strings, given by their runes: Go compares the bytes of the
UTF-8 encoding, which orders strings as their code points do. -/
def goStringLess : List Char → List Char → Bool
  | _, [] => false
  | [], _ :: _ => true
  | a :: as, b :: bs =>
    if a.toNat < b.toNat then true
    else if b.toNat < a.toNat then false
    else goStringLess as bs

/-- The step `addMethod` by which go/types collects the method set of an interface: a method
whose `Id()` is in the set already is dropped, any other is appended. -/
def addMethod (isUpper : Char → Bool) (allMethods : List Func) (m : Func) : List Func :=
  if m.Id isUpper ∈ allMethods.map (Func.Id isUpper) then allMethods else allMethods ++ [m]

/-- The function `sortMethods` of go/types: the methods in the order of their `Id()`. -/
def sortMethods (isUpper : Char → Bool) (methods : List Func) : List Func :=
  methods.insertionSort
    (fun a b => goStringLess (b.Id isUpper).data (a.Id isUpper).data = false)

mutual
/-- The method set of a `*types.Interface`, which `NumMethods()` counts and `Method(i)` indexes
(go/types since Go 1.14): the explicitly declared methods, then the methods of the interfaces
underlying the embedded types, each passed to `addMethod`, and the result ordered by `Id()`.
Empty for a type that is not an interface. -/
def GoType.allMethods (isUpper : Char → Bool) : GoType → List Func
  | .Interface methods embeddeds =>
    sortMethods isUpper
      ((methods ++ GoTypes.allMethods isUpper embeddeds).foldl (addMethod isUpper) [])
  | _ => []
/-- The method sets of the embedded types `et`, each taken through `et.Underlying()`, one after
the other. -/
def GoTypes.allMethods (isUpper : Char → Bool) : GoTypes → List Func
  | .nil => []
  | .cons (.Named _ _ (.other u)) rest =>
    GoType.allMethods isUpper u ++ GoTypes.allMethods isUpper rest
  | .cons et rest => GoType.allMethods isUpper et ++ GoTypes.allMethods isUpper rest
end

/-! ### reflect, as far as `method.go` uses it -/

/-- A `reflect.Type`. `Basic` stands for the types whose components `method.go` never asks for. -/
inductive RType where
  | Basic (kind : Kind) (name : String)
  | Ptr (elem : RType)
  | Slice (elem : RType)
  | Struct (name : String) (fields : List (String × RType))
  | Func (ins : List RType) (outs : List RType) (variadic : Bool)
  | Interface (name : String)

/-- A `reflect.Value` of the method table: the zero value, or a value of some type. -/
inductive RValue where
  | Zero
  | Of (typ : RType) (ptr : Nat)

/-- A `reflect.Method`, as `MethodByName` returns it (`Typ` is its field `Type`); the zero
`Method` has a nil `Type` and a zero `Func`. -/
structure RMethod where
  Name : String
  Typ : Option RType
  Func : RValue
  Index : Int

/-- A failed call: a panic raised by `xerrorf` with its format string and arguments (numbers and
names printed, a type or a kind given by the Go expression passed), or a run-time panic of Go or
of package reflect. -/
inductive Failure where
  | xerror (format : String) (args : List String)
  | runtime (msg : String)
  deriving DecidableEq, Repr

/-- The method `reflect.Type.Kind()`. -/
def RType.Kind : RType → Kind
  | .Basic k _ => k
  | .Ptr _ => .Ptr
  | .Slice _ => .Slice
  | .Struct _ _ => .Struct
  | .Func _ _ _ => .Func
  | .Interface _ => .Interface

/-- The method `reflect.Type.Elem()`; it panics on a kind without element type. -/
def RType.Elem : RType → Except Failure RType
  | .Ptr e => .ok e
  | .Slice e => .ok e
  | _ => .error (.runtime "reflect: Elem of invalid type")

/-- Indexing `s[i]` of Go, which panics when `i` is out of range. -/
def goIndex {α : Type} (s : List α) (i : Int) : Except Failure α :=
  if i < 0 then .error (.runtime "runtime error: index out of range")
  else
    match s.get? i.toNat with
    | some a => .ok a
    | none => .error (.runtime "runtime error: index out of range")

/-- The method `reflect.Type.Field(i)`, reduced to the type of the field. -/
def RType.Field : RType → Int → Except Failure RType
  | .Struct _ fields, i =>
    match goIndex fields i with
    | .ok f => .ok f.2
    | .error _ => .error (.runtime "reflect: Field index out of bounds")
  | _, _ => .error (.runtime "reflect: Field of non-struct type")

/-- The method `reflect.Type.NumIn()` with the list `In(0), In(1), ...`, the list
`Out(0), Out(1), ...` and `IsVariadic()`; all of them panic on a type that is not a function. -/
def RType.funcParts : RType → Except Failure (List RType × List RType × Bool)
  | .Func ins outs variadic => .ok (ins, outs, variadic)
  | _ => .error (.runtime "reflect: NumIn of non-func type")

/-- The method `reflect.Type.NumIn()`. -/
def RType.NumIn (t : RType) : Except Failure Nat :=
  match t.funcParts with
  | .ok (ins, _, _) => .ok ins.length
  | .error e => .error e

/-- The function `reflect.FuncOf`: it panics when `variadic` is set and the last parameter is not
a slice, and when there are more than 128 parameters and results. -/
def FuncOf (ins outs : List RType) (variadic : Bool) : Except Failure RType :=
  if variadic ∧ (ins.getLast?.map RType.Kind) ≠ some Kind.Slice then
    .error (.runtime "reflect.FuncOf: last arg of variadic func must be slice")
  else if ins.length + outs.length > 128 then
    .error (.runtime "reflect.FuncOf: too many arguments")
  else .ok (.Func ins outs variadic)

/-- The method `reflect.Value.Kind()`. -/
def RValue.Kind : RValue → Kind
  | .Zero => .Invalid
  | .Of typ _ => typ.Kind

/-- The method `reflect.Value.Type()`; it panics on the zero value. -/
def RValue.Typ : RValue → Except Failure RType
  | .Zero => .error (.runtime "reflect: call of reflect.Value.Type on zero Value")
  | .Of typ _ => .ok typ

/-! ### Slices -/

/-- A Go slice: the backing array from the first element of the slice up to its capacity, and
the length. -/
structure Slice (α : Type) where
  array : List α
  len : Nat

/-- The builtin `cap`. -/
def Slice.cap {α : Type} (s : Slice α) : Nat := s.array.length

/-- The builtin `make([]T, n, c)`, filled with the zero value. -/
def Slice.make {α : Type} (zero : α) (n c : Nat) : Slice α :=
  ⟨List.replicate c zero, n⟩

/-- The builtin `copy(dst, src)`: the first `min(len(dst), len(src))` elements are copied. -/
def Slice.copy {α : Type} (dst src : Slice α) : Slice α :=
  let k := min dst.len src.len
  ⟨src.array.take k ++ dst.array.drop k, dst.len⟩

/-- The slice expression `s[0:n]`; it panics when `n` exceeds the capacity. -/
def Slice.reslice {α : Type} (s : Slice α) (n : Nat) : Except Failure (Slice α) :=
  if n ≤ s.cap then .ok ⟨s.array, n⟩
  else .error (.runtime "runtime error: slice bounds out of range")

/-- The index expression `s[i]`; it panics when `i` is not below the length. -/
def Slice.index {α : Type} (s : Slice α) (i : Int) : Except Failure α :=
  goIndex (s.array.take s.len) i

/-- The assignment `s[i] = v`; it panics when `i` is not below the length. -/
def Slice.assign {α : Type} (s : Slice α) (i : Int) (v : α) : Except Failure (Slice α) :=
  if i < 0 ∨ (s.len : Int) ≤ i ∨ (s.array.length : Int) ≤ i then
    .error (.runtime "runtime error: index out of range")
  else .ok ⟨s.array.set i.toNat v, s.len⟩

/-! ### Type descriptors -/

/-- A `*Universe`, by the one field read here. -/
structure Universe where
  ThreadSafe : Bool
  deriving DecidableEq, Repr

/-- The struct `xtype`: `kind`, `gtype`, `rtype`, `universe` (here `univ`) and the method table
`methodvalues`. -/
structure xtype where
  kind : Kind
  gtype : GoType
  rtype : RType
  univ : Universe
  methodvalues : Slice RValue

/-- The struct `Method` (`Typ` is its field `Type`). The field `Funs`, the address of the method
table of the type, is the same for every `Method` of a type and is left out; the table itself is
handed back with the type. -/
structure Method where
  Name : String
  Pkg : Option String
  Typ : Option xtype
  Index : Int
  GoFun : Func

/-- What `method.go` calls in package reflect and in other files of package xreflect, as
parameters: the method set of a run-time type (`MethodByName`, which gives the zero `Method` when
there is none), `isReflectInterfaceStruct`, and `(*Universe).maketype`; and the table
`unicode.IsUpper` of the standard library, which `ast.IsExported` and go/types read. -/
structure Host where
  MethodByName : RType → String → RMethod
  isReflectInterfaceStruct : RType → Bool
  maketype : Universe → Signature → RType → xtype
  IsUpper : Char → Bool

/-- Modelled from the spec: `xerrorf` is declared in another file of the package; a violated
precondition is "a distinct fatal error", which aborts the call: a panic carrying the format
string and the printed arguments. -/
def xerrorf {α : Type} (format : String) (args : List String) : Except Failure α :=
  .error (.xerror format args)

/-- Modelled from the spec: the method `Named()` is declared in another file of the package; a
type is named when its `types.Type` is a `*types.Named`, the type that `NumMethod` asserts. -/
def xtype.Named (t : xtype) : Bool :=
  match t.gtype with
  | .Named _ _ _ => true
  | _ => false

/-! ### The functions of `method.go` -/

/-- The method `NumMethod`. The two type assertions panic when they fail. -/
def xtype.NumMethod (H : Host) (t : xtype) : Except Failure Nat :=
  if t.kind = Kind.Interface then
    match t.gtype.Underlying with
    | .Interface methods embeddeds =>
      .ok (GoType.allMethods H.IsUpper (.Interface methods embeddeds)).length
    | _ => .error (.runtime "interface conversion: types.Type is not *types.Interface")
  else if t.Named then
    match t.gtype with
    | .Named _ methods _ => .ok methods.length
    | _ => .error (.runtime "interface conversion: types.Type is not *types.Named")
  else .ok 0

/-- The method `NumExplicitMethod`. -/
def xtype.NumExplicitMethod (t : xtype) : Nat :=
  match t.gtype.Underlying with
  | .Interface methods _ => methods.length
  | _ =>
    match t.gtype with
    | .Named _ methods _ => methods.length
    | _ => 0

mutual
/-- The function `goTypeNumAllMethod`. In the case of a named type, `count += t.NumMethods()` is
followed by `goto again` on the underlying type unless that is the type itself. -/
def goTypeNumAllMethod (isUpper : Char → Bool) : GoType → Nat
  | .Named _ methods u => methods.length + goUnderlyingNumAllMethod isUpper u
  | .Interface methods embeddeds =>
    (GoType.allMethods isUpper (.Interface methods embeddeds)).length
  | .Struct fields => goFieldsNumAllMethod isUpper fields
  | _ => 0
/-- The jump `if u != gt { gt = u; goto again }` of `goTypeNumAllMethod`. -/
def goUnderlyingNumAllMethod (isUpper : Char → Bool) : GoUnderlying → Nat
  | .self => 0
  | .other u => goTypeNumAllMethod isUpper u
/-- The loop over the fields of a struct in `goTypeNumAllMethod`. -/
def goFieldsNumAllMethod (isUpper : Char → Bool) : GoFields → Nat
  | .nil => 0
  | .cons _ anonymous typ rest =>
    (if anonymous then goTypeNumAllMethod isUpper typ else 0)
      + goFieldsNumAllMethod isUpper rest
end

/-- The method `NumAllMethod`. -/
def xtype.NumAllMethod (H : Host) (t : xtype) : Nat :=
  goTypeNumAllMethod H.IsUpper t.gtype

/-- The function `checkMethod`. -/
def checkMethod (t : xtype) (i : Int) : Except Failure Unit :=
  if t.kind = Kind.Ptr then
    xerrorf "Method of %s type %v. Invoke Method() on type's Elem() instead"
      [toString i, "t.kind", "t"]
  else if !t.Named && t.kind ≠ Kind.Interface then
    xerrorf "Method of type %v that cannot have methods" ["t.kind", "t"]
  else .ok ()

/-- The method `gmethod`. -/
def xtype.gmethod (H : Host) (t : xtype) (i : Int) : Except Failure Func :=
  match t.gtype.Underlying with
  | .Interface methods embeddeds =>
    goIndex (GoType.allMethods H.IsUpper (.Interface methods embeddeds)) i
  | _ =>
    match t.gtype with
    | .Named _ methods _ => goIndex methods i
    | _ => xerrorf "Method on invalid type %v" ["t"]

/-- The function `addReceiver`. -/
def addReceiver (recv : RType) (rtype : RType) : Except Failure RType :=
  match rtype.funcParts with
  | .error e => .error e
  | .ok (ins, outs, variadic) => FuncOf (recv :: ins) outs variadic

/-- The function `removeReceiver`. -/
def removeReceiver (rtype : RType) : Except Failure RType :=
  match rtype.funcParts with
  | .error e => .error e
  | .ok (ins, outs, variadic) =>
    if ins.length = 0 then .ok rtype
    else FuncOf ins.tail outs variadic

/-- The method `makemethod`. -/
def xtype.makemethod (H : Host) (t : xtype) (index : Int) (gfun : Func)
    (rfunctype : Option RType) : Except Failure Gomacro.Method :=
  let name := gfun.name
  let gsig := gfun.sig
  let checked : Except Failure Unit :=
    match rfunctype with
    | none => .ok ()
    | some rft =>
      let nparams :=
        match gsig.params with
        | some params => params.length
        | none => 0
      match rft.NumIn with
      | .error e => .error e
      | .ok numIn =>
        if gsig.recv.isSome then
          if nparams + 1 ≠ numIn then
            xerrorf "type <%v>: inconsistent %d-th method signature:\n\tgo/types.Type has receiver <%v> and %d parameters: %v\n\treflect.Type has %d parameters: %v"
              ["t", toString index, "gsig.Recv()", toString nparams, "gsig", toString numIn,
                "rfunctype"]
          else .ok ()
        else if nparams ≠ numIn then
          xerrorf "type <%v>: inconsistent %d-th method signature:\n\tgo/types.Type has no receiver and %d parameters: %v\n\treflect.Type has %d parameters: %v"
            ["t", toString index, toString nparams, "gsig", toString numIn, "rfunctype"]
        else .ok ()
  match checked with
  | .error e => .error e
  | .ok _ =>
    let tmethod :=
      match rfunctype with
      | some rft => some (H.maketype t.univ gsig rft)
      | none => none
    .ok { Name := name, Pkg := gfun.pkg, Typ := tmethod, Index := index, GoFun := gfun }

/-- The function `resizemethodvalues`. -/
def resizemethodvalues (H : Host) (t : xtype) : Except Failure xtype :=
  match t.NumMethod H with
  | .error e => .error e
  | .ok n =>
    if t.methodvalues.cap < n then
      let slice := Slice.make RValue.Zero n (n + n / 2 + 4)
      .ok { t with methodvalues := Slice.copy slice t.methodvalues }
    else if t.methodvalues.len < n then
      match t.methodvalues.reslice n with
      | .error e => .error e
      | .ok slice => .ok { t with methodvalues := slice }
    else .ok t

/-- The branch of `method` for a type whose underlying type is an interface: the function type
found for the method `name` of index `i`, nil when none is looked for. -/
def interfaceMethodType (H : Host) (t : xtype) (i : Int) (name : String) :
    Except Failure (Option RType) :=
  let rtype := t.rtype
  let emulated : Except Failure Bool :=
    if rtype.Kind = Kind.Ptr then
      match rtype.Elem with
      | .error e => .error e
      | .ok elem => .ok (H.isReflectInterfaceStruct elem)
    else .ok false
  match emulated with
  | .error e => .error e
  | .ok true =>
    match rtype.Elem with
    | .error e => .error e
    | .ok elem =>
      match elem.Field (i + 2) with
      | .error e => .error e
      | .ok rfieldType =>
        match addReceiver rtype rfieldType with
        | .error e => .error e
        | .ok rfunctype => .ok (some rfunctype)
  | .ok false =>
    if rtype.Kind ≠ Kind.Interface then
      xerrorf "inconsistent interface type <%v>: expecting interface reflect.Type, found <%v>"
        ["t", "rtype"]
    else if IsExported H.IsUpper name then
      let rmethod := H.MethodByName rtype name
      match rmethod.Typ with
      | none => xerrorf "interface type <%v>: reflect method %q not found" ["t", name]
      | some rmethodType =>
        if rmethod.Index ≠ i then
          xerrorf "inconsistent interface type <%v>: method %q has go/types.Func index=%d but reflect.Method index=%d"
            ["t", name, toString i, toString rmethod.Index]
        else
          match addReceiver rtype rmethodType with
          | .error e => .error e
          | .ok rfunctype => .ok (some rfunctype)
    else .ok none

/-- The method `method`; the type is handed back with its method table as the call left it. -/
def xtype.method (H : Host) (t : xtype) (i : Int) : xtype × Except Failure Gomacro.Method :=
  match checkMethod t i with
  | .error e => (t, .error e)
  | .ok _ =>
    match t.gmethod H i with
    | .error e => (t, .error e)
    | .ok gfunc =>
      let name := gfunc.name
      match resizemethodvalues H t with
      | .error e => (t, .error e)
      | .ok t =>
        let rtype := t.rtype
        match t.methodvalues.index i with
        | .error e => (t, .error e)
        | .ok rfunc =>
          if rfunc.Kind = Kind.Func then
            -- easy, method is cached already
            match rfunc.Typ with
            | .error e => (t, .error e)
            | .ok rfunctype => (t, t.makemethod H i gfunc (some rfunctype))
          else
            match t.gtype.Underlying with
            | .Interface _ _ =>
              match interfaceMethodType H t i name with
              | .error e => (t, .error e)
              | .ok rfunctype => (t, t.makemethod H i gfunc rfunctype)
            | _ =>
              let rmethod := H.MethodByName rtype gfunc.name
              let rmethod :=
                if rmethod.Func.Kind ≠ Kind.Func ∧ rtype.Kind ≠ Kind.Ptr then
                  -- also search in the method set of pointer-to-t
                  H.MethodByName (.Ptr rtype) gfunc.name
                else rmethod
              let rfunc := rmethod.Func
              if rfunc.Kind ≠ Kind.Func ∧ IsExported H.IsUpper name then
                (t, xerrorf "type <%v>: reflect method %q not found" ["t", gfunc.name])
              else
                let rfunctype := if rfunc.Kind ≠ Kind.Func then none else rmethod.Typ
                match t.methodvalues.assign i rfunc with
                | .error e => (t, .error e)
                | .ok slice =>
                  let t := { t with methodvalues := slice }
                  (t, t.makemethod H i gfunc rfunctype)

/-- The method `Method`. The lock taken when the universe is thread-safe changes nothing in a
sequential call. -/
def xtype.Method (H : Host) (t : xtype) (i : Int) : xtype × Except Failure Gomacro.Method :=
  match checkMethod t i with
  | .error e => (t, .error e)
  | .ok _ => t.method H i

/-! ## Instances used to evaluate the definitions -/

/-- A file set that puts every position on line 1. -/
def demoParser : Parser := ⟨⟨fun p => ⟨"demo.go", p, 1, 1⟩⟩⟩

/-- A root frame binding `x` to 1 and `z` to 5. -/
def demoE1 : Env :=
  .frame (fun s => if s = "x" then some (.ofInt 1) else if s = "z" then some (.ofInt 5) else none)
    .nil demoParser 0

/-- A frame inside `demoE1` binding `x` to 2 and `y` to 7. -/
def demoE2 : Env :=
  .frame (fun s => if s = "x" then some (.ofInt 2) else if s = "y" then some (.ofInt 7) else none)
    demoE1 demoParser 0

/-- An `Errorf` that panics with the format string. -/
def demoErrorf : String → List Arg → Res Values :=
  fun format _ => .panic (.Other format)

/-! ### A small statement language over `Env`, to run the loop on -/

/-- The frame `e` with `name` bound to `v` (`Binds[name] = v`); on the nil pointer, a new root
frame. -/
def Env.set (e : Env) (name : String) (v : Value) : Env :=
  match e with
  | .nil => .frame (fun s => if s = name then some v else none) .nil demoParser 0
  | .frame b o p k => .frame (fun s => if s = name then some v else b s) o p k

/-- The integer bound to `name` in the chain of `e`, 0 when there is none. -/
def Env.readInt (e : Env) (name : String) : Int :=
  match evalIdentifierLoop name e with
  | some (.ofInt k) => k
  | _ => 0

/-- Statements of the small language. -/
inductive DemoStmt where
  | assign (name : String) (k : Int)
  | incr (name : String)
  | branch (node : BranchStmt)
  | returnVar (name : String)
  | ifEq (name : String) (k : Int) (thenStmt : DemoStmt)

/-- The one expression form of the small language: `name < k`. -/
structure DemoExpr where
  name : String
  bound : Int

/-- Errors of the small language are panics carrying the format string. -/
def demoErrorfEnv : Env → String → List Arg → Res Values :=
  fun _ format _ => .panic (.Other format)

/-- The evaluator entry points without statements, to call `evalBranch` with. -/
def demoBase : Interp Env DemoStmt DemoExpr (List DemoStmt) where
  NewEnv e _ := .frame (fun _ => none) e demoParser 0
  evalStatement e _ := (e, .ret (.None, []))
  evalBlock e _ := (e, .ret (.None, []))
  evalExpr1 e c := (e, .ret (.ofBool (decide (e.readInt c.name < c.bound))))
  evalExprs e _ := (e, .ret [])
  Errorf := demoErrorfEnv
  Eval e c := (e, .ret (.ofBool (decide (e.readInt c.name < c.bound)), []))

/-- Statement evaluation of the small language. -/
def demoStatement (e : Env) : DemoStmt → Env × Res Values
  | .assign name k => (e.set name (.ofInt k), .ret (.None, []))
  | .incr name => (e.set name (.ofInt (e.readInt name + 1)), .ret (.None, []))
  | .branch node => (e, evalBranch demoBase e node)
  | .returnVar name => (e, .panic (.Return [.ofInt (e.readInt name)]))
  | .ifEq name k thenStmt =>
    if e.readInt name = k then demoStatement e thenStmt else (e, .ret (.None, []))

/-- Block evaluation of the small language: statements in sequence, a panic ends the block. -/
def demoBlock (e : Env) : List DemoStmt → Env × Res Values
  | [] => (e, .ret (.None, []))
  | s :: rest =>
    match demoStatement e s with
    | (e1, .panic rec) => (e1, .panic rec)
    | (e1, .ret _) => demoBlock e1 rest

/-- The evaluator entry points of the small language. -/
def demoInterp : Interp Env DemoStmt DemoExpr (List DemoStmt) where
  NewEnv := demoBase.NewEnv
  evalStatement := demoStatement
  evalBlock := demoBlock
  evalExpr1 := demoBase.evalExpr1
  evalExprs := demoBase.evalExprs
  Errorf := demoErrorfEnv
  Eval := demoBase.Eval

/-- The loop `for i = 0; i < 3; i++ { s++ }`. -/
def demoCountFor : ForStmt DemoStmt DemoExpr (List DemoStmt) where
  Init := some (.assign "i" 0)
  Cond := some ⟨"i", 3⟩
  Post := some (.incr "i")
  Body := [.incr "s"]

/-- The loop `for i = 0; i < 5; i++ { if i == 2 { break }; s++ }`. -/
def demoBreakFor : ForStmt DemoStmt DemoExpr (List DemoStmt) where
  Init := some (.assign "i" 0)
  Cond := some ⟨"i", 5⟩
  Post := some (.incr "i")
  Body := [.ifEq "i" 2 (.branch ⟨.BREAK, none⟩), .incr "s"]

/-- The loop `for i = 0; i < 3; i++ { if i == 1 { continue }; s++ }`. -/
def demoContinueFor : ForStmt DemoStmt DemoExpr (List DemoStmt) where
  Init := some (.assign "i" 0)
  Cond := some ⟨"i", 3⟩
  Post := some (.incr "i")
  Body := [.ifEq "i" 1 (.branch ⟨.CONTINUE, none⟩), .incr "s"]

/-- The loop `for i = 0; i < 5; i++ { if i == 2 { return i }; s++ }`. -/
def demoReturnFor : ForStmt DemoStmt DemoExpr (List DemoStmt) where
  Init := some (.assign "i" 0)
  Cond := some ⟨"i", 5⟩
  Post := some (.incr "i")
  Body := [.ifEq "i" 2 (.returnVar "i"), .incr "s"]

/-- The inner loop `for i = 0; i < 5; i++ { if i == 2 { break outer }; s++ }`, whose `break`
names an enclosing loop labelled `outer`. -/
def demoLabelBreakFor : ForStmt DemoStmt DemoExpr (List DemoStmt) where
  Init := some (.assign "i" 0)
  Cond := some ⟨"i", 5⟩
  Post := some (.incr "i")
  Body := [.ifEq "i" 2 (.branch ⟨.BREAK, some ⟨0, "outer"⟩⟩), .incr "s"]

/-- The inner loop `for i = 0; i < 3; i++ { if i == 1 { continue outer }; s++ }`. -/
def demoLabelContinueFor : ForStmt DemoStmt DemoExpr (List DemoStmt) where
  Init := some (.assign "i" 0)
  Cond := some ⟨"i", 3⟩
  Post := some (.incr "i")
  Body := [.ifEq "i" 1 (.branch ⟨.CONTINUE, some ⟨0, "outer"⟩⟩), .incr "s"]

/-! ### Types to evaluate the method functions on -/

/-- A struct field as a record. -/
structure Field where
  name : String
  anonymous : Bool
  typ : GoType

/-- The fields of a struct as a list. -/
def GoFields.toList : GoFields → List Field
  | .nil => []
  | .cons name anonymous typ rest => ⟨name, anonymous, typ⟩ :: rest.toList

/-- A list of types as a list. -/
def GoTypes.toList : GoTypes → List GoType
  | .nil => []
  | .cons t rest => t :: rest.toList

/-- A method `func (recv) name()` of package `main`. -/
def demoFunc (recv name : String) : Func :=
  ⟨name, some "main", ⟨some ⟨"r", recv⟩, some [], none, false⟩⟩

/-- The type `type F int` with the two methods `A` and `B`. -/
def demoF : GoType :=
  .Named "F" [demoFunc "F" "A", demoFunc "F" "B"] (.other (.Basic "int"))

/-- The type `type T struct { F; n int }` with the one method `M`. -/
def demoT : GoType :=
  .Named "T" [demoFunc "T" "M"]
    (.other (.Struct (.cons "F" true demoF (.cons "n" false (.Basic "int") .nil))))

/-- The run-time type of `demoT`. -/
def demoRT : RType :=
  .Struct "T" [("F", .Basic .Int "F"), ("n", .Basic .Int "int")]

/-- The descriptor of `demoT`, with an empty method table. -/
def demoXT : xtype :=
  ⟨.Struct, demoT, demoRT, ⟨false⟩, ⟨[], 0⟩⟩

/-- The descriptor of the unnamed pointer type `*T`. -/
def demoXPtr : xtype :=
  ⟨.Ptr, .Pointer demoT, .Ptr demoRT, ⟨false⟩, ⟨[], 0⟩⟩

/-- The descriptor of the unnamed slice type `[]int`. -/
def demoXSlice : xtype :=
  ⟨.Slice, .Other .Slice "[]int", .Slice (.Basic .Int "int"), ⟨false⟩, ⟨[], 0⟩⟩

/-- The interface `interface { Close(); Reader; Writer }`, where `Reader` has the method `Read`
and `Writer` the method `Write`. -/
def demoReadWriteCloser : GoType :=
  .Interface [demoFunc "" "Close"]
    (.cons (.Named "Reader" [] (.other (.Interface [demoFunc "" "Read"] .nil)))
      (.cons (.Named "Writer" [] (.other (.Interface [demoFunc "" "Write"] .nil))) .nil))

/-- The descriptor of the named interface `type RWC interface { Close(); Reader; Writer }`. -/
def demoXRWC : xtype :=
  ⟨.Interface, .Named "RWC" [] (.other demoReadWriteCloser), .Interface "RWC", ⟨false⟩, ⟨[], 0⟩⟩

/-- The table `unicode.IsUpper` on the letters used in these instances: `A` to `Z`, and
`À` to `Þ` without the sign `×`. -/
def demoIsUpper (c : Char) : Bool :=
  c.isUpper || (192 ≤ c.toNat && c.toNat ≤ 222 && c.toNat ≠ 215)

/-- A run-time without any method, to call `Method` with. -/
def demoHost : Host where
  MethodByName _ name := ⟨name, none, .Zero, 0⟩
  isReflectInterfaceStruct _ := false
  maketype u sig rt := ⟨.Func, .Signature sig, rt, u, ⟨[], 0⟩⟩
  IsUpper := demoIsUpper

/-- The kind of a descriptor agrees with its `types.Type`: the kind is `Interface` exactly when
the underlying type is an interface. -/
def xtype.KindConsistent (t : xtype) : Prop :=
  t.kind = Kind.Interface ↔
    ∃ methods embeddeds, t.gtype.Underlying = GoType.Interface methods embeddeds

/-- The number of inputs the resolved callable of a declaration must have: the declared
parameters, plus one when the declaration has a receiver. -/
def Signature.declaredIns (sig : Signature) : Nat :=
  (match sig.params with
    | some params => params.length
    | none => 0) + (if sig.recv.isSome then 1 else 0)

/-- The run-time function type `func(T)` of the method `M` of `demoT`. -/
def demoMType : RType := .Func [demoRT] [] false

/-- A run-time in which the type `demoRT` has the one method `M`. -/
def demoHostM : Host where
  MethodByName _ name :=
    if name = "M" then ⟨"M", some demoMType, .Of demoMType 1, 0⟩ else ⟨name, none, .Zero, 0⟩
  isReflectInterfaceStruct _ := false
  maketype u sig rt := ⟨.Func, .Signature sig, rt, u, ⟨[], 0⟩⟩
  IsUpper := demoIsUpper

/-- The descriptor `demoXT` after the method `M` has been resolved: a table of length 1 and
capacity 5 with the callable at index 0. -/
def demoXT1 : xtype :=
  { demoXT with methodvalues := ⟨[.Of demoMType 1, .Zero, .Zero, .Zero, .Zero], 1⟩ }

/-- The `Method` of index 0 of `demoXT` in the run-time `demoHostM`. -/
def demoM : Gomacro.Method :=
  { Name := "M", Pkg := some "main",
    Typ := some (demoHostM.maketype demoXT.univ (demoFunc "T" "M").sig demoMType),
    Index := 0, GoFun := demoFunc "T" "M" }

/-- A frame of a constant block that starts on line 10, in a file whose positions are all on
line 12, and that binds `true`, `false` and `iota` to numbers. -/
def demoReserved : Env :=
  .frame (fun s =>
      if s = "true" then some (.ofInt 41) else if s = "false" then some (.ofInt 42)
      else if s = "iota" then some (.ofInt 99) else none)
    .nil ⟨⟨fun p => ⟨"demo.go", p, 12, 1⟩⟩⟩ 10

/-- The label a branch statement carries: the name of `node.Label`, the empty string when that
is nil. -/
def branchLabel (node : BranchStmt) : String :=
  match node.Label with
  | some l => l.Name
  | none => ""


/-- The descriptor of `type P struct { *F; n int }` with the one method `M`, where `F` is
`demoF` with its two methods. -/
def demoXPtrEmbed : xtype :=
  ⟨.Struct,
    .Named "P" [demoFunc "P" "M"]
      (.other (.Struct (.cons "F" true (.Pointer demoF) (.cons "n" false (.Basic "int") .nil)))),
    .Struct "P" [("F", .Ptr (.Basic .Int "F")), ("n", .Basic .Int "int")], ⟨false⟩, ⟨[], 0⟩⟩

/-- The descriptor `demoXT` with a method table of length 3, longer than its one method: the
callable of `M` at index 0 and two more entries. -/
def demoXLong : xtype :=
  { demoXT with methodvalues := ⟨[.Of demoMType 1, .Zero, .Zero], 3⟩ }

/-- An evaluator in which an expression is the value it evaluates to, and a statement or a
block the values it returns; errors are panics carrying the format string. -/
def demoLit : Interp Unit Values Value Values where
  NewEnv e _ := e
  evalStatement e s := (e, .ret s)
  evalBlock e b := (e, .ret b)
  evalExpr1 e c := (e, .ret c)
  evalExprs e cs := (e, .ret cs)
  Errorf _ format _ := .panic (.Other format)
  Eval e c := (e, .ret (c, []))

/-- The statement `if c { 1 } else { 2 }` of `demoLit`, for a condition that evaluates to `c`. -/
def demoIf (c : Value) : IfStmt Values Value Values where
  Init := none
  Cond := c
  Body := (.ofInt 1, [])
  Else := some (.ofInt 2, [])

/-- The lookup of `method` for a type that is not an interface: `rtype.MethodByName(name)`, and
when that finds no function and `rtype` is not a pointer, the same on `reflect.PtrTo(rtype)`. -/
def namedLookup (H : Host) (rtype : RType) (name : String) : RMethod :=
  if (H.MethodByName rtype name).Func.Kind ≠ Kind.Func ∧ rtype.Kind ≠ Kind.Ptr then
    H.MethodByName (.Ptr rtype) name
  else H.MethodByName rtype name

/-- The branch of `method` for a type whose underlying type is not an interface and whose
method `gfunc` of index `i` is not in the table yet: the lookup, the assignment
`t.methodvalues[i] = rfunc` and the call of `makemethod`. -/
def namedMethodStep (H : Host) (t : xtype) (i : Int) (gfunc : Func) :
    xtype × Except Failure Gomacro.Method :=
  if (namedLookup H t.rtype gfunc.name).Func.Kind ≠ Kind.Func
      ∧ IsExported H.IsUpper gfunc.name then
    (t, xerrorf "type <%v>: reflect method %q not found" ["t", gfunc.name])
  else
    match t.methodvalues.assign i (namedLookup H t.rtype gfunc.name).Func with
    | .error e => (t, .error e)
    | .ok slice =>
      ({ t with methodvalues := slice },
        xtype.makemethod H { t with methodvalues := slice } i gfunc
          (if (namedLookup H t.rtype gfunc.name).Func.Kind ≠ Kind.Func then none
            else (namedLookup H t.rtype gfunc.name).Typ))

/-- The method and the function type of a method found in the method set of a run-time type are
those of one function: `Func.Type()` is `Type`, as package reflect guarantees. -/
def Host.MethodsTyped (H : Host) : Prop :=
  ∀ rtype name, (H.MethodByName rtype name).Func.Kind = Kind.Func →
    ∃ rft, (H.MethodByName rtype name).Typ = some rft
      ∧ (H.MethodByName rtype name).Func.Typ = .ok rft

/-- The `Id()`s of the methods an interface has: those of its explicitly declared methods
`methods`, followed by those of the methods of the interface underlying each embedded type. A
method that is declared and inherited, or inherited twice, is listed each time. -/
def interfaceMethodIds (isUpper : Char → Bool) (methods : List Func) (embeddeds : GoTypes) :
    List String :=
  methods.map (Func.Id isUpper)
    ++ (embeddeds.toList.map
        (fun et => (GoType.allMethods isUpper et.Underlying).map (Func.Id isUpper))).flatten

/-- The interface `Reader`, `interface { Read() }`. -/
def demoReader : GoType :=
  .Named "Reader" [] (.other (.Interface [demoFunc "" "Read"] .nil))

/-- The interface `RC`, `interface { Reader; Close() }`. -/
def demoRC : GoType :=
  .Named "RC" [] (.other (.Interface [demoFunc "" "Close"] (.cons demoReader .nil)))

/-- The descriptor of `type Diamond interface { Reader; RC }`, which inherits `Read` twice. -/
def demoXDiamond : xtype :=
  ⟨.Interface, .Named "Diamond" [] (.other (.Interface [] (.cons demoReader (.cons demoRC .nil)))),
    .Interface "Diamond", ⟨false⟩, ⟨[], 0⟩⟩

/-- The descriptor of the unnamed interface `interface { Read(); Reader }`, which declares the
method it inherits. -/
def demoXReadReader : xtype :=
  ⟨.Interface, .Interface [demoFunc "" "Read"] (.cons demoReader .nil), .Interface "", ⟨false⟩,
    ⟨[], 0⟩⟩

/-- The descriptor of `type S struct { Diamond }` with the one method `M`. -/
def demoXEmbedDiamond : xtype :=
  ⟨.Struct, .Named "S" [demoFunc "S" "M"] (.other (.Struct (.cons "Diamond" true demoXDiamond.gtype .nil))),
    .Struct "S" [("Diamond", .Interface "Diamond")], ⟨false⟩, ⟨[], 0⟩⟩

/-- The callable that `method` resolves for the method `name` of a type that is not an interface
and whose run-time type is `rtype`, when the table holds `cached` at the index of the method:
`cached` itself when that is a function; otherwise the function found by name in the method set
of `rtype`, and when there is none and `rtype` is not a pointer, what is found by name in the
method set of the pointer to `rtype`. -/
def resolvedCallable (H : Host) (rtype : RType) (name : String) (cached : RValue) : RValue :=
  if cached.Kind = Kind.Func then cached
  else if (H.MethodByName rtype name).Func.Kind = Kind.Func then (H.MethodByName rtype name).Func
  else if rtype.Kind = Kind.Ptr then (H.MethodByName rtype name).Func
  else (H.MethodByName (.Ptr rtype) name).Func

/-- The environment after `k` complete iterations of a loop with the condition `c`, the body
`body` and the post-statement `post`, started in `env`: every iteration hands the environment
through the evaluation of the condition, then of the body, then of the post-statement. -/
def iterEnv {E Stmt Expr Block : Type} (I : Interp E Stmt Expr Block) (c : Expr) (body : Block)
    (post : Stmt) : Nat → E → E
  | 0, env => env
  | k + 1, env =>
    iterEnv I c body post k
      (I.evalStatement (I.evalBlock (I.evalExpr1 env c).1 body).1 post).1

mutual
/-- The `Id()`s of the methods an interface declares or inherits, through any depth of
embedding: those of its explicitly declared methods, followed by those of the interfaces
underlying its embedded types. A method reached more than once is listed each time. Empty for a
type that is not an interface. -/
def GoType.methodIds (isUpper : Char → Bool) : GoType → List String
  | .Interface methods embeddeds =>
    methods.map (Func.Id isUpper) ++ GoTypes.methodIds isUpper embeddeds
  | _ => []
/-- The `Id()`s of the methods of the interfaces underlying the types `et`, one after the
other. -/
def GoTypes.methodIds (isUpper : Char → Bool) : GoTypes → List String
  | .nil => []
  | .cons (.Named _ _ (.other u)) rest =>
    GoType.methodIds isUpper u ++ GoTypes.methodIds isUpper rest
  | .cons et rest => GoType.methodIds isUpper et ++ GoTypes.methodIds isUpper rest
end

/-! # Theorems -/

/-! ### Lookup lemmas -/

theorem evalIdentifierLoop_of_chain (name : String) (v : Value) (e : Env) (post : List Env) :
    ∀ (pre : List Env) (env : Env),
      Env.chain env = pre ++ e :: post →
      (∀ f ∈ pre, f.Binds name = none) →
      e.Binds name = some v →
      evalIdentifierLoop name env = some v := by
  intro pre
  induction pre with
  | nil =>
    intro env hc _ hv
    cases env with
    | nil => simp [Env.chain] at hc
    | frame b out p k =>
      simp only [Env.chain, List.nil_append, List.cons.injEq] at hc
      obtain ⟨rfl, _⟩ := hc
      simp only [Env.Binds] at hv
      simp [evalIdentifierLoop, hv]
  | cons f pre ih =>
    intro env hc hpre hv
    cases env with
    | nil => simp [Env.chain] at hc
    | frame b out p k =>
      simp only [Env.chain, List.cons_append, List.cons.injEq] at hc
      obtain ⟨rfl, hrest⟩ := hc
      have hf : b name = none := by
        have := hpre (Env.frame b out p k) (List.mem_cons_self _ _)
        simpa [Env.Binds] using this
      have hrec := ih out hrest (fun g hg => hpre g (List.mem_cons_of_mem _ hg)) hv
      simp [evalIdentifierLoop, hf, hrec]

theorem evalIdentifier_default (Errorf : String → List Arg → Res Values) (env : Env)
    (expr : Ident) (hf : expr.Name ≠ "false") (ht : expr.Name ≠ "true")
    (hi : expr.Name ≠ "iota") :
    evalIdentifier Errorf env expr =
      match evalIdentifierLoop expr.Name env with
      | some bind => .ret (bind, [])
      | none => Errorf "undefined identifier: %s" [.str expr.Name] := by
  simp [evalIdentifier, hf, ht, hi]

/-! ### C1 -/

/-- C1: for a name other than `true`, `false` and `iota`, `evalIdentifier` returns the binding of
the innermost frame of the chain that binds the name: if every frame before `e` in the chain
(walking `Outer` from `env`) has no binding and `e` binds `v`, the result is `v`. In particular,
when an inner frame `E2` and its outer frame `E1` both bind the name, resolving from `E2` gives
the value of `E2` and resolving from `E1` gives the value of `E1`. -/
theorem evalIdentifier_innermost (Errorf : String → List Arg → Res Values) (expr : Ident)
    (hf : expr.Name ≠ "false") (ht : expr.Name ≠ "true") (hi : expr.Name ≠ "iota") :
    (∀ (env e : Env) (pre post : List Env) (v : Value),
        Env.chain env = pre ++ e :: post →
        (∀ f ∈ pre, f.Binds expr.Name = none) →
        e.Binds expr.Name = some v →
        evalIdentifier Errorf env expr = .ret (v, []))
    ∧ (∀ (E1 E2 : Env) (v1 v2 : Value),
        E2 ≠ .nil → E2.Outer = E1 →
        E1.Binds expr.Name = some v1 →
        E2.Binds expr.Name = some v2 →
        evalIdentifier Errorf E2 expr = .ret (v2, [])
          ∧ evalIdentifier Errorf E1 expr = .ret (v1, [])) := by
  have key : ∀ (env e : Env) (pre post : List Env) (v : Value),
      Env.chain env = pre ++ e :: post →
      (∀ f ∈ pre, f.Binds expr.Name = none) →
      e.Binds expr.Name = some v →
      evalIdentifier Errorf env expr = .ret (v, []) := by
    intro env e pre post v hc hpre hv
    rw [evalIdentifier_default Errorf env expr hf ht hi,
      evalIdentifierLoop_of_chain expr.Name v e post pre env hc hpre hv]
  refine ⟨key, ?_⟩
  intro E1 E2 v1 v2 _ _ h1 h2
  have hchain : ∀ (e : Env) (v : Value), e.Binds expr.Name = some v →
      Env.chain e = [] ++ e :: Env.chain e.Outer := by
    intro e v hv
    cases e with
    | nil => simp [Env.Binds] at hv
    | frame b o p k => simp [Env.chain, Env.Outer]
  exact ⟨key E2 E2 [] _ v2 (hchain E2 v2 h2) (fun f hfm => by cases hfm) h2,
    key E1 E1 [] _ v1 (hchain E1 v1 h1) (fun f hfm => by cases hfm) h1⟩

theorem evalIdentifier_innermost_witness :
    evalIdentifier demoErrorf demoE2 ⟨0, "x"⟩ = .ret (.ofInt 2, [])
      ∧ evalIdentifier demoErrorf demoE1 ⟨0, "x"⟩ = .ret (.ofInt 1, [])
      ∧ evalIdentifier demoErrorf demoE2 ⟨0, "z"⟩ = .ret (.ofInt 5, []) :=
  have h := evalIdentifier_innermost demoErrorf ⟨0, "x"⟩ (by decide) (by decide) (by decide)
  have hz := evalIdentifier_innermost demoErrorf ⟨0, "z"⟩ (by decide) (by decide) (by decide)
  ⟨(h.2 demoE1 demoE2 (.ofInt 1) (.ofInt 2) (by simp [demoE2]) rfl rfl rfl).1,
    (h.2 demoE1 demoE2 (.ofInt 1) (.ofInt 2) (by simp [demoE2]) rfl rfl rfl).2,
    hz.1 demoE2 demoE1 [demoE2] [] (.ofInt 5) rfl
      (by intro f hfm; simp at hfm; subst hfm; rfl) rfl⟩

/-! ### One iteration of the loop -/

section ControlFlowLemmas

variable {E Stmt Expr Block : Type}

theorem evalForLoop_cond_false (I : Interp E Stmt Expr Block) (node : ForStmt Stmt Expr Block)
    (fuel : Nat) (env env1 : E) (log : List Event) (c : Expr) (hc : node.Cond = some c)
    (h : I.evalExpr1 env c = (env1, .ret (.ofBool false))) :
    evalForLoop I node (fuel + 1) env log = some ⟨env1, log ++ [.cond], .ret (.None, [])⟩ := by
  simp [evalForLoop, hc, h, Value.Kind, Value.Bool]

/-- The loop after a condition check that passed: only the body and what follows remain. -/
theorem evalForLoop_of_condPasses (I : Interp E Stmt Expr Block)
    (node : ForStmt Stmt Expr Block) (fuel : Nat) (env env1 : E) (log : List Event)
    (h : CondPasses I node env env1) :
    evalForLoop I node (fuel + 1) env log =
      match evalForBodyOnce I env1 node.Body with
      | (env2, .panic rec) =>
        some ⟨env2, log ++ condLog node ++ [.body (I.evalBlock env1 node.Body).2.raised],
          .panic rec⟩
      | (env2, .ret false) =>
        some ⟨env2, log ++ condLog node ++ [.body (I.evalBlock env1 node.Body).2.raised],
          .ret (.None, [])⟩
      | (env2, .ret true) =>
        match node.Post with
        | none =>
          evalForLoop I node fuel env2
            (log ++ condLog node ++ [.body (I.evalBlock env1 node.Body).2.raised])
        | some p =>
          match I.evalStatement env2 p with
          | (env3, .panic rec) =>
            some ⟨env3,
              log ++ condLog node ++ [.body (I.evalBlock env1 node.Body).2.raised] ++ [.post],
              .panic rec⟩
          | (env3, .ret _) =>
            evalForLoop I node fuel env3
              (log ++ condLog node ++ [.body (I.evalBlock env1 node.Body).2.raised] ++ [.post]) := by
  unfold CondPasses at h
  cases hc : node.Cond with
  | none =>
    rw [hc] at h
    subst h
    simp [evalForLoop, hc, condLog]
  | some c =>
    rw [hc] at h
    simp [evalForLoop, hc, h, condLog, Value.Kind, Value.Bool]

end ControlFlowLemmas

/-! ### C2 -/

section CountingLoop

variable {E Stmt Expr Block : Type}

theorem countP_isBody_iterLog (k : Nat) : (iterLog k).countP Event.isBody = k := by
  induction k with
  | zero => rfl
  | succ k ih =>
    simp only [iterLog, List.countP_append, ih]
    simp [List.countP_cons, Event.isBody]
    omega

theorem count_post_iterLog (k : Nat) : (iterLog k).count Event.post = k := by
  induction k with
  | zero => rfl
  | succ k ih =>
    simp only [iterLog, List.count_append, ih]
    simp [List.count_cons]
    omega

/-- What a quantity that only the body changes, by one each time, has become after `k`
iterations. -/
theorem iterEnv_observed (I : Interp E Stmt Expr Block) (c : Expr) (body : Block) (post : Stmt)
    (s : E → Int)
    (hcond : ∀ e, s (I.evalExpr1 e c).1 = s e)
    (hbody : ∀ e, s (I.evalBlock e body).1 = s e + 1)
    (hpost : ∀ e, s (I.evalStatement e post).1 = s e) :
    ∀ (k : Nat) (env : E), s (iterEnv I c body post k env) = s env + k := by
  intro k
  induction k with
  | zero => intro env; simp [iterEnv]
  | succ k ih =>
    intro env
    simp only [iterEnv]
    rw [ih, hpost, hbody, hcond]
    push_cast
    omega

theorem evalForLoop_counting (I : Interp E Stmt Expr Block) (node : ForStmt Stmt Expr Block)
    (i : E → Int) (n : Nat) (post : Stmt) (c : Expr)
    (hCond : node.Cond = some c) (hPost : node.Post = some post)
    (hcond : ∀ e, ∃ e1, I.evalExpr1 e c = (e1, .ret (.ofBool (decide (i e < n)))) ∧ i e1 = i e)
    (hbody : ∀ e, ∃ e1 r, I.evalBlock e node.Body = (e1, .ret r) ∧ i e1 = i e)
    (hpost : ∀ e, ∃ e1 r, I.evalStatement e post = (e1, .ret r) ∧ i e1 = i e + 1) :
    ∀ (k fuel : Nat) (env : E) (log : List Event), i env + k = n → k < fuel →
      ∃ run, evalForLoop I node fuel env log = some run
        ∧ run.res = .ret (.None, []) ∧ run.log = log ++ iterLog k ++ [.cond] ∧ i run.env = n
        ∧ run.env = (I.evalExpr1 (iterEnv I c node.Body post k env) c).1 := by
  intro k
  induction k with
  | zero =>
    intro fuel env log hk hfuel
    obtain ⟨fuel, rfl⟩ : ∃ f, fuel = f + 1 := ⟨fuel - 1, by omega⟩
    obtain ⟨e1, he1, hi1⟩ := hcond env
    have he : (I.evalExpr1 env c).1 = e1 := by rw [he1]
    have hlt : decide (i env < (n : Int)) = false := by
      simp only [decide_eq_false_iff_not]; omega
    rw [hlt] at he1
    refine ⟨_, evalForLoop_cond_false I node fuel env e1 log c hCond he1, rfl, ?_, ?_, ?_⟩
    · simp [iterLog]
    · simp only; omega
    · simp only [iterEnv]
      exact he.symm
  | succ k ih =>
    intro fuel env log hk hfuel
    obtain ⟨fuel, rfl⟩ : ∃ f, fuel = f + 1 := ⟨fuel - 1, by omega⟩
    obtain ⟨e1, he1, hi1⟩ := hcond env
    have he : (I.evalExpr1 env c).1 = e1 := by rw [he1]
    have hlt : decide (i env < (n : Int)) = true := by
      simp only [decide_eq_true_eq]; omega
    rw [hlt] at he1
    have hpass : CondPasses I node env e1 := by
      simp only [CondPasses, hCond]; exact he1
    obtain ⟨e2, r2, he2, hi2⟩ := hbody e1
    obtain ⟨e3, r3, he3, hi3⟩ := hpost e2
    obtain ⟨run, hrun, hres, hlog, hienv, henv⟩ :=
      ih fuel e3 (log ++ condLog node ++ [.body none] ++ [.post]) (by omega) (by omega)
    refine ⟨run, ?_, hres, ?_, hienv, ?_⟩
    · rw [evalForLoop_of_condPasses I node fuel env e1 log hpass]
      simp only [evalForBodyOnce, he2, hPost, he3, Res.raised]
      exact hrun
    · rw [hlog]
      simp [condLog, hCond, iterLog]
    · rw [henv]
      simp only [iterEnv, he, he2, he3]

/-- C2: a loop whose init statement sets the counter `i` to 0, whose condition is `i < n`, whose
post-statement adds one to `i` and whose body completes normally without changing `i`: with any
bound above `n` on the number of iterations, `evalFor` returns normally with `(None, nil)`, the
calls it made are the init, then `n` times condition, body, post-statement, then one last
condition; the environment it leaves is the one the init statement left, handed `n` times through
the evaluation of the condition, of the body and of the post-statement, and once more through
that of the condition. So the body ran exactly `n` times and the post-statement exactly `n`
times: the counter ends at `n`, and a quantity that each evaluation of the body raises by one,
and that the condition and the post-statement leave alone, ends `n` above its start. -/
theorem evalFor_counts (I : Interp E Stmt Expr Block) (node : ForStmt Stmt Expr Block)
    (i : E → Int) (n : Nat) (init post : Stmt) (c : Expr) (env env0 : E) (r0 : Values)
    (hInit : node.Init = some init) (hCond : node.Cond = some c) (hPost : node.Post = some post)
    (hinit : I.evalStatement (I.NewEnv env "for \x7b\x7d") init = (env0, .ret r0))
    (hi0 : i env0 = 0)
    (hcond : ∀ e, ∃ e1, I.evalExpr1 e c = (e1, .ret (.ofBool (decide (i e < n)))) ∧ i e1 = i e)
    (hbody : ∀ e, ∃ e1 r, I.evalBlock e node.Body = (e1, .ret r) ∧ i e1 = i e)
    (hpost : ∀ e, ∃ e1 r, I.evalStatement e post = (e1, .ret r) ∧ i e1 = i e + 1) :
    ∀ fuel, n < fuel →
      ∃ run, evalFor I fuel env node = some run
        ∧ run.res = .ret (.None, [])
        ∧ run.log = [.init] ++ iterLog n ++ [.cond]
        ∧ run.log.countP Event.isBody = n
        ∧ run.log.count Event.post = n
        ∧ i run.env = n
        ∧ run.env = (I.evalExpr1 (iterEnv I c node.Body post n env0) c).1
        ∧ (∀ s : E → Int,
            (∀ e, s (I.evalExpr1 e c).1 = s e) →
            (∀ e, s (I.evalBlock e node.Body).1 = s e + 1) →
            (∀ e, s (I.evalStatement e post).1 = s e) →
            s run.env = s env0 + n) := by
  intro fuel hfuel
  obtain ⟨run, hrun, hres, hlog, hienv, henv⟩ :=
    evalForLoop_counting I node i n post c hCond hPost hcond hbody hpost n fuel env0 [.init]
      (by omega) hfuel
  refine ⟨run, ?_, hres, hlog, ?_, ?_, hienv, henv, ?_⟩
  · simp only [evalFor, hInit, hinit]
    exact hrun
  · rw [hlog]
    simp [List.countP_append, countP_isBody_iterLog, List.countP_cons, Event.isBody]
  · rw [hlog]
    simp [List.count_append, count_post_iterLog, List.count_cons]
  · intro s hs1 hs2 hs3
    rw [henv, hs1]
    exact iterEnv_observed I c node.Body post s hs1 hs2 hs3 n env0

end CountingLoop

theorem Env.readInt_set_same (e : Env) (name : String) (k : Int) :
    (e.set name (.ofInt k)).readInt name = k := by
  cases e <;> simp [Env.set, Env.readInt, evalIdentifierLoop]

theorem Env.readInt_set_other (e : Env) (name other : String) (v : Value) (h : name ≠ other) :
    (e.set other v).readInt name = e.readInt name := by
  cases e <;> simp [Env.set, Env.readInt, evalIdentifierLoop, h]

theorem evalFor_counts_witness :
    ∃ run, evalFor demoInterp 4 demoE1 demoCountFor = some run
      ∧ run.res = .ret (.None, [])
      ∧ run.log = [.init] ++ iterLog 3 ++ [.cond]
      ∧ run.log.countP Event.isBody = 3
      ∧ run.log.count Event.post = 3
      ∧ run.env.readInt "i" = 3
      ∧ run.env.readInt "s" = 3 := by
  obtain ⟨run, h1, h2, h3, h4, h5, h6, _, h8⟩ :=
    evalFor_counts demoInterp demoCountFor (fun e => e.readInt "i") 3
      (.assign "i" 0) (.incr "i") ⟨"i", 3⟩ demoE1
      ((demoInterp.NewEnv demoE1 "for \x7b\x7d").set "i" (.ofInt 0)) (.None, [])
      rfl rfl rfl rfl (by decide)
      (fun e => ⟨e, rfl, rfl⟩)
      (fun e => ⟨e.set "s" (.ofInt (e.readInt "s" + 1)), (.None, []), rfl,
        Env.readInt_set_other e "i" "s" _ (by decide)⟩)
      (fun e => ⟨e.set "i" (.ofInt (e.readInt "i" + 1)), (.None, []), rfl,
        Env.readInt_set_same e "i" _⟩)
      4 (by decide)
  have hs := h8 (fun e => e.readInt "s") (fun _ => rfl)
    (fun e => Env.readInt_set_same e "s" _)
    (fun e => Env.readInt_set_other e "s" "i" _ (by decide))
  exact ⟨run, h1, h2, h3, h4, h5, h6, hs⟩

/-! ### The shape of every finished run -/

section RunShape

variable {E Stmt Expr Block : Type}

theorem evalForBodyOnce_eq (I : Interp E Stmt Expr Block) (env : E) (b : Block) :
    evalForBodyOnce I env b =
      ((I.evalBlock env b).1,
        match (I.evalBlock env b).2.raised with
        | none => .ret true
        | some (.Break _) => .ret false
        | some (.Continue _) => .ret true
        | some rec => .panic rec) := by
  unfold evalForBodyOnce
  rcases h : I.evalBlock env b with ⟨e1, r⟩
  cases r with
  | ret a => simp [Res.raised]
  | panic rec => cases rec <;> simp [Res.raised]

theorem split_at_last {α : Type} (evs pre post : List α) (last x : α)
    (h : evs ++ [last] = pre ++ x :: post) (hx : x ∉ evs) :
    post = [] ∧ x = last ∧ pre = evs := by
  rcases List.eq_nil_or_concat post with hp | ⟨post1, z, hp⟩
  · subst hp
    have h2 : evs ++ [last] = pre ++ [x] := h
    have := List.append_inj' h2 rfl
    simp only [List.cons.injEq, and_true] at this
    exact ⟨rfl, this.2.symm, this.1.symm⟩
  · exfalso
    subst hp
    have h2 : evs ++ [last] = (pre ++ x :: post1) ++ [z] := by
      rw [h]; simp
    have := (List.append_inj' h2 rfl).1
    apply hx
    rw [this]
    simp

/-- Every finished run of the loop appends to the calls made so far a list of calls none of which
stops the loop, and then one last call that ends it. -/
theorem evalForLoop_shape (I : Interp E Stmt Expr Block) (node : ForStmt Stmt Expr Block) :
    ∀ (fuel : Nat) (env : E) (log : List Event) (run : Run E),
      evalForLoop I node fuel env log = some run →
      ∃ evs last, run.log = log ++ evs ++ [last]
        ∧ (∀ ev ∈ evs, ev.stops = false) ∧ EndsRun last run.res := by
  intro fuel
  induction fuel with
  | zero => intro env log run h; simp [evalForLoop] at h
  | succ fuel ih =>
    intro env log run h
    -- the part of the iteration after a condition check that passed
    have body : ∀ env1, CondPasses I node env env1 →
        ∃ evs last, run.log = log ++ evs ++ [last]
          ∧ (∀ ev ∈ evs, ev.stops = false) ∧ EndsRun last run.res := by
      intro env1 hpass
      rw [evalForLoop_of_condPasses I node fuel env env1 log hpass, evalForBodyOnce_eq] at h
      have hcl : ∀ ev ∈ condLog node, ev.stops = false := by
        intro ev hev
        unfold condLog at hev
        cases hC : node.Cond <;> rw [hC] at hev <;> simp at hev
        subst hev; rfl
      -- what happens once the body has let the loop go on
      have goOn : ∀ (sig : Option Recovered), (Event.body sig).stops = false →
          (match node.Post with
            | none => evalForLoop I node fuel (I.evalBlock env1 node.Body).1
                (log ++ condLog node ++ [.body sig])
            | some p =>
              match I.evalStatement (I.evalBlock env1 node.Body).1 p with
              | (env3, .panic rec) =>
                some ⟨env3, log ++ condLog node ++ [.body sig] ++ [.post], .panic rec⟩
              | (env3, .ret _) =>
                evalForLoop I node fuel env3 (log ++ condLog node ++ [.body sig] ++ [.post]))
            = some run →
          ∃ evs last, run.log = log ++ evs ++ [last]
            ∧ (∀ ev ∈ evs, ev.stops = false) ∧ EndsRun last run.res := by
        intro sig hsig h
        cases hP : node.Post with
        | none =>
          rw [hP] at h
          obtain ⟨evs, last, hlog, hevs, hend⟩ := ih _ _ run h
          refine ⟨condLog node ++ [.body sig] ++ evs, last, by rw [hlog]; simp, ?_, hend⟩
          intro ev hev
          simp only [List.mem_append, List.mem_singleton] at hev
          rcases hev with (hev | hev) | hev
          · exact hcl ev hev
          · subst hev; exact hsig
          · exact hevs ev hev
        | some p =>
          rw [hP] at h
          rcases hS : I.evalStatement (I.evalBlock env1 node.Body).1 p with ⟨env3, r⟩
          simp only [hS] at h
          cases r with
          | panic rec =>
            simp only [Option.some.injEq] at h
            subst h
            refine ⟨condLog node ++ [.body sig], .post, by simp, ?_, ⟨rec, rfl⟩⟩
            intro ev hev
            simp only [List.mem_append, List.mem_singleton] at hev
            rcases hev with hev | hev
            · exact hcl ev hev
            · subst hev; exact hsig
          | ret a =>
            simp only at h
            obtain ⟨evs, last, hlog, hevs, hend⟩ := ih _ _ run h
            refine ⟨condLog node ++ [.body sig] ++ [.post] ++ evs, last, by rw [hlog]; simp, ?_,
              hend⟩
            intro ev hev
            simp only [List.mem_append, List.mem_singleton] at hev
            rcases hev with ((hev | hev) | hev) | hev
            · exact hcl ev hev
            · subst hev; exact hsig
            · subst hev; rfl
            · exact hevs ev hev
      cases hsig : (I.evalBlock env1 node.Body).2.raised with
      | none =>
        rw [hsig] at h
        exact goOn none rfl h
      | some rec =>
        rw [hsig] at h
        cases rec with
        | Continue l => exact goOn (some (.Continue l)) rfl h
        | Break l =>
          simp only [Option.some.injEq] at h
          subst h
          exact ⟨condLog node, _, rfl, hcl, rfl⟩
        | Panic a =>
          simp only [Option.some.injEq] at h
          subst h
          exact ⟨condLog node, _, rfl, hcl, rfl⟩
        | Return rs =>
          simp only [Option.some.injEq] at h
          subst h
          exact ⟨condLog node, _, rfl, hcl, rfl⟩
        | Other err =>
          simp only [Option.some.injEq] at h
          subst h
          exact ⟨condLog node, _, rfl, hcl, rfl⟩
    cases hC : node.Cond with
    | none => exact body env (by simp [CondPasses, hC])
    | some c =>
      rcases hE : I.evalExpr1 env c with ⟨env1, r⟩
      cases r with
      | panic rec =>
        simp [evalForLoop, hC, hE] at h
        subst h
        exact ⟨[], .cond, by simp, by simp, trivial⟩
      | ret cond =>
        by_cases hk : cond = .ofBool true
        · subst hk
          exact body env1 (by simp [CondPasses, hC, hE])
        · have : ∃ res, run = ⟨env1, log ++ [.cond], res⟩ := by
            cases cond with
            | ofBool b =>
              cases b with
              | true => exact absurd rfl hk
              | false =>
                simp [evalForLoop, hC, hE, Value.Kind, Value.Bool] at h
                exact ⟨_, h.symm⟩
            | Nil =>
              simp [evalForLoop, hC, hE, Value.Kind, Value.Interface] at h
              exact ⟨_, h.symm⟩
            | None =>
              simp [evalForLoop, hC, hE, Value.Kind, Value.Interface] at h
              exact ⟨_, h.symm⟩
            | ofInt k =>
              simp [evalForLoop, hC, hE, Value.Kind, Value.Interface] at h
              exact ⟨_, h.symm⟩
            | ofString s =>
              simp [evalForLoop, hC, hE, Value.Kind, Value.Interface] at h
              exact ⟨_, h.symm⟩
          obtain ⟨res, rfl⟩ := this
          exact ⟨[], .cond, by simp, by simp, trivial⟩

/-- Every finished call of `evalFor` made a list of calls none of which stops the loop, and then
one last call: the init statement when it panicked, a call that ends the loop otherwise. -/
theorem evalFor_shape (I : Interp E Stmt Expr Block) (node : ForStmt Stmt Expr Block)
    (fuel : Nat) (env : E) (run : Run E) (h : evalFor I fuel env node = some run) :
    ∃ evs last, run.log = evs ++ [last]
      ∧ (∀ ev ∈ evs, ev.stops = false) ∧ (last = .init ∨ EndsRun last run.res) := by
  unfold evalFor at h
  cases hI : node.Init with
  | none =>
    rw [hI] at h
    obtain ⟨evs, last, hlog, hevs, hend⟩ := evalForLoop_shape I node fuel env [] run h
    exact ⟨evs, last, by simpa using hlog, hevs, Or.inr hend⟩
  | some s =>
    rw [hI] at h
    simp only at h
    rcases hS : I.evalStatement (I.NewEnv env "for \x7b\x7d") s with ⟨env0, r⟩
    rw [hS] at h
    cases r with
    | panic rec =>
      simp only [Option.some.injEq] at h
      subst h
      exact ⟨[], .init, by simp, by simp, Or.inl rfl⟩
    | ret a =>
      simp only at h
      obtain ⟨evs, last, hlog, hevs, hend⟩ := evalForLoop_shape I node fuel env0 [.init] run h
      refine ⟨[.init] ++ evs, last, by simpa using hlog, ?_, Or.inr hend⟩
      intro ev hev
      simp only [List.mem_append, List.mem_singleton] at hev
      rcases hev with hev | hev
      · subst hev; rfl
      · exact hevs ev hev

end RunShape

/-! ### C3 -/

section BreakAndPropagate

variable {E Stmt Expr Block : Type}

/-- C3: when the body raises a `Break` in an iteration whose condition check passed, the loop ends
there, whatever the bound on iterations: the body call is the last call (no post-statement, no
further condition, no further body) and `evalFor` returns normally with `(None, nil)`. And in
every finished call of `evalFor`, a body call that raised a `Break` is followed by no other call
and the outcome is the normal return `(None, nil)`. -/
theorem evalFor_break (I : Interp E Stmt Expr Block) (node : ForStmt Stmt Expr Block) :
    (∀ (fuel : Nat) (env env1 env2 : E) (log : List Event) (l : String),
        CondPasses I node env env1 →
        I.evalBlock env1 node.Body = (env2, .panic (.Break l)) →
        evalForLoop I node (fuel + 1) env log
          = some ⟨env2, log ++ condLog node ++ [.body (some (.Break l))], .ret (.None, [])⟩)
    ∧ (∀ (fuel : Nat) (env : E) (run : Run E) (pre post : List Event) (l : String),
        evalFor I fuel env node = some run →
        run.log = pre ++ .body (some (.Break l)) :: post →
        post = [] ∧ run.res = .ret (.None, [])) := by
  constructor
  · intro fuel env env1 env2 log l hpass hbody
    rw [evalForLoop_of_condPasses I node fuel env env1 log hpass]
    simp [evalForBodyOnce, hbody, Res.raised]
  · intro fuel env run pre post l h hlog
    obtain ⟨evs, last, hshape, hevs, hend⟩ := evalFor_shape I node fuel env run h
    have hx : Event.body (some (.Break l)) ∉ evs := by
      intro hmem
      have := hevs _ hmem
      simp [Event.stops] at this
    obtain ⟨hpost, hlast, _⟩ := split_at_last evs pre post last _ (hshape.symm.trans hlog) hx
    refine ⟨hpost, ?_⟩
    subst hlast
    rcases hend with hend | hend
    · cases hend
    · exact hend

theorem evalFor_break_witness :
    ∃ run, evalFor demoInterp 10 demoE1 demoBreakFor = some run
      ∧ run.log = [.init, .cond, .body none, .post, .cond, .body none, .post, .cond,
          .body (some (.Break ""))]
      ∧ run.res = .ret (.None, [])
      ∧ run.env.readInt "i" = 2 := by
  have hlog : (evalFor demoInterp 10 demoE1 demoBreakFor).map (fun r => (r.log, r.env.readInt "i"))
      = some ([.init, .cond, .body none, .post, .cond, .body none, .post, .cond,
          .body (some (.Break ""))], 2) := by decide
  cases h : evalFor demoInterp 10 demoE1 demoBreakFor with
  | none => rw [h] at hlog; simp at hlog
  | some run =>
    rw [h] at hlog
    simp only [Option.map_some', Option.some.injEq, Prod.mk.injEq] at hlog
    exact ⟨run, rfl, hlog.1,
      ((evalFor_break demoInterp demoBreakFor).2 10 demoE1 run
        [.init, .cond, .body none, .post, .cond, .body none, .post, .cond] [] "" h hlog.1).2,
      hlog.2⟩

/-! ### C5 -/

/-- C5: when the body raises a value that is neither a `Break` nor a `Continue` (a `Return` with
its result list, a `Panic`, any error) in an iteration whose condition check passed, the loop is
over at that point, whatever the bound on iterations, and `evalFor` panics with that same value:
the body call is the last call. In every finished call of `evalFor`, a body call that raised such a value
is followed by no other call and the outcome is a panic with that value. And `evalReturn` raises
`Return` with exactly the list that `evalExprs` produced. -/
theorem evalFor_propagates (I : Interp E Stmt Expr Block) (node : ForStmt Stmt Expr Block) :
    (∀ (fuel : Nat) (env env1 env2 : E) (log : List Event) (rec : Recovered),
        CondPasses I node env env1 →
        I.evalBlock env1 node.Body = (env2, .panic rec) →
        (∀ l, rec ≠ .Break l) → (∀ l, rec ≠ .Continue l) →
        evalForLoop I node (fuel + 1) env log
          = some ⟨env2, log ++ condLog node ++ [.body (some rec)], .panic rec⟩)
    ∧ (∀ (fuel : Nat) (env : E) (run : Run E) (pre post : List Event) (rec : Recovered),
        evalFor I fuel env node = some run →
        run.log = pre ++ .body (some rec) :: post →
        (∀ l, rec ≠ .Break l) → (∀ l, rec ≠ .Continue l) →
        post = [] ∧ run.res = .panic rec)
    ∧ (∀ (env env1 : E) (ret : ReturnStmt Expr) (rets : List Value),
        I.evalExprs env ret.Results = (env1, .ret rets) →
        evalReturn I env ret = (env1, .panic (.Return rets))) := by
  refine ⟨?_, ?_, ?_⟩
  · intro fuel env env1 env2 log rec hpass hbody hb hc
    rw [evalForLoop_of_condPasses I node fuel env env1 log hpass]
    cases rec with
    | Break l => exact absurd rfl (hb l)
    | Continue l => exact absurd rfl (hc l)
    | Panic a => simp [evalForBodyOnce, hbody, Res.raised]
    | Return rs => simp [evalForBodyOnce, hbody, Res.raised]
    | Other err => simp [evalForBodyOnce, hbody, Res.raised]
  · intro fuel env run pre post rec h hlog hb hc
    obtain ⟨evs, last, hshape, hevs, hend⟩ := evalFor_shape I node fuel env run h
    have hstops : (Event.body (some rec)).stops = true := by
      cases rec with
      | Break l => exact absurd rfl (hb l)
      | Continue l => exact absurd rfl (hc l)
      | Panic a => rfl
      | Return rs => rfl
      | Other err => rfl
    have hx : Event.body (some rec) ∉ evs := by
      intro hmem
      have := hevs _ hmem
      rw [hstops] at this
      cases this
    obtain ⟨hpost, hlast, _⟩ := split_at_last evs pre post last _ (hshape.symm.trans hlog) hx
    refine ⟨hpost, ?_⟩
    subst hlast
    rcases hend with hend | hend
    · cases hend
    · cases rec with
      | Break l => exact absurd rfl (hb l)
      | Continue l => exact absurd rfl (hc l)
      | Panic a => exact hend
      | Return rs => exact hend
      | Other err => exact hend
  · intro env env1 ret rets h
    simp [evalReturn, h]

theorem evalFor_propagates_witness :
    ∃ run, evalFor demoInterp 10 demoE1 demoReturnFor = some run
      ∧ run.log = [.init, .cond, .body none, .post, .cond, .body none, .post, .cond,
          .body (some (.Return [.ofInt 2]))]
      ∧ run.res = .panic (.Return [.ofInt 2]) := by
  have hlog : (evalFor demoInterp 10 demoE1 demoReturnFor).map (fun r => r.log)
      = some [.init, .cond, .body none, .post, .cond, .body none, .post, .cond,
          .body (some (.Return [.ofInt 2]))] := by decide
  cases h : evalFor demoInterp 10 demoE1 demoReturnFor with
  | none => rw [h] at hlog; simp at hlog
  | some run =>
    rw [h] at hlog
    simp only [Option.map_some', Option.some.injEq] at hlog
    exact ⟨run, rfl, hlog,
      ((evalFor_propagates demoInterp demoReturnFor).2.1 10 demoE1 run
        [.init, .cond, .body none, .post, .cond, .body none, .post, .cond] [] _ h hlog
        (by intro l; simp) (by intro l; simp)).2⟩

end BreakAndPropagate

/-! ### C4 -/

section ContinueSignal

variable {E Stmt Expr Block : Type}

/-- The loop cannot tell a body that raised `Continue` from one that returned normally with the
same environment: with the block evaluator `f` in place of `I.evalBlock`, where `f` agrees with
`I.evalBlock` on the body except that it may return normally where `I.evalBlock` raises
`Continue`, the loop makes the same calls, ends in the same environment with the same outcome. -/
theorem evalForLoop_continue_as_normal (I : Interp E Stmt Expr Block)
    (node : ForStmt Stmt Expr Block) (f : E → Block → E × Res Values)
    (hrel : ∀ env, f env node.Body = I.evalBlock env node.Body
      ∨ ∃ env2 l r, I.evalBlock env node.Body = (env2, .panic (.Continue l))
          ∧ f env node.Body = (env2, .ret r)) :
    ∀ (fuel : Nat) (env : E) (log log1 : List Event),
      log1.map Event.erase = log.map Event.erase →
      (evalForLoop { I with evalBlock := f } node fuel env log1).map Run.erase
        = (evalForLoop I node fuel env log).map Run.erase := by
  intro fuel
  induction fuel with
  | zero => intro env log log1 _; simp [evalForLoop]
  | succ fuel ih =>
    intro env log log1 hmap
    have hcl : (condLog node).map Event.erase = condLog node := by
      unfold condLog
      cases node.Cond <;> simp [Event.erase]
    have body : ∀ env1, CondPasses I node env env1 →
        (evalForLoop { I with evalBlock := f } node (fuel + 1) env log1).map Run.erase
          = (evalForLoop I node (fuel + 1) env log).map Run.erase := by
      intro env1 hpass
      have hpass1 : CondPasses { I with evalBlock := f } node env env1 := hpass
      rw [evalForLoop_of_condPasses _ node fuel env env1 log1 hpass1,
        evalForLoop_of_condPasses I node fuel env env1 log hpass,
        evalForBodyOnce_eq, evalForBodyOnce_eq]
      -- both bodies let the loop go on, from the same environment
      have goOn : ∀ (env2 : E) (sig sig1 : Option Recovered),
          Option.map Run.erase
            (match node.Post with
            | none => evalForLoop { I with evalBlock := f } node fuel env2
                (log1 ++ condLog node ++ [Event.body sig1])
            | some p =>
              match I.evalStatement env2 p with
              | (env3, Res.panic rec) =>
                some ⟨env3, log1 ++ condLog node ++ [Event.body sig1] ++ [Event.post],
                  Res.panic rec⟩
              | (env3, Res.ret _) =>
                evalForLoop { I with evalBlock := f } node fuel env3
                  (log1 ++ condLog node ++ [Event.body sig1] ++ [Event.post]))
          = Option.map Run.erase
            (match node.Post with
            | none => evalForLoop I node fuel env2 (log ++ condLog node ++ [Event.body sig])
            | some p =>
              match I.evalStatement env2 p with
              | (env3, Res.panic rec) =>
                some ⟨env3, log ++ condLog node ++ [Event.body sig] ++ [Event.post],
                  Res.panic rec⟩
              | (env3, Res.ret _) =>
                evalForLoop I node fuel env3
                  (log ++ condLog node ++ [Event.body sig] ++ [Event.post])) := by
        intro env2 sig sig1
        cases hP : node.Post with
        | none =>
          exact ih env2 _ _ (by simp [hmap, Event.erase])
        | some p =>
          rcases hS : I.evalStatement env2 p with ⟨env3, rs⟩
          cases rs with
          | panic rec =>
            simp only [hS]
            simp [Run.erase, hmap, Event.erase]
          | ret a =>
            simp only [hS]
            exact ih env3 _ _ (by simp [hmap, Event.erase])
      rcases hrel env1 with heq | ⟨env2, l, r, hI, hJ⟩
      · simp only [heq]
        rcases hB : I.evalBlock env1 node.Body with ⟨env2, rb⟩
        cases rb with
        | ret a => exact goOn env2 none none
        | panic rec =>
          cases rec with
          | Continue l => exact goOn env2 _ _
          | Break l => simp [Res.raised, Run.erase, hmap, Event.erase]
          | Panic a => simp [Res.raised, Run.erase, hmap, Event.erase]
          | Return rs => simp [Res.raised, Run.erase, hmap, Event.erase]
          | Other err => simp [Res.raised, Run.erase, hmap, Event.erase]
      · simp only [hI, hJ]
        exact goOn env2 _ _
    cases hC : node.Cond with
    | none => exact body env (by simp [CondPasses, hC])
    | some c =>
      rcases hE : I.evalExpr1 env c with ⟨env1, r⟩
      cases r with
      | panic rec => simp [evalForLoop, hC, hE, Run.erase, hmap, Event.erase]
      | ret cond =>
        cases cond with
        | ofBool b =>
          cases b with
          | true => exact body env1 (by simp [CondPasses, hC, hE])
          | false =>
            simp [evalForLoop, hC, hE, Value.Kind, Value.Bool, Run.erase, hmap, Event.erase]
        | Nil =>
          simp [evalForLoop, hC, hE, Value.Kind, Value.Interface, Run.erase, hmap, Event.erase]
        | None =>
          simp [evalForLoop, hC, hE, Value.Kind, Value.Interface, Run.erase, hmap, Event.erase]
        | ofInt k =>
          simp [evalForLoop, hC, hE, Value.Kind, Value.Interface, Run.erase, hmap, Event.erase]
        | ofString s =>
          simp [evalForLoop, hC, hE, Value.Kind, Value.Interface, Run.erase, hmap, Event.erase]

/-- C4: when the body raises a `Continue` in an iteration whose condition check passed,
`evalForBodyOnce` consumes it and reports that the loop goes on; the loop then runs the
post-statement when there is one and goes on with the next iteration (which starts with the
condition), a panic of the post-statement being the only other way out. For whole calls of
`evalFor`: replacing a body that raises `Continue` by one that returns normally in the same
environment changes neither the calls made, nor the final environment, nor the outcome; and no
finished call of `evalFor` ends on a body call that raised `Continue`. -/
theorem evalFor_continue (I : Interp E Stmt Expr Block) (node : ForStmt Stmt Expr Block) :
    (∀ (fuel : Nat) (env env1 env2 : E) (log : List Event) (l : String),
        CondPasses I node env env1 →
        I.evalBlock env1 node.Body = (env2, .panic (.Continue l)) →
        evalForBodyOnce I env1 node.Body = (env2, .ret true)
        ∧ evalForLoop I node (fuel + 1) env log =
            match node.Post with
            | none =>
              evalForLoop I node fuel env2 (log ++ condLog node ++ [.body (some (.Continue l))])
            | some p =>
              match I.evalStatement env2 p with
              | (env3, .panic rec) =>
                some ⟨env3, log ++ condLog node ++ [.body (some (.Continue l))] ++ [.post],
                  .panic rec⟩
              | (env3, .ret _) =>
                evalForLoop I node fuel env3
                  (log ++ condLog node ++ [.body (some (.Continue l))] ++ [.post]))
    ∧ (∀ (f : E → Block → E × Res Values),
        (∀ env, f env node.Body = I.evalBlock env node.Body
          ∨ ∃ env2 l r, I.evalBlock env node.Body = (env2, .panic (.Continue l))
              ∧ f env node.Body = (env2, .ret r)) →
        ∀ (fuel : Nat) (env : E),
          (evalFor { I with evalBlock := f } fuel env node).map Run.erase
            = (evalFor I fuel env node).map Run.erase)
    ∧ (∀ (fuel : Nat) (env : E) (run : Run E) (l : String),
        evalFor I fuel env node = some run →
        run.log.getLast? ≠ some (.body (some (.Continue l)))) := by
  refine ⟨?_, ?_, ?_⟩
  · intro fuel env env1 env2 log l hpass hbody
    refine ⟨by simp [evalForBodyOnce, hbody], ?_⟩
    rw [evalForLoop_of_condPasses I node fuel env env1 log hpass]
    simp [evalForBodyOnce, hbody, Res.raised]
  · intro f hrel fuel env
    unfold evalFor
    cases hI : node.Init with
    | none => exact evalForLoop_continue_as_normal I node f hrel fuel env [] [] rfl
    | some s =>
      simp only
      rcases hS : I.evalStatement (I.NewEnv env "for \x7b\x7d") s with ⟨env0, r⟩
      cases r with
      | panic rec => rfl
      | ret a => exact evalForLoop_continue_as_normal I node f hrel fuel env0 [.init] [.init] rfl
  · intro fuel env run l h hlast
    obtain ⟨evs, last, hshape, _, hend⟩ := evalFor_shape I node fuel env run h
    rw [hshape] at hlast
    simp only [List.getLast?_append, List.getLast?_singleton, Option.or_some,
      Option.some.injEq] at hlast
    subst hlast
    rcases hend with hend | hend
    · cases hend
    · exact hend

theorem evalFor_continue_witness :
    ∃ run, evalFor demoInterp 10 demoE1 demoContinueFor = some run
      ∧ run.log = [.init, .cond, .body none, .post, .cond, .body (some (.Continue "")), .post,
          .cond, .body none, .post, .cond]
      ∧ run.res = .ret (.None, [])
      ∧ run.env.readInt "i" = 3 ∧ run.env.readInt "s" = 2
      ∧ run.log.getLast? ≠ some (.body (some (.Continue ""))) := by
  have hlog : (evalFor demoInterp 10 demoE1 demoContinueFor).map
      (fun r => (r.log, r.res, r.env.readInt "i", r.env.readInt "s"))
      = some ([.init, .cond, .body none, .post, .cond, .body (some (.Continue "")), .post,
          .cond, .body none, .post, .cond], .ret (.None, []), 3, 2) := by decide
  cases h : evalFor demoInterp 10 demoE1 demoContinueFor with
  | none => rw [h] at hlog; simp at hlog
  | some run =>
    rw [h] at hlog
    simp only [Option.map_some', Option.some.injEq, Prod.mk.injEq] at hlog
    exact ⟨run, rfl, hlog.1, hlog.2.1, hlog.2.2.1, hlog.2.2.2,
      (evalFor_continue demoInterp demoContinueFor).2.2 10 demoE1 run "" h⟩

end ContinueSignal

/-! ### C6 -/

section Labels

variable {E Stmt Expr Block : Type}

/-- C6: the label that `evalBranch` puts into the signal is lost in `evalForBodyOnce`. A
`break outer` in the body of an inner, unlabelled loop raises `Break` with the label `outer`, and
the inner `evalFor` consumes it and returns normally instead of letting it propagate to the loop
labelled `outer`; a `continue outer` is consumed too, and the inner loop goes on with its own
post-statement and next iterations. -/
theorem evalFor_labelled_signal_consumed :
    (evalFor demoInterp 10 demoE1 demoLabelBreakFor).map (fun r => (r.log, r.res))
        = some ([.init, .cond, .body none, .post, .cond, .body none, .post, .cond,
            .body (some (.Break "outer"))], .ret (.None, []))
      ∧ (evalFor demoInterp 10 demoE1 demoLabelBreakFor).map (fun r => r.res)
        ≠ some (.panic (.Break "outer"))
      ∧ (evalFor demoInterp 10 demoE1 demoLabelContinueFor).map (fun r => (r.log, r.res))
        = some ([.init, .cond, .body none, .post, .cond, .body (some (.Continue "outer")),
            .post, .cond, .body none, .post, .cond], .ret (.None, []))
      ∧ (evalFor demoInterp 10 demoE1 demoLabelContinueFor).map (fun r => r.res)
        ≠ some (.panic (.Continue "outer")) := by
  refine ⟨by decide, by decide, by decide, by decide⟩

/-- For every loop, `evalForBodyOnce` consumes every `Break` and every `Continue` raised by the
body, whatever the label it carries (the type switch never reads the field `Label`): a `Break`
makes it report that the loop ends, a `Continue` that the loop goes on. So no finished call of
`evalFor` whose last call was the body has a `Break` or a `Continue` as its outcome, and a
labelled signal never reaches an enclosing loop. -/
theorem evalFor_consumes_any_label (I : Interp E Stmt Expr Block)
    (node : ForStmt Stmt Expr Block) :
    (∀ (env env2 : E) (l : String),
        I.evalBlock env node.Body = (env2, .panic (.Break l)) →
        evalForBodyOnce I env node.Body = (env2, .ret false))
    ∧ (∀ (env env2 : E) (l : String),
        I.evalBlock env node.Body = (env2, .panic (.Continue l)) →
        evalForBodyOnce I env node.Body = (env2, .ret true))
    ∧ (∀ (fuel : Nat) (env : E) (run : Run E) (sig : Option Recovered) (l : String),
        evalFor I fuel env node = some run →
        run.log.getLast? = some (.body sig) →
        run.res ≠ .panic (.Break l) ∧ run.res ≠ .panic (.Continue l)) := by
  refine ⟨?_, ?_, ?_⟩
  · intro env env2 l h
    simp [evalForBodyOnce, h]
  · intro env env2 l h
    simp [evalForBodyOnce, h]
  · intro fuel env run sig l h hlast
    obtain ⟨evs, last, hshape, _, hend⟩ := evalFor_shape I node fuel env run h
    rw [hshape] at hlast
    simp only [List.getLast?_append, List.getLast?_singleton, Option.or_some,
      Option.some.injEq] at hlast
    subst hlast
    rcases hend with hend | hend
    · cases hend
    · cases sig with
      | none => exact absurd hend (by simp [EndsRun])
      | some rec =>
        cases rec with
        | Break l1 =>
          have hres : run.res = .ret (.None, []) := hend
          rw [hres]
          exact ⟨by simp, by simp⟩
        | Continue l1 => exact absurd hend (by simp [EndsRun])
        | Panic a =>
          have hres : run.res = .panic (.Panic a) := hend
          rw [hres]
          exact ⟨by simp, by simp⟩
        | Return rs =>
          have hres : run.res = .panic (.Return rs) := hend
          rw [hres]
          exact ⟨by simp, by simp⟩
        | Other err =>
          have hres : run.res = .panic (.Other err) := hend
          rw [hres]
          exact ⟨by simp, by simp⟩

theorem evalFor_consumes_any_label_witness :
    ∃ run, evalFor demoInterp 10 demoE1 demoLabelBreakFor = some run
      ∧ run.log.getLast? = some (.body (some (.Break "outer")))
      ∧ run.res ≠ .panic (.Break "outer") ∧ run.res ≠ .panic (.Continue "outer") := by
  have hlog : (evalFor demoInterp 10 demoE1 demoLabelBreakFor).map (fun r => r.log.getLast?)
      = some (some (.body (some (.Break "outer")))) := by decide
  cases h : evalFor demoInterp 10 demoE1 demoLabelBreakFor with
  | none => rw [h] at hlog; simp at hlog
  | some run =>
    rw [h] at hlog
    simp only [Option.map_some', Option.some.injEq] at hlog
    exact ⟨run, rfl, hlog,
      (evalFor_consumes_any_label demoInterp demoLabelBreakFor).2.2 10 demoE1 run _ "outer" h
        hlog⟩

end Labels

/-! ### The method set of an interface -/

theorem sortMethods_perm (isUpper : Char → Bool) (methods : List Func) :
    (sortMethods isUpper methods).Perm methods :=
  List.perm_insertionSort _ methods

theorem addMethod_foldl (isUpper : Char → Bool) :
    ∀ (l acc : List Func), (acc.map (Func.Id isUpper)).Nodup →
      ((l.foldl (addMethod isUpper) acc).map (Func.Id isUpper)).Nodup
        ∧ ∀ x, x ∈ (l.foldl (addMethod isUpper) acc).map (Func.Id isUpper)
            ↔ x ∈ acc.map (Func.Id isUpper) ∨ x ∈ l.map (Func.Id isUpper) := by
  intro l
  induction l with
  | nil => intro acc h; simp [h]
  | cons m rest ih =>
    intro acc h
    simp only [List.foldl_cons]
    by_cases hm : m.Id isUpper ∈ acc.map (Func.Id isUpper)
    · have hadd : addMethod isUpper acc m = acc := by simp only [addMethod, hm, if_true]
      rw [hadd]
      obtain ⟨h1, h2⟩ := ih acc h
      refine ⟨h1, ?_⟩
      intro x
      rw [h2 x]
      simp only [List.map_cons, List.mem_cons]
      constructor
      · rintro (hx | hx)
        · exact Or.inl hx
        · exact Or.inr (Or.inr hx)
      · rintro (hx | hx | hx)
        · exact Or.inl hx
        · exact Or.inl (hx ▸ hm)
        · exact Or.inr hx
    · have hadd : addMethod isUpper acc m = acc ++ [m] := by simp only [addMethod, hm, if_false]
      rw [hadd]
      have hnd : ((acc ++ [m]).map (Func.Id isUpper)).Nodup := by
        rw [List.map_append, List.nodup_append]
        refine ⟨h, by simp, ?_⟩
        intro a ha hb
        simp only [List.map_cons, List.map_nil, List.mem_singleton] at hb
        exact hm (hb ▸ ha)
      obtain ⟨h1, h2⟩ := ih (acc ++ [m]) hnd
      refine ⟨h1, ?_⟩
      intro x
      rw [h2 x]
      simp only [List.map_append, List.map_cons, List.map_nil, List.mem_append,
        List.mem_singleton, List.mem_cons]
      tauto

/-- The method sets of the embedded types are those of the interfaces underlying them. -/
theorem GoTypes.allMethods_eq (isUpper : Char → Bool) :
    ∀ embeddeds : GoTypes,
      GoTypes.allMethods isUpper embeddeds
        = (embeddeds.toList.map (fun et => GoType.allMethods isUpper et.Underlying)).flatten
  | .nil => by simp [GoTypes.allMethods, GoTypes.toList]
  | .cons et rest => by
    have ih := GoTypes.allMethods_eq isUpper rest
    cases et with
    | Named obj methods u =>
      cases u with
      | self => simp [GoTypes.allMethods, GoTypes.toList, GoType.Underlying, GoType.allMethods, ih]
      | other u => simp [GoTypes.allMethods, GoTypes.toList, GoType.Underlying, ih]
    | Basic name => simp [GoTypes.allMethods, GoTypes.toList, GoType.Underlying, ih]
    | Interface ms embs => simp [GoTypes.allMethods, GoTypes.toList, GoType.Underlying, ih]
    | Struct fields => simp [GoTypes.allMethods, GoTypes.toList, GoType.Underlying, ih]
    | Pointer elem => simp [GoTypes.allMethods, GoTypes.toList, GoType.Underlying, ih]
    | Signature sig => simp [GoTypes.allMethods, GoTypes.toList, GoType.Underlying, ih]
    | Other kind printed => simp [GoTypes.allMethods, GoTypes.toList, GoType.Underlying, ih]

theorem interfaceMethodIds_eq (isUpper : Char → Bool) (methods : List Func)
    (embeddeds : GoTypes) :
    interfaceMethodIds isUpper methods embeddeds
      = (methods ++ GoTypes.allMethods isUpper embeddeds).map (Func.Id isUpper) := by
  simp [interfaceMethodIds, GoTypes.allMethods_eq, List.map_flatten, Function.comp_def]

/-- The method set of an interface holds every `Id()` once, and holds exactly the `Id()`s of the
methods the interface declares and of the methods of its embedded interfaces; so its length is the
number of these `Id()`s, each counted once. -/
theorem GoType.allMethods_interface (isUpper : Char → Bool) (methods : List Func)
    (embeddeds : GoTypes) :
    ((GoType.allMethods isUpper (.Interface methods embeddeds)).map (Func.Id isUpper)).Nodup
      ∧ (∀ x, x ∈ (GoType.allMethods isUpper (.Interface methods embeddeds)).map (Func.Id isUpper)
          ↔ x ∈ interfaceMethodIds isUpper methods embeddeds)
      ∧ (GoType.allMethods isUpper (.Interface methods embeddeds)).length
          = (interfaceMethodIds isUpper methods embeddeds).dedup.length := by
  obtain ⟨hnd, hmem⟩ := addMethod_foldl isUpper
    (methods ++ GoTypes.allMethods isUpper embeddeds) [] (by simp)
  have hperm := (sortMethods_perm isUpper
    ((methods ++ GoTypes.allMethods isUpper embeddeds).foldl (addMethod isUpper) [])).map
      (Func.Id isUpper)
  have h1 : ((GoType.allMethods isUpper (.Interface methods embeddeds)).map
      (Func.Id isUpper)).Nodup := by
    simp only [GoType.allMethods]
    exact hperm.nodup_iff.mpr hnd
  have h2 : ∀ x, x ∈ (GoType.allMethods isUpper (.Interface methods embeddeds)).map
      (Func.Id isUpper) ↔ x ∈ interfaceMethodIds isUpper methods embeddeds := by
    intro x
    simp only [GoType.allMethods]
    rw [hperm.mem_iff, hmem x, interfaceMethodIds_eq]
    simp
  refine ⟨h1, h2, ?_⟩
  have hp : ((GoType.allMethods isUpper (.Interface methods embeddeds)).map
      (Func.Id isUpper)).Perm (interfaceMethodIds isUpper methods embeddeds).dedup :=
    (List.perm_ext_iff_of_nodup h1 (List.nodup_dedup _)).mpr
      (fun x => by rw [h2 x, List.mem_dedup])
  have := hp.length_eq
  simpa using this

/-- The method set of any type holds every `Id()` once. -/
theorem GoType.allMethods_nodup (isUpper : Char → Bool) (t : GoType) :
    ((GoType.allMethods isUpper t).map (Func.Id isUpper)).Nodup := by
  cases t with
  | Interface methods embeddeds => exact (GoType.allMethods_interface isUpper methods embeddeds).1
  | Named obj methods u => simp [GoType.allMethods]
  | Basic name => simp [GoType.allMethods]
  | Struct fields => simp [GoType.allMethods]
  | Pointer elem => simp [GoType.allMethods]
  | Signature sig => simp [GoType.allMethods]
  | Other kind printed => simp [GoType.allMethods]

/-- A list without repetition whose elements are all in `l` is no longer than `l` without its
repetitions. -/
theorem length_le_dedup_of_subset {l1 l : List String} (hnd : l1.Nodup) (hsub : l1 ⊆ l) :
    l1.length ≤ l.dedup.length :=
  (List.subperm_of_subset hnd (fun _ hx => List.mem_dedup.mpr (hsub hx))).length_le

mutual
/-- The method set of an interface holds exactly the `Id()`s of the methods declared by the
interface or by an interface it embeds, at any depth. -/
theorem GoType.allMethods_ids (isUpper : Char → Bool) :
    ∀ (t : GoType) (x : String),
      x ∈ (GoType.allMethods isUpper t).map (Func.Id isUpper) ↔ x ∈ GoType.methodIds isUpper t
  | .Interface methods embeddeds, x => by
    rw [(GoType.allMethods_interface isUpper methods embeddeds).2.1 x, interfaceMethodIds_eq]
    simp only [GoType.methodIds, List.map_append, List.mem_append]
    rw [GoTypes.embedded_ids isUpper embeddeds x]
  | .Basic _, x => by simp [GoType.allMethods, GoType.methodIds]
  | .Named _ _ _, x => by simp [GoType.allMethods, GoType.methodIds]
  | .Struct _, x => by simp [GoType.allMethods, GoType.methodIds]
  | .Pointer _, x => by simp [GoType.allMethods, GoType.methodIds]
  | .Signature _, x => by simp [GoType.allMethods, GoType.methodIds]
  | .Other _ _, x => by simp [GoType.allMethods, GoType.methodIds]
theorem GoTypes.embedded_ids (isUpper : Char → Bool) :
    ∀ (ts : GoTypes) (x : String),
      x ∈ (GoTypes.allMethods isUpper ts).map (Func.Id isUpper)
        ↔ x ∈ GoTypes.methodIds isUpper ts
  | .nil, x => by simp [GoTypes.allMethods, GoTypes.methodIds]
  | .cons (.Named _ _ (.other u)) rest, x => by
    simp only [GoTypes.allMethods, GoTypes.methodIds, List.map_append, List.mem_append]
    rw [GoType.allMethods_ids isUpper u x, GoTypes.embedded_ids isUpper rest x]
  | .cons (.Named _ _ .self) rest, x => by
    simp only [GoTypes.allMethods, GoTypes.methodIds, List.map_append, List.mem_append]
    rw [GoTypes.embedded_ids isUpper rest x]
    simp [GoType.allMethods, GoType.methodIds]
  | .cons (.Interface ms embs) rest, x => by
    simp only [GoTypes.allMethods, GoTypes.methodIds, List.map_append, List.mem_append]
    rw [GoType.allMethods_ids isUpper (.Interface ms embs) x,
      GoTypes.embedded_ids isUpper rest x]
  | .cons (.Basic _) rest, x => by
    simp only [GoTypes.allMethods, GoTypes.methodIds, List.map_append, List.mem_append]
    rw [GoTypes.embedded_ids isUpper rest x]
    simp [GoType.allMethods, GoType.methodIds]
  | .cons (.Struct _) rest, x => by
    simp only [GoTypes.allMethods, GoTypes.methodIds, List.map_append, List.mem_append]
    rw [GoTypes.embedded_ids isUpper rest x]
    simp [GoType.allMethods, GoType.methodIds]
  | .cons (.Pointer _) rest, x => by
    simp only [GoTypes.allMethods, GoTypes.methodIds, List.map_append, List.mem_append]
    rw [GoTypes.embedded_ids isUpper rest x]
    simp [GoType.allMethods, GoType.methodIds]
  | .cons (.Signature _) rest, x => by
    simp only [GoTypes.allMethods, GoTypes.methodIds, List.map_append, List.mem_append]
    rw [GoTypes.embedded_ids isUpper rest x]
    simp [GoType.allMethods, GoType.methodIds]
  | .cons (.Other _ _) rest, x => by
    simp only [GoTypes.allMethods, GoTypes.methodIds, List.map_append, List.mem_append]
    rw [GoTypes.embedded_ids isUpper rest x]
    simp [GoType.allMethods, GoType.methodIds]
end

theorem GoType.allMethods_length_eq (isUpper : Char → Bool) (t : GoType) :
    (GoType.allMethods isUpper t).length = (GoType.methodIds isUpper t).dedup.length := by
  have hp : ((GoType.allMethods isUpper t).map (Func.Id isUpper)).Perm
      (GoType.methodIds isUpper t).dedup :=
    (List.perm_ext_iff_of_nodup (GoType.allMethods_nodup isUpper t) (List.nodup_dedup _)).mpr
      (fun x => by rw [GoType.allMethods_ids isUpper t x, List.mem_dedup])
  simpa using hp.length_eq

/-- The methods of an interface are indexed in the order of their `Id()`, not in the order of
declaration: `interface { Close(); Reader; Writer }` has `Close`, `Read`, `Write`, and
`Diamond`, which inherits `Read` twice, has `Close`, `Read`. -/
theorem gmethod_interface_order :
    demoXRWC.gmethod demoHost 0 = .ok (demoFunc "" "Close")
      ∧ demoXRWC.gmethod demoHost 1 = .ok (demoFunc "" "Read")
      ∧ demoXRWC.gmethod demoHost 2 = .ok (demoFunc "" "Write")
      ∧ demoXDiamond.gmethod demoHost 0 = .ok (demoFunc "" "Close")
      ∧ demoXDiamond.gmethod demoHost 1 = .ok (demoFunc "" "Read") :=
  ⟨rfl, rfl, rfl, rfl, rfl⟩

/-- A name is exported when its first rune is an upper-case letter, of ASCII or not; the empty
name is not. -/
theorem IsExported_first_rune (isUpper : Char → Bool) :
    IsExported isUpper "" = false
      ∧ (∀ (ch : Char) (rest : List Char), IsExported isUpper ⟨ch :: rest⟩ = isUpper ch)
      ∧ IsExported demoIsUpper "Ñame" = true
      ∧ IsExported demoIsUpper "name" = false :=
  ⟨rfl, fun _ _ => rfl, by decide, by decide⟩

/-! ### C7 -/

/-- The loop over the fields of a struct adds up `goTypeNumAllMethod` of the types of the
anonymous fields. -/
theorem goFieldsNumAllMethod_eq_sum (isUpper : Char → Bool) :
    ∀ fields : GoFields,
      goFieldsNumAllMethod isUpper fields
        = ((fields.toList.filter (fun f => f.anonymous)).map
            (fun f => goTypeNumAllMethod isUpper f.typ)).sum
  | .nil => by simp [goFieldsNumAllMethod, GoFields.toList]
  | .cons name anonymous typ rest => by
    have ih := goFieldsNumAllMethod_eq_sum isUpper rest
    cases anonymous <;> simp [goFieldsNumAllMethod, GoFields.toList, ih]

/-- C7: for a type whose underlying type is a struct, named (with its declared methods) or not,
`NumAllMethod` is the number of declared methods plus the sum, over the anonymous fields of the
struct, of `goTypeNumAllMethod` of the field type; the other fields add nothing. So a named
struct with one declared method whose only anonymous field has a type `F` with
`goTypeNumAllMethod F = 2` has `NumAllMethod` 3, and `NumMethod` and `NumExplicitMethod` 1. For
the other types: a named type adds its declared methods to the count of its underlying type, an
interface counts the methods of its method set, each `Id()` once whether it is declared,
inherited, or both, and any other type counts 0. -/
theorem NumAllMethod_embedded (H : Host) (t : xtype) :
    (∀ (obj : String) (methods : List Func) (fields : GoFields),
        t.gtype = .Named obj methods (.other (.Struct fields)) →
        t.NumAllMethod H = methods.length
          + ((fields.toList.filter (fun f => f.anonymous)).map
              (fun f => goTypeNumAllMethod H.IsUpper f.typ)).sum)
    ∧ (∀ (fields : GoFields),
        t.gtype = .Struct fields →
        t.NumAllMethod H
          = ((fields.toList.filter (fun f => f.anonymous)).map
              (fun f => goTypeNumAllMethod H.IsUpper f.typ)).sum)
    ∧ (∀ (obj : String) (m : Func) (fields : GoFields) (f : Field),
        t.gtype = .Named obj [m] (.other (.Struct fields)) →
        t.kind = Kind.Struct →
        fields.toList.filter (fun f => f.anonymous) = [f] →
        goTypeNumAllMethod H.IsUpper f.typ = 2 →
        t.NumAllMethod H = 3 ∧ t.NumMethod H = .ok 1 ∧ t.NumExplicitMethod = 1)
    ∧ (∀ (obj : String) (methods : List Func) (u : GoType),
        t.gtype = .Named obj methods (.other u) →
        t.NumAllMethod H = methods.length + goTypeNumAllMethod H.IsUpper u)
    ∧ (∀ (obj : String) (methods : List Func),
        t.gtype = .Named obj methods .self → t.NumAllMethod H = methods.length)
    ∧ (∀ (methods : List Func) (embeddeds : GoTypes),
        t.gtype = .Interface methods embeddeds →
        t.NumAllMethod H = (interfaceMethodIds H.IsUpper methods embeddeds).dedup.length)
    ∧ ((∀ fields, t.gtype ≠ .Struct fields) →
        (∀ methods embeddeds, t.gtype ≠ .Interface methods embeddeds) →
        (∀ obj methods u, t.gtype ≠ .Named obj methods u) →
        t.NumAllMethod H = 0) := by
  refine ⟨?_, ?_, ?_, ?_, ?_, ?_, ?_⟩
  · intro obj methods fields hg
    simp [xtype.NumAllMethod, hg, goTypeNumAllMethod, goUnderlyingNumAllMethod,
      goFieldsNumAllMethod_eq_sum]
  · intro fields hg
    simp [xtype.NumAllMethod, hg, goTypeNumAllMethod, goFieldsNumAllMethod_eq_sum]
  · intro obj m fields f hg hk hf hF
    refine ⟨?_, ?_, ?_⟩
    · simp [xtype.NumAllMethod, hg, goTypeNumAllMethod, goUnderlyingNumAllMethod,
        goFieldsNumAllMethod_eq_sum, hf, hF]
    · simp [xtype.NumMethod, hk, xtype.Named, hg]
    · simp [xtype.NumExplicitMethod, hg, GoType.Underlying]
  · intro obj methods u hg
    simp [xtype.NumAllMethod, hg, goTypeNumAllMethod, goUnderlyingNumAllMethod]
  · intro obj methods hg
    simp [xtype.NumAllMethod, hg, goTypeNumAllMethod, goUnderlyingNumAllMethod]
  · intro methods embeddeds hg
    simp only [xtype.NumAllMethod, hg, goTypeNumAllMethod]
    exact (GoType.allMethods_interface H.IsUpper methods embeddeds).2.2
  · intro hs hi hn
    unfold xtype.NumAllMethod
    cases hg : t.gtype with
    | Struct fields => exact absurd hg (hs fields)
    | Interface methods embeddeds => exact absurd hg (hi methods embeddeds)
    | Named obj methods u => exact absurd hg (hn obj methods u)
    | Basic name => simp [goTypeNumAllMethod]
    | Pointer elem => simp [goTypeNumAllMethod]
    | Signature sig => simp [goTypeNumAllMethod]
    | Other kind printed => simp [goTypeNumAllMethod]

theorem NumAllMethod_embedded_witness :
    (demoXT.NumAllMethod demoHost = 3 ∧ demoXT.NumMethod demoHost = .ok 1
        ∧ demoXT.NumExplicitMethod = 1)
      ∧ (demoXEmbedDiamond.NumAllMethod demoHost = 3
        ∧ demoXEmbedDiamond.NumMethod demoHost = .ok 1
        ∧ demoXEmbedDiamond.NumExplicitMethod = 1) :=
  ⟨(NumAllMethod_embedded demoHost demoXT).2.2.1 "T" (demoFunc "T" "M")
      (.cons "F" true demoF (.cons "n" false (.Basic "int") .nil)) ⟨"F", true, demoF⟩
      rfl rfl rfl rfl,
    (NumAllMethod_embedded demoHost demoXEmbedDiamond).2.2.1 "S" (demoFunc "S" "M")
      (.cons "Diamond" true demoXDiamond.gtype .nil) ⟨"Diamond", true, demoXDiamond.gtype⟩
      rfl rfl rfl rfl⟩

/-! ### C8 -/

/-- C8: `NumMethod` of an interface descriptor (kind `Interface`, the underlying type an
interface, named or not) is the number of methods the interface declares or inherits from the
interfaces underlying its embedded types, at any depth of embedding, a method counting once (by
its `Id()`) when it is both declared and inherited or inherited more than once: the count is at
least the number of methods of every embedded interface, and it is the number of declared methods
plus the numbers of methods of the embedded interfaces when no method comes twice. Of any other named type it is the number of
its declared methods, whatever its underlying type and the fields of that; of an unnamed type
that is not an interface, 0. -/
theorem NumMethod_cases (H : Host) (t : xtype) :
    (∀ (methods : List Func) (embeddeds : GoTypes),
        t.kind = Kind.Interface →
        t.gtype.Underlying = .Interface methods embeddeds →
        t.NumMethod H = .ok (interfaceMethodIds H.IsUpper methods embeddeds).dedup.length
          ∧ t.NumMethod H
              = .ok (GoType.methodIds H.IsUpper (.Interface methods embeddeds)).dedup.length
          ∧ (methods.map (Func.Id H.IsUpper)).dedup.length
              ≤ (interfaceMethodIds H.IsUpper methods embeddeds).dedup.length
          ∧ (∀ et ∈ embeddeds.toList,
              (GoType.allMethods H.IsUpper et.Underlying).length
                ≤ (interfaceMethodIds H.IsUpper methods embeddeds).dedup.length)
          ∧ ((interfaceMethodIds H.IsUpper methods embeddeds).Nodup →
              t.NumMethod H = .ok (methods.length
                + (embeddeds.toList.map
                    (fun et => (GoType.allMethods H.IsUpper et.Underlying).length)).sum)))
    ∧ (∀ (obj : String) (methods : List Func) (u : GoUnderlying),
        t.kind ≠ Kind.Interface →
        t.gtype = .Named obj methods u →
        t.NumMethod H = .ok methods.length)
    ∧ (t.kind ≠ Kind.Interface → t.Named = false → t.NumMethod H = .ok 0) := by
  refine ⟨?_, ?_, ?_⟩
  · intro methods embeddeds hk hu
    have hnum : t.NumMethod H
        = .ok (interfaceMethodIds H.IsUpper methods embeddeds).dedup.length := by
      simp only [xtype.NumMethod, hk, if_true, hu]
      rw [(GoType.allMethods_interface H.IsUpper methods embeddeds).2.2]
    refine ⟨hnum, ?_, ?_, ?_, ?_⟩
    · simp only [xtype.NumMethod, hk, if_true, hu]
      rw [GoType.allMethods_length_eq]
    · exact length_le_dedup_of_subset (List.nodup_dedup _)
        (fun x hx => by
          simp only [interfaceMethodIds, List.mem_append]
          exact Or.inl (List.mem_dedup.mp hx))
    · intro et het
      have hnd := GoType.allMethods_nodup H.IsUpper et.Underlying
      have := length_le_dedup_of_subset hnd
        (l := interfaceMethodIds H.IsUpper methods embeddeds)
        (fun x hx => by
          simp only [interfaceMethodIds, List.mem_append, List.mem_flatten, List.mem_map]
          exact Or.inr ⟨_, ⟨et, het, rfl⟩, hx⟩)
      simpa using this
    · intro hnd
      rw [hnum, List.Nodup.dedup hnd]
      simp [interfaceMethodIds, List.length_flatten, Function.comp_def]
  · intro obj methods u hk hg
    simp [xtype.NumMethod, hk, xtype.Named, hg]
  · intro hk hn
    simp [xtype.NumMethod, hk, hn]

theorem NumMethod_cases_witness :
    demoXRWC.NumMethod demoHost = .ok 3
      ∧ demoXRWC.NumMethod demoHost = .ok (1 + (1 + 1))
      ∧ demoXDiamond.NumMethod demoHost = .ok 2
      ∧ demoXReadReader.NumMethod demoHost = .ok 1
      ∧ demoXT.NumMethod demoHost = .ok 1
      ∧ demoXSlice.NumMethod demoHost = .ok 0 :=
  ⟨((NumMethod_cases demoHost demoXRWC).1 [demoFunc "" "Close"] _ rfl rfl).1,
    ((NumMethod_cases demoHost demoXRWC).1 [demoFunc "" "Close"] _ rfl rfl).2.2.2.2
      (by decide),
    ((NumMethod_cases demoHost demoXDiamond).1 [] _ rfl rfl).2.1,
    ((NumMethod_cases demoHost demoXReadReader).1 [demoFunc "" "Read"] _ rfl rfl).1,
    (NumMethod_cases demoHost demoXT).2.1 "T" _ _ (by decide) rfl,
    (NumMethod_cases demoHost demoXSlice).2.2 (by decide) rfl⟩

/-! ### C9 -/

/-- C9: for every index `i`, `Method` on a descriptor of pointer kind fails with the error of the
first check of `checkMethod`; on an unnamed descriptor that is not an interface it fails with a
fatal error too, which is the error of the second check, another one, unless the descriptor is
of pointer kind as well (the first check comes first). In both cases the descriptor, and so its
method table, is handed back as it was. -/
theorem Method_checks (H : Host) (t : xtype) (i : Int) :
    (t.kind = Kind.Ptr →
        t.Method H i = (t, .error (.xerror
          "Method of %s type %v. Invoke Method() on type's Elem() instead"
          [toString i, "t.kind", "t"])))
    ∧ (t.Named = false → t.kind ≠ Kind.Interface →
        (∃ format args, t.Method H i = (t, .error (.xerror format args)))
        ∧ (t.kind ≠ Kind.Ptr →
            t.Method H i = (t, .error (.xerror
              "Method of type %v that cannot have methods" ["t.kind", "t"]))))
    ∧ Failure.xerror "Method of type %v that cannot have methods" ["t.kind", "t"]
        ≠ Failure.xerror "Method of %s type %v. Invoke Method() on type's Elem() instead"
          [toString i, "t.kind", "t"] := by
  refine ⟨?_, ?_, ?_⟩
  · intro hk
    simp [xtype.Method, checkMethod, hk, xerrorf]
  · intro hn hi
    by_cases hk : t.kind = Kind.Ptr
    · have : t.Method H i = (t, .error (.xerror
          "Method of %s type %v. Invoke Method() on type's Elem() instead"
          [toString i, "t.kind", "t"])) := by
        simp [xtype.Method, checkMethod, hk, xerrorf]
      exact ⟨⟨_, _, this⟩, fun h => absurd hk h⟩
    · have : t.Method H i = (t, .error (.xerror
          "Method of type %v that cannot have methods" ["t.kind", "t"])) := by
        simp [xtype.Method, checkMethod, hk, hn, hi, xerrorf]
      exact ⟨⟨_, _, this⟩, fun _ => this⟩
  · intro h
    injection h with hf _
    exact absurd hf (by decide)

theorem Method_checks_witness :
    demoXPtr.Method demoHost 7 = (demoXPtr, .error (.xerror
        "Method of %s type %v. Invoke Method() on type's Elem() instead" ["7", "t.kind", "t"]))
      ∧ demoXSlice.Method demoHost 7 = (demoXSlice, .error (.xerror
        "Method of type %v that cannot have methods" ["t.kind", "t"])) :=
  ⟨(Method_checks demoHost demoXPtr 7).1 rfl,
    ((Method_checks demoHost demoXSlice 7).2.1 rfl (by decide)).2 (by decide)⟩

/-! ### C10 -/

theorem goIndex_out_of_range {α : Type} (s : List α) (i : Int)
    (h : i < 0 ∨ (s.length : Int) ≤ i) :
    goIndex s i = .error (.runtime "runtime error: index out of range") := by
  unfold goIndex
  by_cases hneg : i < 0
  · simp [hneg]
  · have hlen : s.length ≤ i.toNat := by omega
    have hnone : s[i.toNat]? = none := List.getElem?_eq_none hlen
    simp [hneg, hnone]

theorem checkMethod_ok (t : xtype) (i : Int) (hptr : t.kind ≠ Kind.Ptr)
    (hni : t.Named = true ∨ t.kind = Kind.Interface) : checkMethod t i = .ok () := by
  rcases hni with hn | hk
  · simp [checkMethod, hptr, hn]
  · simp [checkMethod, hptr, hk]

theorem gmethod_out_of_range (H : Host) (t : xtype) (i : Int) (n : Nat)
    (hwf : t.KindConsistent) (hni : t.Named = true ∨ t.kind = Kind.Interface)
    (hn : t.NumMethod H = .ok n) (hi : i < 0 ∨ (n : Int) ≤ i) :
    t.gmethod H i = .error (.runtime "runtime error: index out of range") := by
  by_cases hk : t.kind = Kind.Interface
  · obtain ⟨methods, embeddeds, hu⟩ := hwf.mp hk
    simp only [xtype.NumMethod, hk, if_true, hu, Except.ok.injEq] at hn
    simp only [xtype.gmethod, hu]
    exact goIndex_out_of_range _ i (by rw [hn]; exact hi)
  · have hnamed : t.Named = true := by
      rcases hni with h | h
      · exact h
      · exact absurd h hk
    have hnot : ∀ methods embeddeds, t.gtype.Underlying ≠ .Interface methods embeddeds :=
      fun methods embeddeds h => hk (hwf.mpr ⟨methods, embeddeds, h⟩)
    cases hg : t.gtype with
    | Named obj methods u =>
      simp only [xtype.NumMethod, hk, if_false, hnamed, if_true, hg, Except.ok.injEq] at hn
      have hidx := goIndex_out_of_range methods i (by rw [hn]; exact hi)
      rw [hg] at hnot
      unfold xtype.gmethod
      rw [hg]
      cases hu : (GoType.Named obj methods u).Underlying with
      | Interface ms embs => exact absurd hu (hnot ms embs)
      | Named o2 m2 u2 => simpa using hidx
      | Basic name => simpa using hidx
      | Struct fields => simpa using hidx
      | Pointer elem => simpa using hidx
      | Signature sig => simpa using hidx
      | Other kind printed => simpa using hidx
    | Basic name => simp [xtype.Named, hg] at hnamed
    | Interface ms embs => simp [xtype.Named, hg] at hnamed
    | Struct fields => simp [xtype.Named, hg] at hnamed
    | Pointer elem => simp [xtype.Named, hg] at hnamed
    | Signature sig => simp [xtype.Named, hg] at hnamed
    | Other kind printed => simp [xtype.Named, hg] at hnamed

/-- C10: on a descriptor that is named or an interface, not of pointer kind, and whose kind
agrees with its `types.Type`, `Method` with an index below 0 or not below `NumMethod` panics (the
index expression on the list of methods is out of range) instead of returning a `Method`, and
the descriptor, with its method table, is handed back as it was. For an interface the list is
its method set, which holds a method once however often it is inherited. -/
theorem Method_index_out_of_range (H : Host) (t : xtype) (i : Int) (n : Nat)
    (hwf : t.KindConsistent) (hptr : t.kind ≠ Kind.Ptr)
    (hni : t.Named = true ∨ t.kind = Kind.Interface)
    (hn : t.NumMethod H = .ok n) (hi : i < 0 ∨ (n : Int) ≤ i) :
    t.Method H i = (t, .error (.runtime "runtime error: index out of range")) := by
  simp [xtype.Method, xtype.method, checkMethod_ok t i hptr hni,
    gmethod_out_of_range H t i n hwf hni hn hi]

theorem demoXT_kindConsistent : demoXT.KindConsistent := by
  constructor
  · intro h; cases h
  · rintro ⟨methods, embeddeds, h⟩
    simp [demoXT, demoT, GoType.Underlying] at h

theorem demoXDiamond_kindConsistent : demoXDiamond.KindConsistent :=
  ⟨fun _ => ⟨_, _, rfl⟩, fun _ => rfl⟩

theorem Method_index_out_of_range_witness :
    demoXT.Method demoHost 1 = (demoXT, .error (.runtime "runtime error: index out of range"))
      ∧ demoXT.Method demoHost (-1)
        = (demoXT, .error (.runtime "runtime error: index out of range"))
      ∧ demoXDiamond.NumMethod demoHost = .ok 2
      ∧ demoXDiamond.Method demoHost 2
        = (demoXDiamond, .error (.runtime "runtime error: index out of range")) :=
  ⟨Method_index_out_of_range demoHost demoXT 1 1 demoXT_kindConsistent (by decide)
      (Or.inl rfl) rfl (Or.inr (by decide)),
    Method_index_out_of_range demoHost demoXT (-1) 1 demoXT_kindConsistent (by decide)
      (Or.inl rfl) rfl (Or.inl (by decide)),
    rfl,
    Method_index_out_of_range demoHost demoXDiamond 2 2 demoXDiamond_kindConsistent (by decide)
      (Or.inl rfl) rfl (Or.inr (by decide))⟩

/-- Every `Method` that `method` returns was built by `makemethod`, called with the index `i` on
the descriptor that is handed back. -/
theorem method_ok_from_makemethod (H : Host) (t t1 : xtype) (i : Int) (m : Gomacro.Method)
    (h : t.method H i = (t1, .ok m)) :
    ∃ (gfunc : Func) (rfunctype : Option RType), t1.makemethod H i gfunc rfunctype = .ok m := by
  unfold xtype.method at h
  cases hc : checkMethod t i with
  | error e => simp [hc] at h
  | ok u =>
    cases hg : t.gmethod H i with
    | error e => simp [hc, hg] at h
    | ok gfunc =>
      cases hr : resizemethodvalues H t with
      | error e => simp [hc, hg, hr] at h
      | ok tr =>
        cases hi : tr.methodvalues.index i with
        | error e => simp [hc, hg, hr, hi] at h
        | ok rfunc =>
          simp only [hc, hg, hr, hi] at h
          by_cases hk : rfunc.Kind = Kind.Func
          · simp only [hk, if_true] at h
            cases hT : rfunc.Typ with
            | error e => simp [hT] at h
            | ok rft =>
              simp only [hT, Prod.mk.injEq] at h
              obtain ⟨h1, h2⟩ := h
              subst h1
              exact ⟨_, _, h2⟩
          · simp only [hk, if_false] at h
            have named : ∀ (rmethod : RMethod),
                (if rmethod.Func.Kind ≠ Kind.Func ∧ IsExported H.IsUpper gfunc.name then
                  (tr, (xerrorf "type <%v>: reflect method %q not found" ["t", gfunc.name] :
                    Except Failure Gomacro.Method))
                else
                  match tr.methodvalues.assign i rmethod.Func with
                  | .error e => (tr, .error e)
                  | .ok slice =>
                    ({ tr with methodvalues := slice },
                      xtype.makemethod H { tr with methodvalues := slice } i gfunc
                        (if rmethod.Func.Kind ≠ Kind.Func then none else rmethod.Typ)))
                  = (t1, .ok m) →
                ∃ (gfunc : Func) (rfunctype : Option RType),
                  t1.makemethod H i gfunc rfunctype = .ok m := by
              intro rmethod h
              split at h
              · simp [xerrorf] at h
              · cases ha : tr.methodvalues.assign i rmethod.Func with
                | error e => simp [ha] at h
                | ok slice =>
                  simp only [ha, Prod.mk.injEq] at h
                  obtain ⟨h1, h2⟩ := h
                  subst h1
                  exact ⟨_, _, h2⟩
            cases hu : tr.gtype.Underlying with
            | Interface ms embs =>
              simp only [hu] at h
              cases hI : interfaceMethodType H tr i gfunc.name with
              | error e => simp [hI] at h
              | ok rfunctype =>
                simp only [hI, Prod.mk.injEq] at h
                obtain ⟨h1, h2⟩ := h
                subst h1
                exact ⟨_, _, h2⟩
            | Basic name => simp only [hu] at h; exact named _ h
            | Named obj ms u => simp only [hu] at h; exact named _ h
            | Struct fields => simp only [hu] at h; exact named _ h
            | Pointer elem => simp only [hu] at h; exact named _ h
            | Signature sig => simp only [hu] at h; exact named _ h
            | Other kind printed => simp only [hu] at h; exact named _ h

/-! ### C11 -/

/-- C11: a `Method` built by `makemethod` with a resolved type was given a function type whose
number of inputs is the number of declared parameters, plus one when the declaration has a
receiver, and its resolved type is `maketype` of the declared signature and that function type;
when a function type is given whose number of inputs differs, `makemethod` fails with an
`xerrorf` error and builds no `Method`. Every `Method` returned by `Method` with a resolved type
was built this way, so it has the same property. -/
theorem makemethod_arity (H : Host) :
    (∀ (t : xtype) (index : Int) (gfun : Func) (rfunctype : Option RType) (m : Gomacro.Method)
        (ty : xtype),
        t.makemethod H index gfun rfunctype = .ok m → m.Typ = some ty →
        ∃ rft, rfunctype = some rft ∧ ty = H.maketype t.univ gfun.sig rft
          ∧ rft.NumIn = .ok gfun.sig.declaredIns ∧ m.GoFun = gfun)
    ∧ (∀ (t : xtype) (index : Int) (gfun : Func) (rft : RType) (numIn : Nat),
        rft.NumIn = .ok numIn → numIn ≠ gfun.sig.declaredIns →
        ∃ format args, t.makemethod H index gfun (some rft) = .error (.xerror format args))
    ∧ (∀ (t t1 : xtype) (i : Int) (m : Gomacro.Method) (ty : xtype),
        t.Method H i = (t1, .ok m) → m.Typ = some ty →
        ∃ rft, ty = H.maketype t1.univ m.GoFun.sig rft
          ∧ rft.NumIn = .ok m.GoFun.sig.declaredIns) := by
  have made : ∀ (t : xtype) (index : Int) (gfun : Func) (rfunctype : Option RType)
      (m : Gomacro.Method) (ty : xtype),
      t.makemethod H index gfun rfunctype = .ok m → m.Typ = some ty →
      ∃ rft, rfunctype = some rft ∧ ty = H.maketype t.univ gfun.sig rft
        ∧ rft.NumIn = .ok gfun.sig.declaredIns ∧ m.GoFun = gfun := by
    intro t index gfun rfunctype m ty h hty
    cases rfunctype with
    | none =>
      simp only [xtype.makemethod, Except.ok.injEq] at h
      subst h
      simp at hty
    | some rft =>
      cases hn : rft.NumIn with
      | error e => simp [xtype.makemethod, hn] at h
      | ok numIn =>
        by_cases hrecv : gfun.sig.recv.isSome = true
        · by_cases hcount :
              (match gfun.sig.params with
                | some params => params.length
                | none => 0) + 1 = numIn
          · have hdecl : gfun.sig.declaredIns = numIn := by
              simp [Signature.declaredIns, hrecv, hcount]
            simp [xtype.makemethod, hn, hrecv, hcount] at h
            subst h
            simp only [Option.some.injEq] at hty
            exact ⟨rft, rfl, hty.symm, by rw [hdecl]; exact hn, rfl⟩
          · simp [xtype.makemethod, hn, hrecv, hcount, xerrorf] at h
        · by_cases hcount :
              (match gfun.sig.params with
                | some params => params.length
                | none => 0) = numIn
          · have hdecl : gfun.sig.declaredIns = numIn := by
              simp [Signature.declaredIns, hrecv, hcount]
            simp [xtype.makemethod, hn, hrecv, hcount] at h
            subst h
            simp only [Option.some.injEq] at hty
            exact ⟨rft, rfl, hty.symm, by rw [hdecl]; exact hn, rfl⟩
          · simp [xtype.makemethod, hn, hrecv, hcount, xerrorf] at h
  refine ⟨made, ?_, ?_⟩
  · intro t index gfun rft numIn hn hne
    by_cases hrecv : gfun.sig.recv.isSome = true
    · have hcount :
          ¬ (match gfun.sig.params with
            | some params => params.length
            | none => 0) + 1 = numIn := by
        intro hc
        apply hne
        simp [Signature.declaredIns, hrecv, ← hc]
      cases hmk : t.makemethod H index gfun (some rft) with
      | ok m => simp [xtype.makemethod, hn, hrecv, hcount, xerrorf] at hmk
      | error e =>
        simp [xtype.makemethod, hn, hrecv, hcount, xerrorf] at hmk
        subst hmk
        exact ⟨_, _, rfl⟩
    · have hcount :
          ¬ (match gfun.sig.params with
            | some params => params.length
            | none => 0) = numIn := by
        intro hc
        apply hne
        simp [Signature.declaredIns, hrecv, ← hc]
      cases hmk : t.makemethod H index gfun (some rft) with
      | ok m => simp [xtype.makemethod, hn, hrecv, hcount, xerrorf] at hmk
      | error e =>
        simp [xtype.makemethod, hn, hrecv, hcount, xerrorf] at hmk
        subst hmk
        exact ⟨_, _, rfl⟩
  · intro t t1 i m ty h hty
    have hm : t.method H i = (t1, .ok m) := by
      unfold xtype.Method at h
      cases hc : checkMethod t i with
      | error e => simp [hc] at h
      | ok u => simpa [hc] using h
    obtain ⟨gfunc, rfunctype, hmk⟩ := method_ok_from_makemethod H t t1 i m hm
    obtain ⟨rft, _, hty2, hnum, hgo⟩ := made t1 i gfunc rfunctype m ty hmk hty
    exact ⟨rft, by rw [hgo]; exact hty2, by rw [hgo]; exact hnum⟩

theorem makemethod_arity_witness :
    demoXT.Method demoHostM 0 = (demoXT1, .ok demoM)
      ∧ demoM.GoFun.sig.declaredIns = 1
      ∧ (∃ rft, demoHostM.maketype demoXT.univ (demoFunc "T" "M").sig demoMType
            = demoHostM.maketype demoXT1.univ demoM.GoFun.sig rft
          ∧ rft.NumIn = .ok demoM.GoFun.sig.declaredIns)
      ∧ (∃ format args, demoXT.makemethod demoHostM 0 (demoFunc "T" "M")
            (some (.Func [] [] false)) = .error (.xerror format args)) :=
  ⟨rfl, rfl,
    (makemethod_arity demoHostM).2.2 demoXT demoXT1 0 demoM _ rfl rfl,
    (makemethod_arity demoHostM).2.1 demoXT 0 (demoFunc "T" "M") (.Func [] [] false) 0 rfl
      (by decide)⟩

/-! ### C12 -/

theorem FuncOf_ok (ins outs : List RType) (variadic : Bool)
    (hwf : variadic = true → ins.getLast?.map RType.Kind = some Kind.Slice)
    (hsize : ins.length + outs.length ≤ 128) :
    FuncOf ins outs variadic = .ok (.Func ins outs variadic) := by
  unfold FuncOf
  have h1 : ¬ (variadic = true ∧ ins.getLast?.map RType.Kind ≠ some Kind.Slice) :=
    fun h => h.2 (hwf h.1)
  have h2 : ¬ ins.length + outs.length > 128 := by omega
  simp only [h1, h2, if_false]

/-- C12, as stated, fails: for a function type with 128 parameters (and no result),
`addReceiver` does not return a function type with the receiver in front: `reflect.FuncOf`, which
it calls with 129 parameters, panics; so there is nothing for `removeReceiver` to restore. -/
theorem addReceiver_too_many_arguments :
    addReceiver (.Basic .Int "T") (.Func (List.replicate 128 (.Basic .Int "int")) [] false)
        = .error (.runtime "reflect.FuncOf: too many arguments")
      ∧ (addReceiver (.Basic .Int "T") (.Func (List.replicate 128 (.Basic .Int "int")) [] false)
          >>= removeReceiver)
        ≠ .ok (.Func (List.replicate 128 (.Basic .Int "int")) [] false) := by
  have h : addReceiver (.Basic .Int "T")
      (.Func (List.replicate 128 (.Basic .Int "int")) [] false)
      = .error (.runtime "reflect.FuncOf: too many arguments") := by
    simp [addReceiver, RType.funcParts, FuncOf]
  refine ⟨h, ?_⟩
  rw [h]
  intro hc
  cases hc

/-- C12, amended: for every receiver type `recv` and every function type `s` with parameters
`ins`, results `outs` and variadic flag `variadic`. When `s` has fewer than 128 parameters and
results in total (and its last parameter is a slice when the flag is set, as in every Go function
type), `addReceiver recv s` is the function type with the parameters `recv :: ins`, the results
`outs` and the same flag, and `removeReceiver` of that is `s` again. When `s` has 128 parameters
and results or more, `addReceiver recv s` panics and returns no type: `reflect.FuncOf` is called
with more than 128 of them, and the panic is its `too many arguments` for every such Go function
type. -/
theorem addReceiver_removeReceiver (recv : RType) (ins outs : List RType) (variadic : Bool) :
    ((variadic = true → ins.getLast?.map RType.Kind = some Kind.Slice) →
        ins.length + outs.length < 128 →
        addReceiver recv (.Func ins outs variadic) = .ok (.Func (recv :: ins) outs variadic)
          ∧ removeReceiver (.Func (recv :: ins) outs variadic) = .ok (.Func ins outs variadic)
          ∧ (addReceiver recv (.Func ins outs variadic) >>= removeReceiver)
              = .ok (.Func ins outs variadic))
    ∧ (128 ≤ ins.length + outs.length →
        (∃ e, addReceiver recv (.Func ins outs variadic) = .error e)
          ∧ ∀ rt, (addReceiver recv (.Func ins outs variadic) >>= removeReceiver) ≠ .ok rt)
    ∧ ((variadic = true → ins.getLast?.map RType.Kind = some Kind.Slice) →
        128 ≤ ins.length + outs.length →
        addReceiver recv (.Func ins outs variadic)
          = .error (.runtime "reflect.FuncOf: too many arguments")) := by
  have hwf1 : (variadic = true → ins.getLast?.map RType.Kind = some Kind.Slice) →
      variadic = true → (recv :: ins).getLast?.map RType.Kind = some Kind.Slice := by
    intro hwf hv
    have := hwf hv
    cases ins with
    | nil => simp at this
    | cons a rest => simpa [List.getLast?_cons_cons] using this
  have hbig : 128 ≤ ins.length + outs.length →
      ∃ e, addReceiver recv (.Func ins outs variadic) = .error e := by
    intro hsize
    simp only [addReceiver, RType.funcParts, FuncOf]
    split
    · exact ⟨_, rfl⟩
    · rw [if_pos (by simp only [List.length_cons]; omega)]
      exact ⟨_, rfl⟩
  refine ⟨?_, ?_, ?_⟩
  · intro hwf hsize
    have hadd : addReceiver recv (.Func ins outs variadic)
        = .ok (.Func (recv :: ins) outs variadic) := by
      simp only [addReceiver, RType.funcParts]
      exact FuncOf_ok (recv :: ins) outs variadic (hwf1 hwf)
        (by simp only [List.length_cons]; omega)
    have hrem : removeReceiver (.Func (recv :: ins) outs variadic)
        = .ok (.Func ins outs variadic) := by
      simp only [removeReceiver, RType.funcParts, List.length_cons, List.tail_cons]
      rw [if_neg (by omega)]
      exact FuncOf_ok ins outs variadic hwf (by omega)
    refine ⟨hadd, hrem, ?_⟩
    rw [hadd]
    exact hrem
  · intro hsize
    obtain ⟨e, he⟩ := hbig hsize
    refine ⟨⟨e, he⟩, ?_⟩
    intro rt hc
    rw [he] at hc
    cases hc
  · intro hwf hsize
    simp only [addReceiver, RType.funcParts, FuncOf]
    have h1 : ¬ (variadic = true ∧ (recv :: ins).getLast?.map RType.Kind ≠ some Kind.Slice) :=
      fun h => h.2 (hwf1 hwf h.1)
    rw [if_neg h1, if_pos (by simp only [List.length_cons]; omega)]

theorem addReceiver_removeReceiver_witness :
    (addReceiver (.Basic .Int "T")
        (.Func [.Basic .String "string", .Slice (.Basic .Int "int")] [.Basic .Bool "bool"] true)
        = .ok (.Func [.Basic .Int "T", .Basic .String "string", .Slice (.Basic .Int "int")]
            [.Basic .Bool "bool"] true)
      ∧ removeReceiver
          (.Func [.Basic .Int "T", .Basic .String "string", .Slice (.Basic .Int "int")]
            [.Basic .Bool "bool"] true)
        = .ok (.Func [.Basic .String "string", .Slice (.Basic .Int "int")]
            [.Basic .Bool "bool"] true)
      ∧ (addReceiver (.Basic .Int "T")
          (.Func [.Basic .String "string", .Slice (.Basic .Int "int")] [.Basic .Bool "bool"]
            true) >>= removeReceiver)
        = .ok (.Func [.Basic .String "string", .Slice (.Basic .Int "int")]
            [.Basic .Bool "bool"] true))
      ∧ addReceiver (.Basic .Int "T")
          (.Func (List.replicate 100 (.Basic .Int "int")) (List.replicate 28 (.Basic .Int "int"))
            false)
        = .error (.runtime "reflect.FuncOf: too many arguments") :=
  ⟨(addReceiver_removeReceiver (.Basic .Int "T")
      [.Basic .String "string", .Slice (.Basic .Int "int")] [.Basic .Bool "bool"] true).1
      (fun _ => rfl) (by decide),
    (addReceiver_removeReceiver (.Basic .Int "T")
      (List.replicate 100 (.Basic .Int "int")) (List.replicate 28 (.Basic .Int "int"))
      false).2.2 (fun h => absurd h (by decide)) (by simp)⟩

/-! ### C13 -/

theorem evalIdentifierLoop_eq_none (name : String) :
    ∀ env : Env, evalIdentifierLoop name env = none ↔ ∀ e ∈ Env.chain env, e.Binds name = none := by
  intro env
  induction env with
  | nil => simp [evalIdentifierLoop, Env.chain]
  | frame b outer p k ih =>
    cases hb : b name with
    | some v =>
      simp only [evalIdentifierLoop, hb, Env.chain, List.mem_cons, forall_eq_or_imp, Env.Binds,
        false_and]
      simp
    | none =>
      simp only [evalIdentifierLoop, hb, Env.chain, List.mem_cons, forall_eq_or_imp, Env.Binds,
        true_and]
      exact ih

/-- C13: for a name other than `true`, `false` and `iota`, and an `Errorf` whose outcome is not
the normal return of a value, `evalIdentifier` returns to its caller the outcome of
`Errorf("undefined identifier: %s", name)` exactly when no frame of the chain binds the name;
and on every chain the call finishes, with that outcome or with a bound value. -/
theorem evalIdentifier_undefined (Errorf : String → List Arg → Res Values) (env : Env)
    (expr : Ident)
    (hf : expr.Name ≠ "false") (ht : expr.Name ≠ "true") (hi : expr.Name ≠ "iota")
    (herr : ∀ v, Errorf "undefined identifier: %s" [.str expr.Name] ≠ .ret (v, [])) :
    (evalIdentifier Errorf env expr = Errorf "undefined identifier: %s" [.str expr.Name]
        ↔ ∀ e ∈ Env.chain env, e.Binds expr.Name = none)
    ∧ ((evalIdentifier Errorf env expr = Errorf "undefined identifier: %s" [.str expr.Name]
          ∧ ∀ e ∈ Env.chain env, e.Binds expr.Name = none)
        ∨ ∃ e v, e ∈ Env.chain env ∧ e.Binds expr.Name = some v
            ∧ evalIdentifier Errorf env expr = .ret (v, [])) := by
  rw [evalIdentifier_default Errorf env expr hf ht hi]
  cases hl : evalIdentifierLoop expr.Name env with
  | none =>
    have hall := (evalIdentifierLoop_eq_none expr.Name env).mp hl
    exact ⟨⟨fun _ => hall, fun _ => rfl⟩, Or.inl ⟨rfl, hall⟩⟩
  | some v =>
    have hnot : ¬ ∀ e ∈ Env.chain env, e.Binds expr.Name = none := by
      intro hall
      rw [(evalIdentifierLoop_eq_none expr.Name env).mpr hall] at hl
      cases hl
    refine ⟨⟨fun h => absurd h.symm (herr v), fun h => absurd h hnot⟩, Or.inr ?_⟩
    -- the frame that holds the binding
    have hfind : ∀ env : Env, evalIdentifierLoop expr.Name env = some v →
        ∃ e, e ∈ Env.chain env ∧ e.Binds expr.Name = some v := by
      intro env
      induction env with
      | nil => intro h; simp [evalIdentifierLoop] at h
      | frame b outer p k ih =>
        intro h
        cases hb : b expr.Name with
        | some w =>
          simp only [evalIdentifierLoop, hb, Option.some.injEq] at h
          subst h
          exact ⟨.frame b outer p k, by simp [Env.chain], by simpa [Env.Binds] using hb⟩
        | none =>
          simp only [evalIdentifierLoop, hb] at h
          obtain ⟨e, he, hv⟩ := ih h
          exact ⟨e, by simp [Env.chain, he], hv⟩
    obtain ⟨e, he, hv⟩ := hfind env hl
    exact ⟨e, v, he, hv, rfl⟩

theorem evalIdentifier_undefined_witness :
    (evalIdentifier demoErrorf demoE2 ⟨0, "w"⟩ = demoErrorf "undefined identifier: %s" [.str "w"]
        ↔ ∀ e ∈ Env.chain demoE2, e.Binds "w" = none)
      ∧ evalIdentifier demoErrorf demoE2 ⟨0, "w"⟩ = .panic (.Other "undefined identifier: %s") :=
  ⟨(evalIdentifier_undefined demoErrorf demoE2 ⟨0, "w"⟩ (by decide) (by decide) (by decide)
      (by intro v h; cases h)).1,
    by decide⟩

/-! ### C16 -/

/-- C16: whatever the frames bind, `evalIdentifier` gives the boolean `true` for `true` and
the boolean `false` for `false`, and for `iota`, in a frame with the offset `iotaOffset`, the
line of the position of the identifier minus `iotaOffset`: the number `k` on the line
`iotaOffset + k`. The frames are not consulted. -/
theorem evalIdentifier_reserved (Errorf : String → List Arg → Res Values) (pos : Nat) :
    (∀ env : Env, evalIdentifier Errorf env ⟨pos, "true"⟩ = .ret (.ofBool true, []))
    ∧ (∀ env : Env, evalIdentifier Errorf env ⟨pos, "false"⟩ = .ret (.ofBool false, []))
    ∧ (∀ (binds : String → Option Value) (outer : Env) (parser : Parser) (iotaOffset : Int),
        evalIdentifier Errorf (.frame binds outer parser iotaOffset) ⟨pos, "iota"⟩
          = .ret (.ofInt ((parser.Fileset.Position pos).Line - iotaOffset), []))
    ∧ (∀ (binds : String → Option Value) (outer : Env) (parser : Parser) (iotaOffset k : Int),
        (parser.Fileset.Position pos).Line = iotaOffset + k →
        evalIdentifier Errorf (.frame binds outer parser iotaOffset) ⟨pos, "iota"⟩
          = .ret (.ofInt k, [])) := by
  refine ⟨?_, ?_, ?_, ?_⟩
  · intro env; simp [evalIdentifier]
  · intro env; simp [evalIdentifier]
  · intro binds outer parser iotaOffset; simp [evalIdentifier]
  · intro binds outer parser iotaOffset k hk
    simp [evalIdentifier, hk]

theorem evalIdentifier_reserved_witness :
    evalIdentifier demoErrorf demoReserved ⟨0, "true"⟩ = .ret (.ofBool true, [])
      ∧ evalIdentifier demoErrorf demoReserved ⟨0, "false"⟩ = .ret (.ofBool false, [])
      ∧ evalIdentifier demoErrorf demoReserved ⟨0, "iota"⟩ = .ret (.ofInt 2, [])
      ∧ demoReserved.Binds "iota" = some (.ofInt 99) :=
  ⟨(evalIdentifier_reserved demoErrorf 0).1 demoReserved,
    (evalIdentifier_reserved demoErrorf 0).2.1 demoReserved,
    (evalIdentifier_reserved demoErrorf 0).2.2.2 _ .nil ⟨⟨fun p => ⟨"demo.go", p, 12, 1⟩⟩⟩ 10 2 rfl,
    rfl⟩

/-! ### C15 -/

section Branch

variable {E Stmt Expr Block : Type}

/-- C15: `evalBranch` panics with `Break` carrying the label for the token `break` and with
`Continue` carrying the label for the token `continue`, and so does not return normally; for
`goto`, for `fallthrough` and for any other token its outcome is that of `Errorf` called with a
message that starts with "unimplemented". -/
theorem evalBranch_cases (I : Interp E Stmt Expr Block) (env : E) (node : BranchStmt) :
    (node.Tok = .BREAK →
        evalBranch I env node = .panic (.Break (branchLabel node))
          ∧ ∀ r, evalBranch I env node ≠ .ret r)
    ∧ (node.Tok = .CONTINUE →
        evalBranch I env node = .panic (.Continue (branchLabel node))
          ∧ ∀ r, evalBranch I env node ≠ .ret r)
    ∧ (node.Tok = .GOTO → evalBranch I env node = I.Errorf env "unimplemented: goto" [])
    ∧ (node.Tok = .FALLTHROUGH →
        evalBranch I env node = I.Errorf env "unimplemented: fallthrough" [])
    ∧ (∀ code, node.Tok = .OTHER code →
        evalBranch I env node
          = I.Errorf env "unimplemented branch: %v <%v>"
              [.node "BranchStmt", .node "*ast.BranchStmt"]) := by
  refine ⟨?_, ?_, ?_, ?_, ?_⟩
  · intro h
    have : evalBranch I env node = .panic (.Break (branchLabel node)) := by
      simp [evalBranch, h, branchLabel]
    exact ⟨this, fun r hr => by rw [this] at hr; cases hr⟩
  · intro h
    have : evalBranch I env node = .panic (.Continue (branchLabel node)) := by
      simp [evalBranch, h, branchLabel]
    exact ⟨this, fun r hr => by rw [this] at hr; cases hr⟩
  · intro h; simp [evalBranch, h]
  · intro h; simp [evalBranch, h]
  · intro code h; simp [evalBranch, h]

theorem evalBranch_cases_witness :
    evalBranch demoInterp demoE1 ⟨.BREAK, some ⟨0, "outer"⟩⟩ = .panic (.Break "outer")
      ∧ evalBranch demoInterp demoE1 ⟨.CONTINUE, none⟩ = .panic (.Continue "")
      ∧ evalBranch demoInterp demoE1 ⟨.GOTO, some ⟨0, "outer"⟩⟩
          = .panic (.Other "unimplemented: goto")
      ∧ evalBranch demoInterp demoE1 ⟨.FALLTHROUGH, none⟩
          = .panic (.Other "unimplemented: fallthrough")
      ∧ evalBranch demoInterp demoE1 ⟨.OTHER 7, none⟩
          = .panic (.Other "unimplemented branch: %v <%v>") :=
  ⟨((evalBranch_cases demoInterp demoE1 ⟨.BREAK, some ⟨0, "outer"⟩⟩).1 rfl).1,
    ((evalBranch_cases demoInterp demoE1 ⟨.CONTINUE, none⟩).2.1 rfl).1,
    (evalBranch_cases demoInterp demoE1 ⟨.GOTO, some ⟨0, "outer"⟩⟩).2.2.1 rfl,
    (evalBranch_cases demoInterp demoE1 ⟨.FALLTHROUGH, none⟩).2.2.2.1 rfl,
    (evalBranch_cases demoInterp demoE1 ⟨.OTHER 7, none⟩).2.2.2.2 7 rfl⟩

end Branch

/-! ### C17 -/

/-- For a type whose underlying type is not an interface, `NumExplicitMethod` is the number of
declared methods of a named type and 0 otherwise. -/
theorem NumExplicitMethod_not_interface (t : xtype)
    (hu : ∀ methods embeddeds, t.gtype.Underlying ≠ .Interface methods embeddeds) :
    t.NumExplicitMethod =
      match t.gtype with
      | .Named _ methods _ => methods.length
      | _ => 0 := by
  unfold xtype.NumExplicitMethod
  cases hU : t.gtype.Underlying with
  | Interface ms embs => exact absurd hU (hu ms embs)
  | Basic name => rfl
  | Named obj methods u => rfl
  | Struct fields => rfl
  | Pointer elem => rfl
  | Signature sig => rfl
  | Other kind printed => rfl

/-- C17: for a type that is not an interface (neither by its kind nor by its underlying type)
`NumMethod` returns `NumExplicitMethod`, which is the number of declared methods of a named type
and 0 for an unnamed one; for an interface `NumExplicitMethod` is the number of explicitly
declared methods of the interface, whatever it embeds, while `NumMethod` counts the method set,
which holds the declared methods and the inherited ones, each `Id()` once. So `NumMethod` is at
least the number of distinct declared methods, and at least `NumExplicitMethod` when no method is
declared twice, as in every interface the type checker accepts. -/
theorem NumExplicitMethod_vs_NumMethod (H : Host) (t : xtype) :
    (t.kind ≠ Kind.Interface →
        (∀ methods embeddeds, t.gtype.Underlying ≠ .Interface methods embeddeds) →
        t.NumMethod H = .ok t.NumExplicitMethod
          ∧ (∀ obj methods u, t.gtype = .Named obj methods u →
              t.NumExplicitMethod = methods.length)
          ∧ (t.Named = false → t.NumExplicitMethod = 0))
    ∧ (∀ (methods : List Func) (embeddeds : GoTypes),
        t.kind = Kind.Interface →
        t.gtype.Underlying = .Interface methods embeddeds →
        t.NumExplicitMethod = methods.length
          ∧ ∃ n, t.NumMethod H = .ok n
              ∧ n = (interfaceMethodIds H.IsUpper methods embeddeds).dedup.length
              ∧ (methods.map (Func.Id H.IsUpper)).dedup.length ≤ n
              ∧ ((methods.map (Func.Id H.IsUpper)).Nodup → t.NumExplicitMethod ≤ n)) := by
  constructor
  · intro hk hu
    have hex := NumExplicitMethod_not_interface t hu
    refine ⟨?_, ?_, ?_⟩
    · rw [hex]
      cases hg : t.gtype <;> simp [xtype.NumMethod, hk, xtype.Named, hg]
    · intro obj methods u hg
      rw [hex, hg]
    · intro hn
      rw [hex]
      cases hg : t.gtype <;> simp [xtype.Named, hg] at hn ⊢
  · intro methods embeddeds hk hu
    have hex : t.NumExplicitMethod = methods.length := by
      simp [xtype.NumExplicitMethod, hu]
    have hnum : t.NumMethod H
        = .ok (interfaceMethodIds H.IsUpper methods embeddeds).dedup.length := by
      simp only [xtype.NumMethod, hk, if_true, hu]
      rw [(GoType.allMethods_interface H.IsUpper methods embeddeds).2.2]
    have hsub : methods.map (Func.Id H.IsUpper)
        ⊆ interfaceMethodIds H.IsUpper methods embeddeds := by
      intro x hx
      simp only [interfaceMethodIds, List.mem_append]
      exact Or.inl hx
    refine ⟨hex, _, hnum, rfl, ?_, ?_⟩
    · exact length_le_dedup_of_subset (List.nodup_dedup _)
        (fun x hx => hsub (List.mem_dedup.mp hx))
    · intro hnd
      rw [hex]
      simpa using length_le_dedup_of_subset hnd hsub

theorem NumExplicitMethod_vs_NumMethod_witness :
    demoXT.NumMethod demoHost = .ok demoXT.NumExplicitMethod
      ∧ demoXT.NumExplicitMethod = 1
      ∧ demoXSlice.NumMethod demoHost = .ok demoXSlice.NumExplicitMethod
      ∧ demoXSlice.NumExplicitMethod = 0
      ∧ demoXRWC.NumExplicitMethod = 1
      ∧ (∃ n, demoXRWC.NumMethod demoHost = .ok n ∧ n = 3 ∧ 1 ≤ n
          ∧ demoXRWC.NumExplicitMethod ≤ n)
      ∧ demoXDiamond.NumExplicitMethod = 0
      ∧ (∃ n, demoXDiamond.NumMethod demoHost = .ok n ∧ n = 2 ∧ 0 ≤ n
          ∧ demoXDiamond.NumExplicitMethod ≤ n) :=
  have hT := (NumExplicitMethod_vs_NumMethod demoHost demoXT).1 (by decide)
    (by intro ms embs h; simp [demoXT, demoT, GoType.Underlying] at h)
  have hS := (NumExplicitMethod_vs_NumMethod demoHost demoXSlice).1 (by decide)
    (by intro ms embs h; simp [demoXSlice, GoType.Underlying] at h)
  have hI := (NumExplicitMethod_vs_NumMethod demoHost demoXRWC).2 [demoFunc "" "Close"] _
    rfl rfl
  have hD := (NumExplicitMethod_vs_NumMethod demoHost demoXDiamond).2 [] _ rfl rfl
  ⟨hT.1, hT.2.1 "T" _ _ rfl, hS.1, hS.2.2 rfl, hI.1,
    hI.2.imp (fun _ h => ⟨h.1, h.2.1, h.2.2.1, h.2.2.2 (by decide)⟩), hD.1,
    hD.2.imp (fun _ h => ⟨h.1, h.2.1, h.2.2.1, h.2.2.2 (by decide)⟩)⟩

/-! ### C20 -/

/-- C20: in `goTypeNumAllMethod` a type that is neither a named type, nor an interface, nor a
struct counts for 0, so an anonymous field of such a type adds nothing; a pointer `*F` is
such a type, whatever `F` is, and a named struct whose only anonymous field has the type `*F`
has as `NumAllMethod` the number of its own declared methods. -/
theorem goTypeNumAllMethod_embedded_pointer (H : Host) :
    (∀ typ : GoType,
        (∀ obj methods u, typ ≠ .Named obj methods u) →
        (∀ methods embeddeds, typ ≠ .Interface methods embeddeds) →
        (∀ fields, typ ≠ .Struct fields) →
        goTypeNumAllMethod H.IsUpper typ = 0
          ∧ ∀ name rest, goFieldsNumAllMethod H.IsUpper (.cons name true typ rest)
              = goFieldsNumAllMethod H.IsUpper rest)
    ∧ (∀ F : GoType, goTypeNumAllMethod H.IsUpper (.Pointer F) = 0)
    ∧ (∀ (t : xtype) (obj : String) (methods : List Func) (fields : GoFields) (name : String)
        (F : GoType),
        t.gtype = .Named obj methods (.other (.Struct fields)) →
        fields.toList.filter (fun f => f.anonymous) = [⟨name, true, .Pointer F⟩] →
        t.NumAllMethod H = methods.length)
    ∧ (∀ (t : xtype) (fields : GoFields) (name : String) (F : GoType),
        t.gtype = .Struct fields →
        fields.toList.filter (fun f => f.anonymous) = [⟨name, true, .Pointer F⟩] →
        t.NumAllMethod H = 0) := by
  have hzero : ∀ typ : GoType,
      (∀ obj methods u, typ ≠ .Named obj methods u) →
      (∀ methods embeddeds, typ ≠ .Interface methods embeddeds) →
      (∀ fields, typ ≠ .Struct fields) →
      goTypeNumAllMethod H.IsUpper typ = 0 := by
    intro typ hn hi hs
    cases typ with
    | Named obj methods u => exact absurd rfl (hn obj methods u)
    | Interface methods embeddeds => exact absurd rfl (hi methods embeddeds)
    | Struct fields => exact absurd rfl (hs fields)
    | Basic name => simp [goTypeNumAllMethod]
    | Pointer elem => simp [goTypeNumAllMethod]
    | Signature sig => simp [goTypeNumAllMethod]
    | Other kind printed => simp [goTypeNumAllMethod]
  refine ⟨?_, ?_, ?_, ?_⟩
  · intro typ hn hi hs
    refine ⟨hzero typ hn hi hs, ?_⟩
    intro name rest
    simp [goFieldsNumAllMethod, hzero typ hn hi hs]
  · intro F
    simp [goTypeNumAllMethod]
  · intro t obj methods fields name F hg hf
    simp [xtype.NumAllMethod, hg, goTypeNumAllMethod, goUnderlyingNumAllMethod,
      goFieldsNumAllMethod_eq_sum, hf]
  · intro t fields name F hg hf
    simp [xtype.NumAllMethod, hg, goTypeNumAllMethod, goFieldsNumAllMethod_eq_sum, hf]

theorem goTypeNumAllMethod_embedded_pointer_witness :
    demoXPtrEmbed.NumAllMethod demoHost = 1 ∧ goTypeNumAllMethod demoHost.IsUpper demoF = 2 :=
  ⟨(goTypeNumAllMethod_embedded_pointer demoHost).2.2.1 demoXPtrEmbed "P" [demoFunc "P" "M"]
      (.cons "F" true (.Pointer demoF) (.cons "n" false (.Basic "int") .nil)) "F" demoF rfl rfl,
    by decide⟩

/-! ### C18 -/

theorem NumMethod_congr (H : Host) (t t1 : xtype) (hk : t1.kind = t.kind) (hg : t1.gtype = t.gtype) :
    t1.NumMethod H = t.NumMethod H := by
  simp only [xtype.NumMethod, xtype.Named, hk, hg]

/-- C18, as stated, fails: on a descriptor with one method whose table has length 3,
`resizemethodvalues` leaves the table as it is, and the table that `method` then reads and
hands back still has length 3, not 1. -/
theorem resizemethodvalues_keeps_longer_table :
    demoXLong.NumMethod demoHostM = .ok 1
      ∧ demoXLong.methodvalues.len = 3
      ∧ resizemethodvalues demoHostM demoXLong = .ok demoXLong
      ∧ (demoXLong.method demoHostM 0).1.methodvalues.len = 3
      ∧ (demoXLong.method demoHostM 0).2 = .ok demoM :=
  ⟨rfl, rfl, rfl, rfl, rfl⟩

/-- C18, amended: on a descriptor whose table has its length within its capacity,
`resizemethodvalues` succeeds when `NumMethod` does and leaves a table whose length is the
larger of the former length and `NumMethod()`: the length is `NumMethod()` when the table was
empty, shorter or of that length, and is unchanged when the table was longer. Kind and types,
and so `NumMethod()`, are unchanged. -/
theorem resizemethodvalues_len (H : Host) (t : xtype) (n : Nat)
    (hinv : t.methodvalues.len ≤ t.methodvalues.cap) (hn : t.NumMethod H = .ok n) :
    ∃ t1, resizemethodvalues H t = .ok t1
      ∧ t1.methodvalues.len = max t.methodvalues.len n
      ∧ (t.methodvalues.len ≤ n → t1.methodvalues.len = n)
      ∧ (n < t.methodvalues.len → t1 = t)
      ∧ t1.NumMethod H = .ok n
      ∧ t1.methodvalues.len ≤ t1.methodvalues.cap := by
  unfold resizemethodvalues
  rw [hn]
  by_cases hcap : t.methodvalues.cap < n
  · refine ⟨⟨t.kind, t.gtype, t.rtype, t.univ,
        Slice.copy (Slice.make RValue.Zero n (n + n / 2 + 4)) t.methodvalues⟩, ?_, ?_, ?_, ?_,
      ?_, ?_⟩
    · simp [hcap]
    · simp only [Slice.copy, Slice.make]; omega
    · intro _; simp only [Slice.copy, Slice.make]
    · intro h; omega
    · exact (NumMethod_congr H t _ rfl rfl).trans hn
    · simp only [Slice.copy, Slice.make, Slice.cap, List.length_append, List.length_take,
        List.length_drop, List.length_replicate]
      simp only [Slice.cap] at hinv hcap
      omega
  · by_cases hlen : t.methodvalues.len < n
    · have hre : t.methodvalues.reslice n = .ok ⟨t.methodvalues.array, n⟩ := by
        simp only [Slice.reslice]
        rw [if_pos (by omega)]
      refine ⟨⟨t.kind, t.gtype, t.rtype, t.univ, ⟨t.methodvalues.array, n⟩⟩, ?_, ?_, ?_, ?_,
        ?_, ?_⟩
      · simp [hcap, hlen, hre]
      · simp only; omega
      · intro _; rfl
      · intro h; omega
      · exact (NumMethod_congr H t _ rfl rfl).trans hn
      · simp only [Slice.cap] at hcap ⊢; omega
    · refine ⟨t, ?_, ?_, ?_, ?_, hn, hinv⟩
      · simp [hcap, hlen]
      · omega
      · intro h; omega
      · intro _; rfl

theorem resizemethodvalues_len_witness :
    ∃ t1, resizemethodvalues demoHostM demoXT = .ok t1
      ∧ t1.methodvalues.len = max demoXT.methodvalues.len 1
      ∧ (demoXT.methodvalues.len ≤ 1 → t1.methodvalues.len = 1)
      ∧ (1 < demoXT.methodvalues.len → t1 = demoXT)
      ∧ t1.NumMethod demoHostM = .ok 1
      ∧ t1.methodvalues.len ≤ t1.methodvalues.cap :=
  resizemethodvalues_len demoHostM demoXT 1 (by decide) rfl

/-! ### C14 -/

section IfStatement

variable {E Stmt Expr Block : Type}

/-- What `evalIf` does once the condition has been evaluated, in the environment `env0` after
the calls `log0`, to the value `cond`: for a condition of another kind than `Bool` the outcome
of `Errorf`, with no branch evaluated, unless the condition is the zero `reflect.Value`, on
which `cond.Interface()` panics first; for `true` the outcome of the body; for `false` the
outcome of the else-clause, or `(Nil, nil)` when there is none. -/
theorem evalIf_after_cond (I : Interp E Stmt Expr Block) (env env1 : E)
    (node : IfStmt Stmt Expr Block) (cond : Value) (rest : List Value)
    (hinit : node.Init = none) (hcond : I.Eval env node.Cond = (env1, .ret (cond, rest))) :
    (cond.Kind ≠ Kind.Bool → cond ≠ .Nil →
        evalIf I env node = ⟨env1, [.cond],
          I.Errorf env1 "if: invalid condition type <%T> %#v, expecting <bool>"
            [.val cond, .val cond]⟩)
    ∧ (cond = .Nil →
        evalIf I env node = ⟨env1, [.cond],
          .panic (.Other "reflect: call of reflect.Value.Interface on zero Value")⟩)
    ∧ (cond = .ofBool true →
        evalIf I env node
          = ⟨(I.evalBlock env1 node.Body).1, [.cond, .body], (I.evalBlock env1 node.Body).2⟩)
    ∧ (∀ s, cond = .ofBool false → node.Else = some s →
        evalIf I env node
          = ⟨(I.evalStatement env1 s).1, [.cond, .orelse], (I.evalStatement env1 s).2⟩)
    ∧ (cond = .ofBool false → node.Else = none →
        evalIf I env node = ⟨env1, [.cond], .ret (.Nil, [])⟩) := by
  refine ⟨?_, ?_, ?_, ?_, ?_⟩
  · intro hk hnil
    cases cond with
    | Nil => exact absurd rfl hnil
    | None => simp [evalIf, hinit, hcond, Value.Kind, Value.Interface]
    | ofBool b => exact absurd rfl hk
    | ofInt k => simp [evalIf, hinit, hcond, Value.Kind, Value.Interface]
    | ofString s => simp [evalIf, hinit, hcond, Value.Kind, Value.Interface]
  · intro h
    subst h
    simp [evalIf, hinit, hcond, Value.Kind, Value.Interface]
  · intro h
    subst h
    simp [evalIf, hinit, hcond, Value.Kind, Value.Bool]
  · intro s h hs
    subst h
    simp [evalIf, hinit, hcond, Value.Kind, Value.Bool, hs]
  · intro h hs
    subst h
    simp [evalIf, hinit, hcond, Value.Kind, Value.Bool, hs]

end IfStatement

/-- C14 at the failing input: for a condition that evaluates to the zero `reflect.Value`, which
is not a boolean, `evalIf` does not yield the invalid-condition-type error of `Errorf`: the call
`cond.Interface()` that prepares the message panics, and that panic is the outcome. For a
condition that evaluates to the number 3 the outcome is the error of `Errorf`. -/
theorem evalIf_zero_value_condition :
    evalIf demoLit () (demoIf .Nil)
        = ⟨(), [.cond], .panic (.Other "reflect: call of reflect.Value.Interface on zero Value")⟩
      ∧ Value.Nil.Kind ≠ Kind.Bool
      ∧ (evalIf demoLit () (demoIf .Nil)).res
        ≠ demoLit.Errorf () "if: invalid condition type <%T> %#v, expecting <bool>"
            [.val .Nil, .val .Nil]
      ∧ (evalIf demoLit () (demoIf (.ofInt 3))).res
        = demoLit.Errorf () "if: invalid condition type <%T> %#v, expecting <bool>"
            [.val (.ofInt 3), .val (.ofInt 3)] := by
  refine ⟨rfl, by decide, by decide, rfl⟩

/-! ### The method table across a call of `method` -/

theorem checkMethod_congr (t t1 : xtype) (i : Int) (hk : t1.kind = t.kind)
    (hg : t1.gtype = t.gtype) : checkMethod t1 i = checkMethod t i := by
  simp only [checkMethod, xtype.Named, hk, hg]

theorem gmethod_congr (H : Host) (t t1 : xtype) (i : Int) (hg : t1.gtype = t.gtype) :
    t1.gmethod H i = t.gmethod H i := by
  simp only [xtype.gmethod, hg]

/-- On a type whose underlying type is not an interface, `gmethod` reads the declared methods of
the named type only, whatever the run-time. -/
theorem gmethod_host (H H2 : Host) (t : xtype) (i : Int)
    (hord : ∀ methods embeddeds, t.gtype.Underlying ≠ .Interface methods embeddeds) :
    t.gmethod H2 i = t.gmethod H i := by
  unfold xtype.gmethod
  cases hu : t.gtype.Underlying with
  | Interface ms embs => exact absurd hu (hord ms embs)
  | Basic name => rfl
  | Named obj ms u => rfl
  | Struct fields => rfl
  | Pointer elem => rfl
  | Signature sig => rfl
  | Other kind printed => rfl

/-- On a type whose underlying type is not an interface, `NumMethod` does not depend on the
run-time. -/
theorem NumMethod_host (H H2 : Host) (t : xtype)
    (hord : ∀ methods embeddeds, t.gtype.Underlying ≠ .Interface methods embeddeds) :
    t.NumMethod H2 = t.NumMethod H := by
  unfold xtype.NumMethod
  cases hu : t.gtype.Underlying with
  | Interface ms embs => exact absurd hu (hord ms embs)
  | Basic name => rfl
  | Named obj ms u => rfl
  | Struct fields => rfl
  | Pointer elem => rfl
  | Signature sig => rfl
  | Other kind printed => rfl

theorem makemethod_congr (H : Host) (t t1 : xtype) (i : Int) (gfunc : Func)
    (rfunctype : Option RType) (hu : t1.univ = t.univ) :
    t1.makemethod H i gfunc rfunctype = t.makemethod H i gfunc rfunctype := by
  simp only [xtype.makemethod, hu]

theorem makemethod_host (H H2 : Host) (t : xtype) (i : Int) (gfunc : Func)
    (rfunctype : Option RType) (h : H2.maketype = H.maketype) :
    t.makemethod H2 i gfunc rfunctype = t.makemethod H i gfunc rfunctype := by
  simp only [xtype.makemethod, h]

/-- The fields of a `Method` built by `makemethod`. -/
theorem makemethod_ok_fields (H : Host) (t : xtype) (index : Int) (gfun : Func)
    (rfunctype : Option RType) (m : Gomacro.Method)
    (h : t.makemethod H index gfun rfunctype = .ok m) :
    m = { Name := gfun.name, Pkg := gfun.pkg,
          Typ := rfunctype.map (H.maketype t.univ gfun.sig), Index := index, GoFun := gfun } := by
  unfold xtype.makemethod at h
  simp only at h
  split at h
  · cases h
  · simp only [Except.ok.injEq] at h
    subst h
    cases rfunctype <;> rfl

/-- The index expression `s[j]` gives `v` exactly when `j` is within the length and the backing
array holds `v` there. -/
theorem Slice.index_eq_ok {α : Type} (s : Slice α) (j : Int) (v : α) :
    s.index j = .ok v ↔ 0 ≤ j ∧ j.toNat < s.len ∧ s.array[j.toNat]? = some v := by
  unfold Slice.index goIndex
  by_cases hneg : j < 0
  · simp only [hneg, if_true]
    constructor
    · intro h; cases h
    · intro h; omega
  · simp only [hneg, if_false, List.get?_eq_getElem?]
    by_cases hlt : j.toNat < s.len
    · have : (List.take s.len s.array)[j.toNat]? = s.array[j.toNat]? := by
        rw [List.getElem?_take]; simp [hlt]
      rw [this]
      cases hget : s.array[j.toNat]? with
      | none => simp
      | some w =>
        simp only [Except.ok.injEq, Option.some.injEq]
        constructor
        · intro h; exact ⟨by omega, hlt, h⟩
        · intro h; exact h.2.2
    · have : (List.take s.len s.array)[j.toNat]? = none := by
        rw [List.getElem?_take]; simp [hlt]
      rw [this]
      constructor
      · intro h; cases h
      · intro h; exact absurd h.2.1 hlt

theorem Slice.assign_eq_ok {α : Type} (s s1 : Slice α) (i : Int) (v : α)
    (h : s.assign i v = .ok s1) :
    s1 = ⟨s.array.set i.toNat v, s.len⟩ ∧ 0 ≤ i ∧ i.toNat < s.len
      ∧ i.toNat < s.array.length := by
  unfold Slice.assign at h
  split at h
  · cases h
  · rename_i hc
    simp only [Except.ok.injEq] at h
    exact ⟨h.symm, by omega, by omega, by omega⟩

/-- After `s[i] = v` the entry `i` is `v`, the other entries are as before, and assigning `v`
to the entry `i` once more changes nothing. -/
theorem Slice.assign_index {α : Type} (s s1 : Slice α) (i : Int) (v : α)
    (h : s.assign i v = .ok s1) :
    s1.index i = .ok v
      ∧ (∀ j w, j ≠ i → s.index j = .ok w → s1.index j = .ok w)
      ∧ s1.assign i v = .ok s1
      ∧ s1.len = s.len ∧ s1.cap = s.cap := by
  obtain ⟨rfl, h0, hlen, hcap⟩ := Slice.assign_eq_ok s s1 i v h
  refine ⟨?_, ?_, ?_, rfl, by simp [Slice.cap]⟩
  · rw [Slice.index_eq_ok]
    exact ⟨h0, hlen, by simp [List.getElem?_set, hcap]⟩
  · intro j w hji hj
    rw [Slice.index_eq_ok] at hj ⊢
    obtain ⟨hj0, hjl, hjv⟩ := hj
    refine ⟨hj0, hjl, ?_⟩
    have hne : i.toNat ≠ j.toNat := by
      intro heq
      apply hji
      omega
    simp only [List.getElem?_set, hne, if_false]
    exact hjv
  · unfold Slice.assign
    simp only [List.length_set, List.set_set]
    rw [if_neg (by omega)]

/-- The assignment `s[i] = v` leaves the index expression `s[j]` as it was for every other
`j`, out of range or not. -/
theorem Slice.index_assign_ne {α : Type} (s s1 : Slice α) (i j : Int) (v : α)
    (h : s.assign i v = .ok s1) (hji : j ≠ i) : s1.index j = s.index j := by
  obtain ⟨rfl, h0, hlen, hcap⟩ := Slice.assign_eq_ok s s1 i v h
  unfold Slice.index goIndex
  by_cases hneg : j < 0
  · simp only [hneg, if_true]
  · have hne : i.toNat ≠ j.toNat := by
      intro heq
      apply hji
      omega
    simp only [hneg, if_false, List.get?_eq_getElem?, List.getElem?_take, List.getElem?_set,
      hne]

theorem resizemethodvalues_fixed (H : Host) (t : xtype) (n : Nat) (hn : t.NumMethod H = .ok n)
    (hlen : n ≤ t.methodvalues.len) (hinv : t.methodvalues.len ≤ t.methodvalues.cap) :
    resizemethodvalues H t = .ok t := by
  unfold resizemethodvalues
  rw [hn]
  simp only
  rw [if_neg (by omega), if_neg (by omega)]

/-- What `resizemethodvalues` leaves: kind, types and universe as they were, a table at least as
long as `NumMethod()` and within its capacity, with the entries it had. -/
theorem resizemethodvalues_table (H : Host) (t tr : xtype) (n : Nat)
    (hinv : t.methodvalues.len ≤ t.methodvalues.cap) (hn : t.NumMethod H = .ok n)
    (hr : resizemethodvalues H t = .ok tr) :
    tr.kind = t.kind ∧ tr.gtype = t.gtype ∧ tr.rtype = t.rtype ∧ tr.univ = t.univ
      ∧ n ≤ tr.methodvalues.len ∧ tr.methodvalues.len ≤ tr.methodvalues.cap
      ∧ (∀ j v, t.methodvalues.index j = .ok v → tr.methodvalues.index j = .ok v) := by
  unfold resizemethodvalues at hr
  rw [hn] at hr
  simp only at hr
  simp only [Slice.cap] at hinv
  by_cases hcap : t.methodvalues.cap < n
  · rw [if_pos hcap] at hr
    simp only [Except.ok.injEq] at hr
    subst hr
    simp only [Slice.cap] at hcap
    refine ⟨rfl, rfl, rfl, rfl, ?_, ?_, ?_⟩
    · simp [Slice.copy, Slice.make]
    · simp only [Slice.copy, Slice.make, Slice.cap, List.length_append, List.length_take,
        List.length_drop, List.length_replicate]
      omega
    · intro j v hj
      rw [Slice.index_eq_ok] at hj ⊢
      obtain ⟨hj0, hjl, hjv⟩ := hj
      refine ⟨hj0, by simp only [Slice.copy, Slice.make]; omega, ?_⟩
      simp only [Slice.copy, Slice.make]
      have hmin : min n t.methodvalues.len = t.methodvalues.len := by omega
      rw [hmin]
      rw [List.getElem?_append_left (by simp only [List.length_take]; omega)]
      rw [List.getElem?_take]
      simp [hjl, hjv]
  · rw [if_neg hcap] at hr
    by_cases hlen : t.methodvalues.len < n
    · rw [if_pos hlen] at hr
      have hre : t.methodvalues.reslice n = .ok ⟨t.methodvalues.array, n⟩ := by
        simp only [Slice.reslice]
        rw [if_pos (by omega)]
      rw [hre] at hr
      simp only [Except.ok.injEq] at hr
      subst hr
      refine ⟨rfl, rfl, rfl, rfl, le_refl _, by simp only [Slice.cap] at hcap ⊢; omega, ?_⟩
      intro j v hj
      rw [Slice.index_eq_ok] at hj ⊢
      exact ⟨hj.1, by simp only; omega, hj.2.2⟩
    · rw [if_neg hlen] at hr
      simp only [Except.ok.injEq] at hr
      subst hr
      exact ⟨rfl, rfl, rfl, rfl, by omega, hinv, fun j v hj => hj⟩

/-- The steps of `method` on a type whose underlying type is not an interface, once the checks,
`gmethod`, `resizemethodvalues` and the read of the table have succeeded. -/
theorem method_ordinary_eq (H : Host) (t tr : xtype) (i : Int) (gfunc : Func) (rfunc : RValue)
    (hord : ∀ methods embeddeds, tr.gtype.Underlying ≠ .Interface methods embeddeds)
    (hc : checkMethod t i = .ok ()) (hg : t.gmethod H i = .ok gfunc)
    (hr : resizemethodvalues H t = .ok tr) (hi : tr.methodvalues.index i = .ok rfunc) :
    t.method H i =
      if rfunc.Kind = Kind.Func then
        match rfunc.Typ with
        | .error e => (tr, .error e)
        | .ok rfunctype => (tr, tr.makemethod H i gfunc (some rfunctype))
      else namedMethodStep H tr i gfunc := by
  unfold xtype.method
  simp only [hc, hg, hr, hi]
  by_cases hk : rfunc.Kind = Kind.Func
  · simp only [hk, if_true]
  · simp only [hk, if_false]
    cases hu : tr.gtype.Underlying with
    | Interface ms embs => exact absurd hu (hord ms embs)
    | Basic name => simp only [namedMethodStep, namedLookup]
    | Named obj ms u => simp only [namedMethodStep, namedLookup]
    | Struct fields => simp only [namedMethodStep, namedLookup]
    | Pointer elem => simp only [namedMethodStep, namedLookup]
    | Signature sig => simp only [namedMethodStep, namedLookup]
    | Other kind printed => simp only [namedMethodStep, namedLookup]

theorem namedLookup_typed (H : Host) (hhost : H.MethodsTyped) (rtype : RType) (name : String)
    (hk : (namedLookup H rtype name).Func.Kind = Kind.Func) :
    ∃ rft, (namedLookup H rtype name).Typ = some rft
      ∧ (namedLookup H rtype name).Func.Typ = .ok rft := by
  unfold namedLookup at hk ⊢
  split
  · rename_i hc
    rw [if_pos hc] at hk
    exact hhost _ _ hk
  · rename_i hc
    rw [if_neg hc] at hk
    exact hhost _ _ hk

/-- With no function in the table, the callable resolved is the one the lookup finds. -/
theorem namedLookup_func (H : Host) (rtype : RType) (name : String) (cached : RValue)
    (hk : cached.Kind ≠ Kind.Func) :
    (namedLookup H rtype name).Func = resolvedCallable H rtype name cached := by
  unfold namedLookup resolvedCallable
  rw [if_neg hk]
  by_cases h1 : (H.MethodByName rtype name).Func.Kind = Kind.Func
  · simp [h1]
  · by_cases h2 : rtype.Kind = Kind.Ptr
    · simp [h1, h2]
    · simp [h1, h2]

/-! ### C19 -/

/-- C19: on a type whose underlying type is not an interface, with a table within its capacity
and a run-time whose methods have the type of their function, when `method(i)` returns a
`Method`: the entry `i` of the table is then the callable that was resolved, which is the
function the resized table held there already, or else what the lookup by name found; every
other entry is as `resizemethodvalues` left it, and every entry the table had at another index is
still there; the `Method` has the name, the package and the declaration of the `i`-th method,
the index `i`, and as its type the type of that callable when it is a function. A second
`method(i)` returns the same `Method` and hands back the same descriptor, table included; when
the `Method` has a resolved type the second call takes the callable from the table: it gives the
same result in any run-time with the same `maketype`, whatever its method sets. -/
theorem method_cached (H : Host) (t t1 : xtype) (i : Int) (m : Gomacro.Method)
    (hhost : H.MethodsTyped)
    (hinv : t.methodvalues.len ≤ t.methodvalues.cap)
    (hord : ∀ methods embeddeds, t.gtype.Underlying ≠ .Interface methods embeddeds)
    (h1 : t.method H i = (t1, .ok m)) :
    (∃ tr gfunc cached,
        resizemethodvalues H t = .ok tr ∧ t.gmethod H i = .ok gfunc
        ∧ tr.methodvalues.index i = .ok cached
        ∧ t1.methodvalues.index i = .ok (resolvedCallable H t.rtype gfunc.name cached)
        ∧ (∀ j, j ≠ i → t1.methodvalues.index j = tr.methodvalues.index j)
        ∧ m = { Name := gfunc.name, Pkg := gfunc.pkg,
                Typ := (if (resolvedCallable H t.rtype gfunc.name cached).Kind = Kind.Func
                    then (resolvedCallable H t.rtype gfunc.name cached).Typ.toOption
                    else none).map (H.maketype t.univ gfunc.sig),
                Index := i, GoFun := gfunc })
    ∧ (∀ j v, j ≠ i → t.methodvalues.index j = .ok v → t1.methodvalues.index j = .ok v)
    ∧ t1.method H i = (t1, .ok m)
    ∧ (∀ H2 : Host, H2.maketype = H.maketype → m.Typ ≠ none →
        t1.method H2 i = (t1, .ok m)) := by
  -- the steps of the first call
  cases hc : checkMethod t i with
  | error e => simp [xtype.method, hc] at h1
  | ok u =>
    cases hg : t.gmethod H i with
    | error e => simp [xtype.method, hc, hg] at h1
    | ok gfunc =>
      cases hN : t.NumMethod H with
      | error e => simp [xtype.method, hc, hg, resizemethodvalues, hN] at h1
      | ok n =>
        cases hr : resizemethodvalues H t with
        | error e => simp [xtype.method, hc, hg, hr] at h1
        | ok tr =>
          cases hi : tr.methodvalues.index i with
          | error e => simp [xtype.method, hc, hg, hr, hi] at h1
          | ok rfunc0 =>
            obtain ⟨hkind, hgt, hrt, hun, hlen, hinvr, hkeep⟩ :=
              resizemethodvalues_table H t tr n hinv hN hr
            have hordr : ∀ methods embeddeds,
                tr.gtype.Underlying ≠ .Interface methods embeddeds := by
              rw [hgt]; exact hord
            rw [method_ordinary_eq H t tr i gfunc rfunc0 hordr hc hg hr hi] at h1
            have hNr : tr.NumMethod H = .ok n := (NumMethod_congr H t tr hkind hgt).trans hN
            by_cases hk : rfunc0.Kind = Kind.Func
            · -- the method was in the table already
              rw [if_pos hk] at h1
              have hres : resolvedCallable H t.rtype gfunc.name rfunc0 = rfunc0 := by
                simp only [resolvedCallable, hk, if_true]
              cases hT : rfunc0.Typ with
              | error e => simp [hT] at h1
              | ok rft =>
                simp only [hT, Prod.mk.injEq] at h1
                obtain ⟨rfl, hmk⟩ := h1
                have hm := makemethod_ok_fields H tr i gfunc (some rft) m hmk
                have second : ∀ H2 : Host, H2.maketype = H.maketype →
                    tr.method H2 i = (tr, .ok m) := by
                  intro H2 h2
                  rw [method_ordinary_eq H2 tr tr i gfunc rfunc0 hordr
                    ((checkMethod_congr t tr i hkind hgt).trans hc)
                    ((gmethod_host H H2 tr i hordr).trans
                      ((gmethod_congr H t tr i hgt).trans hg))
                    (resizemethodvalues_fixed H2 tr n
                      ((NumMethod_host H H2 tr hordr).trans hNr) hlen hinvr) hi]
                  rw [if_pos hk]
                  simp only [hT, makemethod_host H H2 tr i gfunc _ h2, hmk]
                refine ⟨⟨tr, gfunc, rfunc0, rfl, rfl, hi, by rw [hres]; exact hi,
                    fun j _ => rfl, ?_⟩,
                  fun j v _ hj => hkeep j v hj, second H rfl, fun H2 h2 _ => second H2 h2⟩
                rw [hm, hres]
                simp only [hk, if_true, hT, Except.toOption, Option.map_some', hun]
            · -- the method is looked up and stored
              rw [if_neg hk] at h1
              have hres : (namedLookup H tr.rtype gfunc.name).Func
                  = resolvedCallable H t.rtype gfunc.name rfunc0 := by
                rw [hrt]; exact namedLookup_func H t.rtype gfunc.name rfunc0 hk
              unfold namedMethodStep at h1
              by_cases hx : (namedLookup H tr.rtype gfunc.name).Func.Kind ≠ Kind.Func
                  ∧ IsExported H.IsUpper gfunc.name
              · rw [if_pos hx] at h1
                simp [xerrorf] at h1
              · rw [if_neg hx] at h1
                cases ha : tr.methodvalues.assign i (namedLookup H tr.rtype gfunc.name).Func with
                | error e => simp [ha] at h1
                | ok slice =>
                  simp only [ha, Prod.mk.injEq] at h1
                  obtain ⟨rfl, hmk⟩ := h1
                  obtain ⟨hidx, hothers, hagain, hslen, hscap⟩ :=
                    Slice.assign_index tr.methodvalues slice i _ ha
                  have hm := makemethod_ok_fields H _ i gfunc _ m hmk
                  have hN1 : xtype.NumMethod H
                      ⟨tr.kind, tr.gtype, tr.rtype, tr.univ, slice⟩ = .ok n :=
                    (NumMethod_congr H tr _ rfl rfl).trans hNr
                  have hc2 : checkMethod ⟨tr.kind, tr.gtype, tr.rtype, tr.univ, slice⟩ i
                      = .ok u :=
                    (checkMethod_congr tr _ i rfl rfl).trans
                      ((checkMethod_congr t tr i hkind hgt).trans hc)
                  have hg2 : xtype.gmethod H ⟨tr.kind, tr.gtype, tr.rtype, tr.univ, slice⟩ i
                      = .ok gfunc :=
                    (gmethod_congr H tr _ i rfl).trans ((gmethod_congr H t tr i hgt).trans hg)
                  have hr2 : ∀ H2 : Host,
                      resizemethodvalues H2 ⟨tr.kind, tr.gtype, tr.rtype, tr.univ, slice⟩
                        = .ok ⟨tr.kind, tr.gtype, tr.rtype, tr.univ, slice⟩ :=
                    fun H2 => resizemethodvalues_fixed H2 _ n
                      ((NumMethod_host H H2 _ hordr).trans hN1) (by simp only; omega)
                      (by simp only; omega)
                  refine ⟨⟨tr, gfunc, rfunc0, rfl, rfl, hi, by rw [← hres]; exact hidx,
                      fun j hji => Slice.index_assign_ne tr.methodvalues slice i j _ ha hji, ?_⟩,
                    fun j v hji hj => hothers j v hji (hkeep j v hj), ?_, ?_⟩
                  · rw [hm, ← hres]
                    by_cases hkf : (namedLookup H tr.rtype gfunc.name).Func.Kind = Kind.Func
                    · obtain ⟨rft, hty1, hty2⟩ := namedLookup_typed H hhost _ _ hkf
                      simp only [hkf, ne_eq, not_true_eq_false, if_false, if_true, hty1, hty2,
                        Except.toOption, Option.map_some', hun]
                    · simp only [hkf, ne_eq, not_false_eq_true, if_true, if_false,
                        Option.map_none']
                  · rw [method_ordinary_eq H ⟨tr.kind, tr.gtype, tr.rtype, tr.univ, slice⟩
                      ⟨tr.kind, tr.gtype, tr.rtype, tr.univ, slice⟩ i gfunc
                      (namedLookup H tr.rtype gfunc.name).Func hordr hc2 hg2 (hr2 H) hidx]
                    by_cases hkf : (namedLookup H tr.rtype gfunc.name).Func.Kind = Kind.Func
                    · obtain ⟨rft, hty1, hty2⟩ := namedLookup_typed H hhost _ _ hkf
                      rw [if_pos hkf]
                      simp only [hkf, ne_eq, not_true_eq_false, if_false, hty1] at hmk
                      simp only [hty2, hmk]
                    · rw [if_neg hkf]
                      unfold namedMethodStep
                      simp only
                      rw [if_neg hx, hagain]
                      simp only [hmk]
                  · intro H2 h2 hres2
                    rw [method_ordinary_eq H2 ⟨tr.kind, tr.gtype, tr.rtype, tr.univ, slice⟩
                      ⟨tr.kind, tr.gtype, tr.rtype, tr.univ, slice⟩ i gfunc
                      (namedLookup H tr.rtype gfunc.name).Func hordr hc2
                      ((gmethod_host H H2 _ i hordr).trans hg2) (hr2 H2) hidx]
                    by_cases hkf : (namedLookup H tr.rtype gfunc.name).Func.Kind = Kind.Func
                    · obtain ⟨rft, hty1, hty2⟩ := namedLookup_typed H hhost _ _ hkf
                      rw [if_pos hkf]
                      simp only [hkf, ne_eq, not_true_eq_false, if_false, hty1] at hmk
                      simp only [hty2, makemethod_host H H2 _ i gfunc _ h2, hmk]
                    · exfalso
                      apply hres2
                      rw [hm]
                      simp [hkf]

theorem demoHostM_methodsTyped : demoHostM.MethodsTyped := by
  intro rtype name hk
  by_cases hn : name = "M"
  · exact ⟨demoMType, by simp [demoHostM, hn], by simp [demoHostM, hn, RValue.Typ]⟩
  · simp [demoHostM, hn, RValue.Kind] at hk

theorem method_cached_witness :
    demoXT.method demoHostM 0 = (demoXT1, .ok demoM)
      ∧ (∃ tr gfunc cached,
          resizemethodvalues demoHostM demoXT = .ok tr ∧ demoXT.gmethod demoHostM 0 = .ok gfunc
          ∧ tr.methodvalues.index 0 = .ok cached
          ∧ demoXT1.methodvalues.index 0
              = .ok (resolvedCallable demoHostM demoXT.rtype gfunc.name cached)
          ∧ (∀ j, j ≠ 0 → demoXT1.methodvalues.index j = tr.methodvalues.index j)
          ∧ demoM =
              { Name := gfunc.name, Pkg := gfunc.pkg,
                Typ := (if (resolvedCallable demoHostM demoXT.rtype gfunc.name cached).Kind
                      = Kind.Func
                    then (resolvedCallable demoHostM demoXT.rtype gfunc.name cached).Typ.toOption
                    else none).map (demoHostM.maketype demoXT.univ gfunc.sig),
                Index := 0, GoFun := gfunc })
      ∧ (∀ j v, j ≠ 0 → demoXT.methodvalues.index j = .ok v →
          demoXT1.methodvalues.index j = .ok v)
      ∧ demoXT1.method demoHostM 0 = (demoXT1, .ok demoM)
      ∧ (∀ H2 : Host, H2.maketype = demoHostM.maketype → demoM.Typ ≠ none →
          demoXT1.method H2 0 = (demoXT1, .ok demoM)) :=
  ⟨rfl,
    method_cached demoHostM demoXT demoXT1 0 demoM demoHostM_methodsTyped (by decide)
      (by intro ms embs h; simp [demoXT, demoT, GoType.Underlying] at h) rfl⟩

end Gomacro
